import Mathlib

/-! Binlog writer of libserverframe (`src/sf_binlog_writer.c`).

A shallow embedding of the writer thread's code path:

* the bottom-level write path (`do_write_to_file`, `check_write_to_file`,
  `binlog_write_to_file`) with segment rotation and the index file,
* the per-record buffering rules (`deal_binlog_one_record`),
* the version ring (`deal_record_by_version`, `repush_to_queue`),
* one batch of the writer thread (`deal_binlog_records`, body of
  `binlog_writer_func`).

Conventions of the embedding

* C pointers into `ring.entries` are slot numbers; the intrusive queue
  (`head`, `next` links, `tail`) is the list of nodes reachable from `head`
  together with the position of the node `tail` points to.
* `uint64_t` arithmetic is on `Nat` with explicit `% 2 ^ 64`; `int` and
  `int64_t` quantities that can become negative are `Int`.
* The files of one writer (`data_path/subdir_name/`) are kept in the writer as
  `dir`.  Each system call that can fail takes its result from the head of
  `Env.oracle` (`0` is success, anything else the errno); an exhausted oracle
  means success.
* `disk_log` and `dealt` are history fields: `disk_log` records every
  successful store of the index file and every successful `write` on a
  segment, `dealt` records the argument of every call of
  `deal_binlog_one_record`.  No code path reads them.
* `sf_binlog_writer.h` is not part of the sources at hand.  The constant
  `SF_BINLOG_FILE_MAX_SIZE` is a parameter of every function that uses it;
  the structures carry the fields the functions of `sf_binlog_writer.c` use.
* Functions of libfastcommon (`safeWriteToFile`, `fc_safe_write`,
  `fc_queue_pop_all`) and system calls are external: a call either succeeds
  with its documented effect or fails with an errno.
-/

namespace SF

/-! ## Data model -/

/-- Value of `EPERM` in errno.h. -/
def EPERM : Nat := 1

/-- Value of `EIO` in errno.h. -/
def EIO : Nat := 5

/-- Value of `EBADF` in errno.h: a `write` on descriptor `-1`. -/
def EBADF : Nat := 9

/-- Value of `EACCES` in errno.h. -/
def EACCES : Nat := 13

/-- Modelled from the spec: the values of `wb->type`, declared in
`sf_binlog_writer.h` (`type ∈ {NORMAL, SET_NEXT_VERSION}`); the source tests
only for the second one. -/
inductive SFBinlogBufferType where
  | NORMAL
  | SET_NEXT_VERSION
  deriving DecidableEq, Repr

/-- Modelled from the spec: the values of `thread->order_by`, declared in
`sf_binlog_writer.h` (`order_by ∈ {ARRIVAL, VERSION}`); the source tests only
for the second one. -/
inductive SFBinlogWriterType where
  | ORDER_BY_ARRIVAL
  | ORDER_BY_VERSION
  deriving DecidableEq, Repr

/-- A record buffer (`SFBinlogWriterBuffer`): `bf` is `bf.buff[0 .. bf.length)`,
`writer` the number of the writer it is addressed to. -/
structure SFBinlogWriterBuffer where
  version : Nat
  type : SFBinlogBufferType
  bf : List Nat
  writer : Nat
  deriving DecidableEq, Repr

/-- The thread's queue: `chain` is the list of nodes reachable from `head`
through the `next` links, `tail` the position in `chain` of the node the
`tail` pointer designates. -/
structure Queue where
  chain : List SFBinlogWriterBuffer
  tail : Nat
  deriving DecidableEq, Repr

/-- State outside the writer that the writer's functions read or change:
the process-wide continue flag, the results of the system calls to come,
and the queue of the writer's thread. -/
structure Env where
  continue_flag : Bool
  oracle : List Nat
  queue : Queue
  deriving DecidableEq, Repr

/-- What has reached the disk, in order. -/
inductive DiskEvent where
  | store_index (current_write current_compress : Int)
  | append (segment : Int) (bytes : List Nat)
  deriving DecidableEq, Repr

/-- The files of one writer: `binlog_index.dat`, the segments `binlog.NNNNNN`
by number, and the segments renamed to a backup name. -/
structure Subdir where
  index_file : Option String
  segments : List (Int × List Nat)
  backups : List (Int × List Nat)
  deriving DecidableEq, Repr

/-- Fields `writer->binlog`. -/
structure BinlogIndex where
  index : Int
  compress_index : Int
  deriving DecidableEq, Repr

/-- Fields `writer->file`: `fd` is `none` for `-1`, otherwise the number of
the segment the descriptor was opened on. -/
structure BinlogFile where
  fd : Option Int
  size : Int
  deriving DecidableEq, Repr

/-- Fields `writer->binlog_buffer`: `data` is the bytes in `[buff, end)`,
`size` the capacity. -/
structure BinlogBuffer where
  data : List Nat
  size : Nat
  deriving DecidableEq, Repr

/-- Fields `writer->version_ctx.ring`; `start` and `end_` are slot numbers. -/
structure Ring where
  entries : List (Option SFBinlogWriterBuffer)
  start : Nat
  end_ : Nat
  size : Nat
  count : Int
  max_count : Int
  deriving DecidableEq, Repr

/-- Fields `writer->version_ctx`. -/
structure VersionCtx where
  next : Nat
  ring : Ring
  deriving DecidableEq, Repr

/-- One binlog stream (`SFBinlogWriterInfo`). -/
structure SFBinlogWriterInfo where
  binlog : BinlogIndex
  file : BinlogFile
  binlog_buffer : BinlogBuffer
  version_ctx : VersionCtx
  dir : Subdir
  disk_log : List DiskEvent
  dealt : List SFBinlogWriterBuffer
  deriving DecidableEq, Repr

/-- Modelled from the spec: macro `SF_BINLOG_BUFFER_LENGTH` of
`sf_binlog_writer.h`, the number of bytes used in the buffer (the buffer is
empty when `end == buff`). -/
def SF_BINLOG_BUFFER_LENGTH (b : BinlogBuffer) : Int := b.data.length

/-- Result of the next system call and the environment after it. -/
def sys_call (e : Env) : Nat × Env :=
  match e.oracle with
  | [] => (0, e)
  | r :: rest => (r, { e with oracle := rest })

/-- Content of a segment file, `none` when no file has that name. -/
def seg_find (segs : List (Int × List Nat)) (i : Int) : Option (List Nat) :=
  match segs with
  | [] => none
  | (j, bytes) :: rest => if j = i then some bytes else seg_find rest i

/-- Directory listing without the file of segment `i`. -/
def seg_remove (segs : List (Int × List Nat)) (i : Int) : List (Int × List Nat) :=
  segs.filter (fun p => decide (p.1 ≠ i))

/-- Directory listing in which segment `i` has content `bytes`. -/
def seg_put (segs : List (Int × List Nat)) (i : Int) (bytes : List Nat) :
    List (Int × List Nat) :=
  (i, bytes) :: seg_remove segs i

/-! ## Index file -/

/-- The text `sprintf` builds in `write_to_binlog_index_file`. -/
def binlog_index_text (index compress_index : Int) : String :=
  "current_write=" ++ toString index ++ "\n" ++
  "current_compress=" ++ toString compress_index ++ "\n"

/-- Function `write_to_binlog_index_file`: `safeWriteToFile` either replaces
the file by the new text or fails and leaves it as it was. -/
def write_to_binlog_index_file (e : Env) (w : SFBinlogWriterInfo) :
    Nat × Env × SFBinlogWriterInfo :=
  let buff := binlog_index_text w.binlog.index w.binlog.compress_index
  let (result, e1) := sys_call e
  if result ≠ 0 then
    (result, e1, w)
  else
    (result, e1,
      { w with
        dir := { w.dir with index_file := some buff }
        disk_log := w.disk_log ++
          [DiskEvent.store_index w.binlog.index w.binlog.compress_index] })

/-! ## Segment files -/

/-- Function `open_writable_binlog`: `open` with `O_WRONLY | O_CREAT | O_APPEND`
on the segment named by `binlog.index`, then `lseek` to the end. -/
def open_writable_binlog (e : Env) (w : SFBinlogWriterInfo) :
    Nat × Env × SFBinlogWriterInfo :=
  let (errno, e1) := sys_call e
  if errno ≠ 0 then
    (if errno ≠ 0 then errno else EACCES,
      { e1 with continue_flag := false },
      { w with file := { w.file with fd := none } })
  else
    let content := (seg_find w.dir.segments w.binlog.index).getD []
    let w1 : SFBinlogWriterInfo :=
      { w with
        file := { w.file with fd := some w.binlog.index }
        dir := { w.dir with segments := seg_put w.dir.segments w.binlog.index content } }
    let (errno2, e2) := sys_call e1
    if errno2 ≠ 0 then
      (if errno2 ≠ 0 then errno2 else EIO,
        { e2 with continue_flag := false },
        { w1 with file := { w1.file with size := -1 } })
    else
      (0, e2, { w1 with file := { w1.file with size := content.length } })

/-- Function `open_next_binlog`: a file that already has the target name is
renamed to a backup name first. -/
def open_next_binlog (e : Env) (w : SFBinlogWriterInfo) :
    Nat × Env × SFBinlogWriterInfo :=
  match seg_find w.dir.segments w.binlog.index with
  | some content =>
    let (errno, e1) := sys_call e
    if errno = 0 then
      open_writable_binlog e1
        { w with
          dir := { w.dir with
            segments := seg_remove w.dir.segments w.binlog.index
            backups := w.dir.backups ++ [(w.binlog.index, content)] } }
    else
      (if errno ≠ 0 then errno else EPERM, { e1 with continue_flag := false }, w)
  | none => open_writable_binlog e w

/-! ## Write path -/

/-- Function `do_write_to_file`: one `fc_safe_write` followed by `fsync`.  A
failed write is taken to leave the file as it was. -/
def do_write_to_file (e : Env) (w : SFBinlogWriterInfo) (buff : List Nat) :
    Nat × Env × SFBinlogWriterInfo :=
  match w.file.fd with
  | none => (EBADF, { e with continue_flag := false }, w)
  | some seg =>
    let (errno, e1) := sys_call e
    if errno ≠ 0 then
      (if errno ≠ 0 then errno else EIO, { e1 with continue_flag := false }, w)
    else
      let w1 : SFBinlogWriterInfo :=
        { w with
          dir := { w.dir with
            segments := seg_put w.dir.segments seg
              ((seg_find w.dir.segments seg).getD [] ++ buff) }
          disk_log := w.disk_log ++ [DiskEvent.append seg buff] }
      let (errno2, e2) := sys_call e1
      if errno2 ≠ 0 then
        (if errno2 ≠ 0 then errno2 else EIO, { e2 with continue_flag := false }, w1)
      else
        (0, e2, { w1 with file := { w1.file with size := w1.file.size + buff.length } })

/-- Function `check_write_to_file`: rotate when the write would cross
`SF_BINLOG_FILE_MAX_SIZE`, then write. -/
def check_write_to_file (SF_BINLOG_FILE_MAX_SIZE : Int) (e : Env)
    (w : SFBinlogWriterInfo) (buff : List Nat) : Nat × Env × SFBinlogWriterInfo :=
  if w.file.size + buff.length ≤ SF_BINLOG_FILE_MAX_SIZE then
    do_write_to_file e w buff
  else
    let w1 : SFBinlogWriterInfo :=
      { w with binlog := { w.binlog with index := w.binlog.index + 1 } }
    let (result, e2, w2) := write_to_binlog_index_file e w1
    let (result3, e3, w3) :=
      if result = 0 then open_next_binlog e2 w2 else (result, e2, w2)
    if result3 ≠ 0 then
      (result3, e3, w3)
    else
      do_write_to_file e3 w3 buff

/-- Function `binlog_write_to_file`: write the buffered bytes out and reset
the buffer, whatever the result of the write. -/
def binlog_write_to_file (SF_BINLOG_FILE_MAX_SIZE : Int) (e : Env)
    (w : SFBinlogWriterInfo) : Nat × Env × SFBinlogWriterInfo :=
  let len := SF_BINLOG_BUFFER_LENGTH w.binlog_buffer
  if len = 0 then
    (0, e, w)
  else
    let (result, e1, w1) := check_write_to_file SF_BINLOG_FILE_MAX_SIZE e w w.binlog_buffer.data
    (result, e1, { w1 with binlog_buffer := { w1.binlog_buffer with data := [] } })

/-- The `memcpy` at the end of `deal_binlog_one_record`. -/
def buffer_append (w : SFBinlogWriterInfo) (bytes : List Nat) : SFBinlogWriterInfo :=
  { w with binlog_buffer := { w.binlog_buffer with data := w.binlog_buffer.data ++ bytes } }

/-- Function `deal_binlog_one_record`, `w` being `wb->writer`. -/
def deal_binlog_one_record (SF_BINLOG_FILE_MAX_SIZE : Int) (e : Env)
    (w0 : SFBinlogWriterInfo) (wb : SFBinlogWriterBuffer) :
    Nat × Env × SFBinlogWriterInfo :=
  let w : SFBinlogWriterInfo := { w0 with dealt := w0.dealt ++ [wb] }
  if (wb.bf.length : Int) ≥ (w.binlog_buffer.size : Int) / 4 then
    let (result, e1, w1) :=
      if SF_BINLOG_BUFFER_LENGTH w.binlog_buffer > 0 then
        binlog_write_to_file SF_BINLOG_FILE_MAX_SIZE e w
      else (0, e, w)
    if result ≠ 0 then
      (result, e1, w1)
    else
      check_write_to_file SF_BINLOG_FILE_MAX_SIZE e1 w1 wb.bf
  else
    let (result, e1, w1) :=
      if w.file.size + SF_BINLOG_BUFFER_LENGTH w.binlog_buffer + wb.bf.length
          > SF_BINLOG_FILE_MAX_SIZE then
        binlog_write_to_file SF_BINLOG_FILE_MAX_SIZE e w
      else if (w.binlog_buffer.size : Int) - SF_BINLOG_BUFFER_LENGTH w.binlog_buffer
          < wb.bf.length then
        binlog_write_to_file SF_BINLOG_FILE_MAX_SIZE e w
      else (0, e, w)
    if result ≠ 0 then
      (result, e1, w1)
    else
      (0, e1, buffer_append w1 wb.bf)

/-! ## Version ring -/

/-- The `while` loop of `repush_to_queue` on the nodes from `current` on:
the result is what `previous->next` leads to once `wb` is linked in. -/
def repush_scan (wb : SFBinlogWriterBuffer) :
    List SFBinlogWriterBuffer → List SFBinlogWriterBuffer
  | [] => [wb]
  | current :: rest =>
    if wb.version > current.version then current :: repush_scan wb rest
    else wb :: current :: rest

/-- Number of nodes the `while` loop of `repush_to_queue` steps over. -/
def repush_skipped (wb : SFBinlogWriterBuffer) : List SFBinlogWriterBuffer → Nat
  | [] => 0
  | current :: rest =>
    if wb.version > current.version then repush_skipped wb rest + 1 else 0

/-- Function `repush_to_queue`.  In the last branch the `tail` pointer is not
assigned: it keeps designating the same node, whose position moves by one
when `wb` is linked in before it. -/
def repush_to_queue (q : Queue) (wb : SFBinlogWriterBuffer) : Queue :=
  match q.chain with
  | [] => { chain := [wb], tail := 0 }
  | head :: rest =>
    if wb.version ≤ head.version then
      { chain := wb :: head :: rest, tail := q.tail + 1 }
    else if wb.version > (q.chain.getD q.tail head).version then
      { chain := q.chain.take (q.tail + 1) ++ [wb], tail := q.tail + 1 }
    else
      { chain := head :: repush_scan wb rest
        tail := if repush_skipped wb rest + 1 ≤ q.tail then q.tail + 1 else q.tail }

/-- The difference `wb->version - next` of two `uint64_t`, read as `int64_t`. -/
def version_distance (version next : Nat) : Int :=
  let d : Nat := (version + 2 ^ 64 - next) % 2 ^ 64
  if d < 2 ^ 63 then (d : Int) else (d : Int) - 2 ^ 64

/-- Function `binlog_writer_set_next_version`. -/
def binlog_writer_set_next_version (w : SFBinlogWriterInfo) (next_version : Nat) :
    SFBinlogWriterInfo :=
  { w with
    version_ctx.next := next_version
    version_ctx.ring.start := next_version % w.version_ctx.ring.size
    version_ctx.ring.end_ := next_version % w.version_ctx.ring.size }

/-- Macro `DEAL_CURRENT_VERSION_WBUFFER`: the result of
`deal_binlog_one_record` is dropped, then `++next`.  (The allocator the
buffer is returned to is not modelled.) -/
def DEAL_CURRENT_VERSION_WBUFFER (SF_BINLOG_FILE_MAX_SIZE : Int) (e : Env)
    (w : SFBinlogWriterInfo) (wb : SFBinlogWriterBuffer) : Env × SFBinlogWriterInfo :=
  let (_, e1, w1) := deal_binlog_one_record SF_BINLOG_FILE_MAX_SIZE e w wb
  (e1, { w1 with version_ctx.next := (w1.version_ctx.next + 1) % 2 ^ 64 })

/-- Body of the `while` loop of `deal_record_by_version` for the record `wb`
found in the slot `start`; `index` is the local variable of that name before
its increment. -/
def drain_ring_body (SF_BINLOG_FILE_MAX_SIZE : Int) (index : Nat) (e : Env)
    (w : SFBinlogWriterInfo) (wb : SFBinlogWriterBuffer) : Env × SFBinlogWriterInfo :=
  let (e1, w1) := DEAL_CURRENT_VERSION_WBUFFER SF_BINLOG_FILE_MAX_SIZE e w wb
  (e1,
    { w1 with
      version_ctx.ring.entries :=
        w1.version_ctx.ring.entries.set w1.version_ctx.ring.start none
      version_ctx.ring.start := (index + 1) % w1.version_ctx.ring.size
      version_ctx.ring.count := w1.version_ctx.ring.count - 1 })

/-- The `while` loop of `deal_record_by_version`; `index` is the local
variable of that name.  `none` when the loop has not ended within `fuel`
evaluations of its condition. -/
def drain_ring (SF_BINLOG_FILE_MAX_SIZE : Int) :
    Nat → Nat → Env → SFBinlogWriterInfo → Option (Env × SFBinlogWriterInfo)
  | 0, _, _, _ => none
  | fuel + 1, index, e, w =>
    if w.version_ctx.ring.start = w.version_ctx.ring.end_ then some (e, w)
    else
      match w.version_ctx.ring.entries.getD w.version_ctx.ring.start none with
      | none => some (e, w)
      | some wb =>
        drain_ring SF_BINLOG_FILE_MAX_SIZE fuel (index + 1)
          (drain_ring_body SF_BINLOG_FILE_MAX_SIZE index e w wb).1
          (drain_ring_body SF_BINLOG_FILE_MAX_SIZE index e w wb).2

/-- The `expand` decision of `deal_record_by_version` for the slot `current`
(three cases: ring empty, `end > start`, `end < start`). -/
def ring_expand (r : Ring) (current : Nat) : Bool :=
  if r.start = r.end_ then true
  else if r.end_ > r.start then
    !(decide (current > r.start) && decide (current < r.end_))
  else
    (decide (current ≥ r.end_) && decide (current < r.start))

/-- The part of `deal_record_by_version` from `*current = wb` on: the record
goes into its slot, `count` and `max_count` are updated, and `end` moves when
the occupied arc is extended. -/
def ring_store (w : SFBinlogWriterInfo) (wb : SFBinlogWriterBuffer) : SFBinlogWriterInfo :=
  let current := wb.version % w.version_ctx.ring.size
  let w1 : SFBinlogWriterInfo :=
    { w with
      version_ctx.ring.entries := w.version_ctx.ring.entries.set current (some wb)
      version_ctx.ring.count := w.version_ctx.ring.count + 1 }
  let w2 : SFBinlogWriterInfo :=
    if w1.version_ctx.ring.count > w1.version_ctx.ring.max_count then
      { w1 with version_ctx.ring.max_count := w1.version_ctx.ring.count }
    else w1
  if ring_expand w2.version_ctx.ring current then
    { w2 with
      version_ctx.ring.end_ := ((wb.version + 1) % 2 ^ 64) % w2.version_ctx.ring.size }
  else w2

/-- Function `deal_record_by_version`, `w` being `wb->writer`. -/
def deal_record_by_version (SF_BINLOG_FILE_MAX_SIZE : Int) (e : Env)
    (w : SFBinlogWriterInfo) (wb : SFBinlogWriterBuffer) :
    Option (Env × SFBinlogWriterInfo) :=
  let distance := version_distance wb.version w.version_ctx.next
  if distance ≥ (w.version_ctx.ring.size : Int) - 1 then
    some ({ e with queue := repush_to_queue e.queue wb }, w)
  else
    let current := wb.version % w.version_ctx.ring.size
    if current = w.version_ctx.ring.start then
      let (e1, w1) := DEAL_CURRENT_VERSION_WBUFFER SF_BINLOG_FILE_MAX_SIZE e w wb
      let index := w1.version_ctx.ring.start
      if w1.version_ctx.ring.start = w1.version_ctx.ring.end_ then
        some (e1,
          { w1 with
            version_ctx.ring.start := (index + 1) % w1.version_ctx.ring.size
            version_ctx.ring.end_ := (index + 1) % w1.version_ctx.ring.size })
      else
        drain_ring SF_BINLOG_FILE_MAX_SIZE (w1.version_ctx.ring.size + 1) (index + 1) e1
          { w1 with version_ctx.ring.start := (index + 1) % w1.version_ctx.ring.size }
    else
      some (e, ring_store w wb)

/-! ## Writer thread -/

/-- The writer thread (`SFBinlogWriterThread`) with the writers it serves:
`flush_writers` is `flush_writers.entries[0 .. count)`, `flush_alloc` is
`flush_writers.alloc`, and a writer is named by its position in `writers`. -/
structure SFBinlogWriterThread where
  order_by : SFBinlogWriterType
  flush_writers : List Nat
  flush_alloc : Nat
  writers : List SFBinlogWriterInfo
  env : Env
  deriving DecidableEq, Repr

/-- Run a function of the writer's code on writer number `i` of the thread.
A number that names no writer of the thread leaves everything as it is. -/
def on_writer (t : SFBinlogWriterThread) (i : Nat)
    (f : Env → SFBinlogWriterInfo → Nat × Env × SFBinlogWriterInfo) :
    Nat × SFBinlogWriterThread :=
  match t.writers.get? i with
  | none => (0, t)
  | some w =>
    let (result, e1, w1) := f t.env w
    (result, { t with env := e1, writers := t.writers.set i w1 })

/-- Function `add_to_flush_writer_array`. -/
def add_to_flush_writer_array (t : SFBinlogWriterThread) (writer : Nat) :
    SFBinlogWriterThread :=
  if t.flush_writers.length = 0 then
    { t with flush_writers := [writer] }
  else if t.flush_writers.length = t.flush_alloc then t
  else if t.flush_writers.head? = some writer then t
  else if writer ∈ t.flush_writers.tail then t
  else { t with flush_writers := t.flush_writers ++ [writer] }

/-- The `for` loop of `flush_writer_files`. -/
def flush_writer_loop (SF_BINLOG_FILE_MAX_SIZE : Int) (t : SFBinlogWriterThread) :
    List Nat → Nat × SFBinlogWriterThread
  | [] => (0, t)
  | entry :: rest =>
    let (result, t1) := on_writer t entry (binlog_write_to_file SF_BINLOG_FILE_MAX_SIZE)
    if result ≠ 0 then (result, t1)
    else flush_writer_loop SF_BINLOG_FILE_MAX_SIZE t1 rest

/-- Function `flush_writer_files`. -/
def flush_writer_files (SF_BINLOG_FILE_MAX_SIZE : Int) (t : SFBinlogWriterThread) :
    Nat × SFBinlogWriterThread :=
  match t.flush_writers with
  | [entry] => on_writer t entry (binlog_write_to_file SF_BINLOG_FILE_MAX_SIZE)
  | entries => flush_writer_loop SF_BINLOG_FILE_MAX_SIZE t entries

/-- One message of the `ORDER_BY_VERSION` loop of `deal_binlog_records`. -/
def deal_versioned_message (SF_BINLOG_FILE_MAX_SIZE : Int) (t : SFBinlogWriterThread)
    (current : SFBinlogWriterBuffer) : Option SFBinlogWriterThread :=
  if current.type = SFBinlogBufferType.SET_NEXT_VERSION then
    some (on_writer t current.writer
      (fun e w => (0, e, binlog_writer_set_next_version w current.version))).2
  else
    let t1 := add_to_flush_writer_array t current.writer
    match t1.writers.get? current.writer with
    | none => some t1
    | some w =>
      match deal_record_by_version SF_BINLOG_FILE_MAX_SIZE t1.env w current with
      | none => none
      | some (e1, w1) =>
        some { t1 with env := e1, writers := t1.writers.set current.writer w1 }

/-- The `ORDER_BY_VERSION` loop of `deal_binlog_records`. -/
def deal_versioned_batch (SF_BINLOG_FILE_MAX_SIZE : Int) :
    SFBinlogWriterThread → List SFBinlogWriterBuffer → Option SFBinlogWriterThread
  | t, [] => some t
  | t, current :: wbuffer =>
    match deal_versioned_message SF_BINLOG_FILE_MAX_SIZE t current with
    | none => none
    | some t1 => deal_versioned_batch SF_BINLOG_FILE_MAX_SIZE t1 wbuffer

/-- The arrival-order loop of `deal_binlog_records`: it returns at the first
record whose result is not `0`. -/
def deal_arrival_batch (SF_BINLOG_FILE_MAX_SIZE : Int) :
    SFBinlogWriterThread → List SFBinlogWriterBuffer → Nat × SFBinlogWriterThread
  | t, [] => (0, t)
  | t, wbuffer :: rest =>
    let (result, t1) := on_writer t wbuffer.writer
      (fun e w => deal_binlog_one_record SF_BINLOG_FILE_MAX_SIZE e w wbuffer)
    if result ≠ 0 then (result, t1)
    else
      deal_arrival_batch SF_BINLOG_FILE_MAX_SIZE
        (add_to_flush_writer_array t1 wbuffer.writer) rest

/-- Function `deal_binlog_records` on the batch that starts at `wb_head`
(callers pass a batch of at least one message). -/
def deal_binlog_records (SF_BINLOG_FILE_MAX_SIZE : Int) (t : SFBinlogWriterThread)
    (wb_head : List SFBinlogWriterBuffer) : Option (Nat × SFBinlogWriterThread) :=
  let t0 : SFBinlogWriterThread := { t with flush_writers := [] }
  if t0.order_by = SFBinlogWriterType.ORDER_BY_VERSION then
    match deal_versioned_batch SF_BINLOG_FILE_MAX_SIZE t0 wb_head with
    | none => none
    | some t1 => some (flush_writer_files SF_BINLOG_FILE_MAX_SIZE t1)
  else
    let (result, t1) := deal_arrival_batch SF_BINLOG_FILE_MAX_SIZE t0 wb_head
    if result ≠ 0 then some (result, t1)
    else some (flush_writer_files SF_BINLOG_FILE_MAX_SIZE t1)

/-- Body of the `while` loop of `binlog_writer_func` for the batch `wb_head`
that `fc_queue_pop_all` returned. -/
def binlog_writer_func_batch (SF_BINLOG_FILE_MAX_SIZE : Int) (t : SFBinlogWriterThread)
    (wb_head : List SFBinlogWriterBuffer) : Option SFBinlogWriterThread :=
  match wb_head with
  | [] => some t
  | _ :: _ =>
    match deal_binlog_records SF_BINLOG_FILE_MAX_SIZE t wb_head with
    | none => none
    | some (result, t1) =>
      if result ≠ 0 then some { t1 with env.continue_flag := false }
      else some t1

/-- Function `sf_binlog_writer_set_binlog_index`. -/
def sf_binlog_writer_set_binlog_index (e : Env) (w : SFBinlogWriterInfo)
    (binlog_index : Int) : Nat × Env × SFBinlogWriterInfo :=
  if w.binlog.index ≠ binlog_index then
    let w1 : SFBinlogWriterInfo := { w with binlog.index := binlog_index }
    let (result, e2, w2) := write_to_binlog_index_file e w1
    if result ≠ 0 then (result, e2, w2)
    else open_writable_binlog e2 w2
  else open_writable_binlog e w

/-! ## Predicates used by the theorems -/

/-- What the write path leaves alone: the queue, the version ring, the
history of dealt records and the capacity of the buffer. -/
def Frame (e : Env) (w : SFBinlogWriterInfo) (r : Nat × Env × SFBinlogWriterInfo) : Prop :=
  r.2.1.queue = e.queue ∧ r.2.2.version_ctx = w.version_ctx ∧ r.2.2.dealt = w.dealt ∧
    r.2.2.binlog_buffer.size = w.binlog_buffer.size

/-- The queue is ordered by version, head first. -/
def Queue.sorted (q : Queue) : Prop :=
  q.chain.Pairwise (fun a b => a.version ≤ b.version)

/-- The `tail` pointer designates the last node of a queue that has one. -/
def Queue.tail_is_last (q : Queue) : Prop :=
  q.chain = [] ∨ q.tail + 1 = q.chain.length

/-- The version context that `sf_binlog_writer_init_by_version` sets up: a
zeroed ring of `ring_size` slots, `count = max_count = 0`, and `next`,
`start = end` as `binlog_writer_set_next_version` assigns them. -/
def version_ctx_init (next_version ring_size : Nat) : VersionCtx :=
  { next := next_version
    ring :=
      { entries := List.replicate ring_size none
        start := next_version % ring_size
        end_ := next_version % ring_size
        size := ring_size
        count := 0
        max_count := 0 } }

/-- A writer as the two `init` functions leave it when the index file names
segment `index` and that segment holds `content`: empty buffer of capacity
`buffer_size`, descriptor open on the segment, `file.size` its length. -/
def writer_init (next_version ring_size buffer_size : Nat) (index : Int)
    (content : List Nat) : SFBinlogWriterInfo :=
  { binlog := { index := index, compress_index := 0 }
    file := { fd := some index, size := content.length }
    binlog_buffer := { data := [], size := buffer_size }
    version_ctx := version_ctx_init next_version ring_size
    dir :=
      { index_file := some (binlog_index_text index 0)
        segments := [(index, content)]
        backups := [] }
    disk_log := []
    dealt := [] }

/-- An environment in which every system call succeeds, with an empty queue. -/
def env_ok : Env := { continue_flag := true, oracle := [], queue := { chain := [], tail := 0 } }

/-- A `NORMAL` record for writer `0`. -/
def normal_record (version : Nat) (bytes : List Nat) : SFBinlogWriterBuffer :=
  { version := version, type := SFBinlogBufferType.NORMAL, bf := bytes, writer := 0 }

/-- A thread as `sf_binlog_writer_init_thread_ex` leaves it for one writer
(`writer_count = 1`): no writer to flush yet, room for one. -/
def thread_init (order_by : SFBinlogWriterType) (w : SFBinlogWriterInfo) (e : Env) :
    SFBinlogWriterThread :=
  { order_by := order_by, flush_writers := [], flush_alloc := 1, writers := [w], env := e }

/-- External `fc_queue_pop_all`: the whole chain is detached, in queue order,
and the queue is left empty. -/
def fc_queue_pop_all (q : Queue) : List SFBinlogWriterBuffer × Queue :=
  (q.chain, { chain := [], tail := 0 })

/-- One turn of the `while` loop of `binlog_writer_func`: pop the queue and
deal with the batch. -/
def binlog_writer_func_turn (SF_BINLOG_FILE_MAX_SIZE : Int) (t : SFBinlogWriterThread) :
    Option SFBinlogWriterThread :=
  let (wb_head, q) := fc_queue_pop_all t.env.queue
  binlog_writer_func_batch SF_BINLOG_FILE_MAX_SIZE { t with env.queue := q } wb_head

/-- Versions of the records handed to `deal_binlog_one_record`, per writer. -/
def dealt_versions (t : SFBinlogWriterThread) : List (List Nat) :=
  t.writers.map (fun w => w.dealt.map (fun m => m.version))

/-- Versions of the messages in the thread's queue, head first. -/
def queued_versions (t : SFBinlogWriterThread) : List Nat :=
  t.env.queue.chain.map (fun m => m.version)

/-- The writer with `binlog.index` incremented (first statement of the
rotation in `check_write_to_file`). -/
def index_incremented (w : SFBinlogWriterInfo) : SFBinlogWriterInfo :=
  { w with binlog := { w.binlog with index := w.binlog.index + 1 } }

/-- All bytes the successful segment writes of a log appended, in order. -/
def appended_bytes : List DiskEvent → List Nat
  | [] => []
  | DiskEvent.store_index _ _ :: rest => appended_bytes rest
  | DiskEvent.append _ bytes :: rest => bytes ++ appended_bytes rest

/-- Segment numbers of the successful segment writes of a log, in order. -/
def appended_segments : List DiskEvent → List Int
  | [] => []
  | DiskEvent.store_index _ _ :: rest => appended_segments rest
  | DiskEvent.append seg _ :: rest => seg :: appended_segments rest

/-- Between `w` and `w1` the segment writes that succeeded appended exactly
`bytes`, in this order; and when the descriptor of `w` is open on the segment
`binlog.index` names, so is the descriptor of `w1`, and the segments written
were visited in non-decreasing number, from `w.binlog.index` up to
`w1.binlog.index`. -/
def Appends (w w1 : SFBinlogWriterInfo) (bytes : List Nat) : Prop :=
  ∃ evs, w1.disk_log = w.disk_log ++ evs ∧ appended_bytes evs = bytes ∧
    (w.file.fd = some w.binlog.index →
      w1.file.fd = some w1.binlog.index ∧ w.binlog.index ≤ w1.binlog.index ∧
      (appended_segments evs).Pairwise (fun a b => a ≤ b) ∧
      ∀ s ∈ appended_segments evs, w.binlog.index ≤ s ∧ s ≤ w1.binlog.index)

/-- The writer with `wb` added to the history of dealt records. -/
def record_noted (w : SFBinlogWriterInfo) (wb : SFBinlogWriterBuffer) : SFBinlogWriterInfo :=
  { w with dealt := w.dealt ++ [wb] }

/-- The bytes of the records of a batch, in queue order. -/
def batch_bytes : List SFBinlogWriterBuffer → List Nat
  | [] => []
  | m :: rest => m.bf ++ batch_bytes rest

/-- An operation on a writer that can change its segment index: a write
through `check_write_to_file`, or `sf_binlog_writer_set_binlog_index`. -/
inductive WriterOp where
  | write (buff : List Nat)
  | set_binlog_index (binlog_index : Int)
  deriving DecidableEq, Repr

/-- One operation on a writer. -/
def apply_op (SF_BINLOG_FILE_MAX_SIZE : Int) (e : Env) (w : SFBinlogWriterInfo) :
    WriterOp → Nat × Env × SFBinlogWriterInfo
  | WriterOp.write buff => check_write_to_file SF_BINLOG_FILE_MAX_SIZE e w buff
  | WriterOp.set_binlog_index k => sf_binlog_writer_set_binlog_index e w k

/-- A sequence of operations, each of which succeeds (`none` as soon as one
returns an error). -/
def run_ops (SF_BINLOG_FILE_MAX_SIZE : Int) :
    Env → SFBinlogWriterInfo → List WriterOp → Option (Env × SFBinlogWriterInfo)
  | e, w, [] => some (e, w)
  | e, w, op :: rest =>
    if (apply_op SF_BINLOG_FILE_MAX_SIZE e w op).1 ≠ 0 then none
    else
      run_ops SF_BINLOG_FILE_MAX_SIZE (apply_op SF_BINLOG_FILE_MAX_SIZE e w op).2.1
        (apply_op SF_BINLOG_FILE_MAX_SIZE e w op).2.2 rest

/-- Walk a disk log: `known` are the segment numbers the index file has held
so far.  `none` when a segment is written whose number the index file has not
held yet; otherwise the numbers held at the end. -/
def stored_before_written : List Int → List DiskEvent → Option (List Int)
  | known, [] => some known
  | known, DiskEvent.store_index k _ :: rest => stored_before_written (k :: known) rest
  | known, DiskEvent.append seg _ :: rest =>
    if seg ∈ known then stored_before_written known rest else none

/-- The successive calls of `deal_record_by_version` for a sequence of
messages (`none` when a call does not return). -/
def deal_records_by_version (SF_BINLOG_FILE_MAX_SIZE : Int) :
    Env → SFBinlogWriterInfo → List SFBinlogWriterBuffer → Option (Env × SFBinlogWriterInfo)
  | e, w, [] => some (e, w)
  | e, w, wb :: rest =>
    match deal_record_by_version SF_BINLOG_FILE_MAX_SIZE e w wb with
    | none => none
    | some (e1, w1) => deal_records_by_version SF_BINLOG_FILE_MAX_SIZE e1 w1 rest

/-- Every message of the sequence satisfies `ok` in the state of the writer at
the moment `deal_record_by_version` processes it. -/
def each_when_processed (SF_BINLOG_FILE_MAX_SIZE : Int)
    (ok : SFBinlogWriterInfo → SFBinlogWriterBuffer → Bool) :
    Env → SFBinlogWriterInfo → List SFBinlogWriterBuffer → Bool
  | _, _, [] => true
  | e, w, wb :: rest =>
    ok w wb &&
      match deal_record_by_version SF_BINLOG_FILE_MAX_SIZE e w wb with
      | none => true
      | some (e1, w1) => each_when_processed SF_BINLOG_FILE_MAX_SIZE ok e1 w1 rest

/-- The condition under which a message is not repushed, as the
specification words it: `version - next < ring_size - 1`. -/
def below_repush_distance (w : SFBinlogWriterInfo) (wb : SFBinlogWriterBuffer) : Bool :=
  decide ((wb.version : Int) - (w.version_ctx.next : Int) < (w.version_ctx.ring.size : Int) - 1)

/-- The version is at most `next + (ring_size - 2)`. -/
def at_most_window_end (w : SFBinlogWriterInfo) (wb : SFBinlogWriterBuffer) : Bool :=
  decide ((wb.version : Int) ≤ (w.version_ctx.next : Int) + ((w.version_ctx.ring.size : Int) - 2))

/-- The version is at least `next` and at most `next + (ring_size - 2)`. -/
def within_window (w : SFBinlogWriterInfo) (wb : SFBinlogWriterBuffer) : Bool :=
  decide (w.version_ctx.next ≤ wb.version) && at_most_window_end w wb

/-- State of the version ring between two messages (`lo = 1`) and at the head
of the draining loop (`lo = 0`): the slots are `size ≥ 2` in number, `start`
is the slot of `next`, `end` the slot of `next + hi`, and a slot `i` that is
occupied holds a version `v` with `v mod size = i` and
`next + lo ≤ v < next + hi`. -/
def RingOk (lo hi : Nat) (c : VersionCtx) : Prop :=
  2 ≤ c.ring.size ∧ c.ring.size < 2 ^ 31 ∧ c.ring.entries.length = c.ring.size ∧
    c.ring.start = c.next % c.ring.size ∧ c.ring.end_ = (c.next + hi) % c.ring.size ∧
    hi + 1 ≤ c.ring.size ∧
    ∀ i wb, c.ring.entries[i]? = some (some wb) →
      wb.version % c.ring.size = i ∧ c.next + lo ≤ wb.version ∧ wb.version < c.next + hi ∧
      wb.version + 1 < 2 ^ 64

/-- The records dealt since the history was `D` carry the versions
`n0, n0 + 1, ..., next - 1`, in this order. -/
def DealtOk (D : List SFBinlogWriterBuffer) (n0 : Nat) (w : SFBinlogWriterInfo) : Prop :=
  n0 ≤ w.version_ctx.next ∧
    ∃ L, w.dealt = D ++ L ∧
      L.map (fun m => m.version) = List.range' n0 (w.version_ctx.next - n0)

/-- State at the head of the draining loop of `deal_record_by_version`: the ring
is as `RingOk 0 m` says, the dealt records are consecutive from `n0`, the
queue is `q`, and `start` is the slot of the loop variable `index`. -/
def DrainOk (D : List SFBinlogWriterBuffer) (n0 : Nat) (q : Queue) (m index : Nat) (e : Env)
    (w : SFBinlogWriterInfo) : Prop :=
  RingOk 0 m w.version_ctx ∧ DealtOk D n0 w ∧ e.queue = q ∧
    index % w.version_ctx.ring.size = w.version_ctx.ring.start

/-- Bookkeeping of the ring when every version is submitted once: the ring has
`s` slots, `count` is the number of occupied slots, the slot just before `end` is occupied unless
`end = start` (`hi = 0`), and the records dealt since the history was `D`
together with the records waiting in the ring are the messages `P` processed
so far. -/
def RingFull (s hi : Nat) (P D : List SFBinlogWriterBuffer) (w : SFBinlogWriterInfo) :
    Prop :=
  w.version_ctx.ring.size = s ∧
  w.version_ctx.ring.count = (w.version_ctx.ring.entries.reduceOption.length : Int) ∧
    (hi = 0 ∨ ∃ wb, w.version_ctx.ring.entries[
      (w.version_ctx.next + hi - 1) % w.version_ctx.ring.size]? = some (some wb)) ∧
    ∃ L, w.dealt = D ++ L ∧ (L ++ w.version_ctx.ring.entries.reduceOption).Perm P

/-- A call `sf_binlog_writer_set_binlog_index(writer, 5)` on a fresh writer
whose index file holds segment 0, in which the store of the index file fails
with errno 28. -/
def set_index_failed : Nat × Env × SFBinlogWriterInfo :=
  sf_binlog_writer_set_binlog_index { env_ok with oracle := [28] } (writer_init 0 4 64 0 []) 5

/-- The same call made again after `set_index_failed`, every system call
succeeding from now on. -/
def set_index_retried : Nat × Env × SFBinlogWriterInfo :=
  sf_binlog_writer_set_binlog_index set_index_failed.2.1 set_index_failed.2.2 5

/-- A write of 3 bytes through `check_write_to_file` after `set_index_retried`,
with `SF_BINLOG_FILE_MAX_SIZE = 100`. -/
def written_after_retry : Nat × Env × SFBinlogWriterInfo :=
  check_write_to_file 100 set_index_retried.2.1 set_index_retried.2.2 [1, 2, 3]

/-! ## Loading the index file

`iniLoadFromFile`, `iniGetIntValue` (libfastcommon) and `atoi` are external.
They are modelled on texts made of lines `name=value` without blanks, which
is what `write_to_binlog_index_file` writes; sections, comments and the
trimming of blanks are left out. -/

/-- The lines of a text, split at every line feed. -/
def ini_lines : List Char → List (List Char)
  | [] => [[]]
  | c :: rest =>
    if c = '\n' then [] :: ini_lines rest
    else
      match ini_lines rest with
      | [] => [[c]]
      | l :: ls => (c :: l) :: ls

/-- A line split at its first `=`: the name, and the value when there is
an `=`. -/
def ini_item : List Char → List Char × Option (List Char)
  | [] => ([], none)
  | c :: rest =>
    if c = '=' then ([], some rest)
    else ((c :: (ini_item rest).1), (ini_item rest).2)

/-- External `iniLoadFromFile`: the items `name=value` of the text, in the
order of the lines. -/
def iniLoadFromFile (text : String) : List (List Char × List Char) :=
  (ini_lines text.data).filterMap
    (fun line => (ini_item line).2.map (fun value => ((ini_item line).1, value)))

/-- The digits at the head of a text, read as a decimal number on top of
`acc`. -/
def atoi_digits (acc : Nat) : List Char → Nat
  | [] => acc
  | c :: rest =>
    if c.isDigit then atoi_digits (acc * 10 + (c.toNat - 48)) rest else acc

/-- External `atoi` on a text without leading blanks: an optional sign and
the decimal digits that follow. -/
def atoi : List Char → Int
  | '-' :: rest => - (atoi_digits 0 rest : Int)
  | '+' :: rest => (atoi_digits 0 rest : Int)
  | s => (atoi_digits 0 s : Int)

/-- A value converted to `int`: 32 bits, two's complement. -/
def to_int32 (v : Int) : Int := (v + 2 ^ 31) % 2 ^ 32 - 2 ^ 31

/-- External `iniGetIntValue` in the global section: `atoi` of the value of
the first item called `name`, as an `int`; `default` when there is none. -/
def iniGetIntValue (name : String) (ini_context : List (List Char × List Char))
    (default : Int) : Int :=
  match ini_context.find? (fun item => decide (item.1 = name.data)) with
  | some item => to_int32 (atoi item.2)
  | none => default

/-- Function `get_binlog_index_from_file`.  `access` fails with `ENOENT` when
`binlog_index.dat` is missing; in every other case the file is loaded, and
`iniLoadFromFile` takes its result from the oracle. -/
def get_binlog_index_from_file (e : Env) (w : SFBinlogWriterInfo) :
    Nat × Env × SFBinlogWriterInfo :=
  match w.dir.index_file with
  | none =>
    write_to_binlog_index_file e { w with binlog := { w.binlog with index := 0 } }
  | some text =>
    let (result, e1) := sys_call e
    if result ≠ 0 then
      (result, e1, w)
    else
      let ini_context := iniLoadFromFile text
      let w1 : SFBinlogWriterInfo :=
        { w with binlog := { w.binlog with
            index := iniGetIntValue "current_write" ini_context 0 } }
      (0, e1,
        { w1 with binlog := { w1.binlog with
            compress_index := iniGetIntValue "current_compress" ini_context 0 } })

/-- A writer that holds the indexes `(5, 7)` in memory while its directory
has no `binlog_index.dat`. -/
def writer_without_index_file : SFBinlogWriterInfo :=
  { binlog := { index := 5, compress_index := 7 }
    file := { fd := none, size := 0 }
    binlog_buffer := { data := [], size := 64 }
    version_ctx := version_ctx_init 1 4
    dir := { index_file := none, segments := [], backups := [] }
    disk_log := []
    dealt := [] }

/-! ## Receipt handler of the idempotency client

Shallow embedding of `src/idempotency/client/receipt_handler.c`.

* One task and its channel (`task->arg`) make up a `ReceiptState`, together
  with what the functions reach through the task: the list heads of the
  thread's LRU list, the clock `g_current_time`, and the results of the calls
  into the network loop to come (`0` is success, an exhausted list means
  success).
* `task->data` is seen through the structures the source casts it to: the
  common header with its fields, and the bytes behind it (`body`), which are
  read and written at byte offsets.
* A chain of receipts (`head`, `next` links) is the list of the receipts
  reachable from `head`; a `tail` pointer is the receipt it designates.
* The list heads (`struct fc_list_head`) are numbered; number `0` is
  `thread_ctx->head`, and a channel holds the number of its `dlink`.
* `client_channel.h`, `sf_proto.h` and `sf_nio.h` are not part of the sources
  at hand: the sizes of the headers and the command codes are parameters
  (`ProtoConsts`), the structures carry the fields the source uses.
* A function returns `none` where the C code dereferences a null pointer.
* `reported` is a history field: the receipts whose `req_id` was written into
  a frame, frame by frame.  No code path reads it.
-/

/-- Value of `EINVAL` in errno.h. -/
def EINVAL : Int := 22

/-- Value of `ETIMEDOUT` in errno.h. -/
def ETIMEDOUT : Int := 110

/-- Modelled from the spec: what the protocol headers `sf_proto.h` and
`client_channel.h` define and the sources at hand lack, namely
`sizeof(SFCommonProtoHeader)`, `sizeof(FSProtoReportReqReceiptHeader)` and the
four command codes. -/
structure ProtoConsts where
  header_size : Nat
  receipt_header_size : Nat
  FS_SERVICE_PROTO_SETUP_CHANNEL_REQ : Nat
  FS_SERVICE_PROTO_SETUP_CHANNEL_RESP : Nat
  FS_SERVICE_PROTO_REPORT_REQ_RECEIPT_REQ : Nat
  FS_SERVICE_PROTO_REPORT_REQ_RECEIPT_RESP : Nat
  deriving DecidableEq, Repr

/-- Modelled from the spec: `sizeof(FSProtoSetupChannelReq)` and
`sizeof(FSProtoSetupChannelResp)`, a body `{ u32 channel_id_be; u32 key_be }`. -/
def SETUP_CHANNEL_BODY_SIZE : Nat := 8

/-- Modelled from the spec: `sizeof(FSProtoReportReqReceiptBody)`, one cell
`{ u64 req_id_be }`. -/
def RECEIPT_BODY_SIZE : Nat := 8

/-- Modelled from the spec: the stages of a task (`sf_nio.h`).  The source
tests for `CONNECT`, `HANDSHAKE` and `CONTINUE`; in any other stage (`RECV`) a
response has arrived. -/
inductive NioStage where
  | CONNECT
  | HANDSHAKE
  | RECV
  | CONTINUE
  deriving DecidableEq, Repr

/-- The fields of `SFCommonProtoHeader` the source uses: `body_len` (4 bytes),
`status` (2 bytes) and `cmd`. -/
structure SFCommonProtoHeader where
  body_len : List Nat
  status : List Nat
  cmd : Nat
  deriving DecidableEq, Repr

/-- The fields of `struct fast_task_info` the source uses: `fd` is
`event.fd`, `header` the common header at `data`, `body` the bytes from
`data + sizeof(SFCommonProtoHeader)` on. -/
structure FastTaskInfo where
  stage : NioStage
  fd : Int
  offset : Int
  length : Int
  size : Int
  header : SFCommonProtoHeader
  body : List Nat
  deriving DecidableEq, Repr

/-- A receipt (`IdempotencyClientReceipt`): its `req_id`; the `next` link is
the order of the chain it is in. -/
structure IdempotencyClientReceipt where
  req_id : Nat
  deriving DecidableEq, Repr

/-- A pair of `head` and `tail` pointers (`struct fc_queue_info`, and the
same two fields of `struct fc_queue`). -/
structure FcQueueInfo where
  chain : List IdempotencyClientReceipt
  tail : Option IdempotencyClientReceipt
  deriving DecidableEq, Repr

/-- One list head (`struct fc_list_head`): the numbers of the heads its two
pointers designate. -/
structure FcListHead where
  next : Nat
  prev : Nat
  deriving DecidableEq, Repr

/-- Modelled from the spec: the fields of `IdempotencyClientChannel`
(`client_channel.h`) the source uses.  `receipt_allocator` is the list of the
receipts given back to the allocator. -/
structure IdempotencyClientChannel where
  id : Int
  key : Int
  established : Int
  in_ioevent : Int
  last_pkg_time : Int
  dlink : Nat
  queue : FcQueueInfo
  waiting_resp_qinfo : FcQueueInfo
  receipt_allocator : List IdempotencyClientReceipt
  deriving DecidableEq, Repr

/-- A task, its channel and what they reach. -/
structure ReceiptState where
  task : FastTaskInfo
  channel : IdempotencyClientChannel
  nodes : List FcListHead
  g_current_time : Int
  nio_results : List Int
  reported : List (List IdempotencyClientReceipt)
  deriving DecidableEq, Repr

/-! ### External functions -/

/-- A value converted to `short`: 16 bits, two's complement. -/
def to_int16 (v : Int) : Int := (v + 2 ^ 15) % 2 ^ 16 - 2 ^ 15

/-- External `int2buff`: the 4 bytes of an `int`, most significant first. -/
def int2buff (n : Int) : List Nat :=
  [(n % 2 ^ 32).toNat / 2 ^ 24 % 256, (n % 2 ^ 32).toNat / 2 ^ 16 % 256,
    (n % 2 ^ 32).toNat / 2 ^ 8 % 256, (n % 2 ^ 32).toNat % 256]

/-- External `long2buff`: the 8 bytes of an `int64_t`, most significant
first. -/
def long2buff (n : Int) : List Nat :=
  [(n % 2 ^ 64).toNat / 2 ^ 56 % 256, (n % 2 ^ 64).toNat / 2 ^ 48 % 256,
    (n % 2 ^ 64).toNat / 2 ^ 40 % 256, (n % 2 ^ 64).toNat / 2 ^ 32 % 256,
    (n % 2 ^ 64).toNat / 2 ^ 24 % 256, (n % 2 ^ 64).toNat / 2 ^ 16 % 256,
    (n % 2 ^ 64).toNat / 2 ^ 8 % 256, (n % 2 ^ 64).toNat % 256]

/-- External `buff2int`: 4 bytes, most significant first, as an `int`. -/
def buff2int (b : List Nat) : Int :=
  to_int32 (((b.getD 0 0 % 256) * 2 ^ 24 + (b.getD 1 0 % 256) * 2 ^ 16 +
    (b.getD 2 0 % 256) * 2 ^ 8 + b.getD 3 0 % 256 : Nat) : Int)

/-- External `buff2short`: 2 bytes, most significant first, as a `short`. -/
def buff2short (b : List Nat) : Int :=
  to_int16 (((b.getD 0 0 % 256) * 2 ^ 8 + b.getD 1 0 % 256 : Nat) : Int)

/-- The bytes `buf[off .. off + n)`. -/
def buf_read (buf : List Nat) (off n : Nat) : List Nat := (buf.drop off).take n

/-- The buffer after `bytes` were stored at `buf + off`. -/
def buf_write (buf : List Nat) (off : Nat) (bytes : List Nat) : List Nat :=
  buf.take off ++ bytes ++ buf.drop (off + bytes.length)

/-- The list head number `i`; a number without a head reads as a head that
points to itself. -/
def node_get (nodes : List FcListHead) (i : Nat) : FcListHead :=
  nodes.getD i { next := i, prev := i }

/-- Assignment `i->next = v`. -/
def set_next (nodes : List FcListHead) (i v : Nat) : List FcListHead :=
  nodes.set i { node_get nodes i with next := v }

/-- Assignment `i->prev = v`. -/
def set_prev (nodes : List FcListHead) (i v : Nat) : List FcListHead :=
  nodes.set i { node_get nodes i with prev := v }

/-- External `fc_list_add_tail` (`fc_list.h` of libfastcommon):
`_new->next = head; _new->prev = head->prev; _new->prev->next = _new;
_new->next->prev = _new`. -/
def fc_list_add_tail (nodes : List FcListHead) (new head : Nat) : List FcListHead :=
  let n1 := set_next nodes new head
  let n2 := set_prev n1 new (node_get n1 head).prev
  let n3 := set_next n2 (node_get n2 new).prev new
  set_prev n3 (node_get n3 new).next new

/-- The unlinking step of `fc_list_del_init` and `fc_list_move_tail`:
`old->prev->next = old->next; old->next->prev = old->prev`. -/
def fc_list_unlink (nodes : List FcListHead) (old : Nat) : List FcListHead :=
  let n1 := set_next nodes (node_get nodes old).prev (node_get nodes old).next
  set_prev n1 (node_get n1 old).next (node_get n1 old).prev

/-- External `fc_list_move_tail`: unlink, then `fc_list_add_tail`. -/
def fc_list_move_tail (nodes : List FcListHead) (list head : Nat) : List FcListHead :=
  fc_list_add_tail (fc_list_unlink nodes list) list head

/-- The number of `thread_ctx->head`. -/
def thread_ctx_head : Nat := 0

/-- External `fc_queue_pop_to_queue`: the whole queue moves into the pair,
the queue is left empty. -/
def fc_queue_pop_to_queue (queue : FcQueueInfo) : FcQueueInfo × FcQueueInfo :=
  if queue.chain ≠ [] then
    ({ chain := [], tail := none }, { chain := queue.chain, tail := queue.tail })
  else
    (queue, { chain := [], tail := none })

/-- External `fc_queue_push_queue_to_head_ex`: the chain of the pair is
linked in front of the queue (`qinfo->tail->next = queue->head;
queue->head = qinfo->head`), and becomes the queue when that was empty. -/
def fc_queue_push_queue_to_head_ex (queue qinfo : FcQueueInfo) : FcQueueInfo :=
  if qinfo.chain = [] then queue
  else
    { chain := qinfo.chain ++ queue.chain
      tail := if queue.tail = none then qinfo.tail else queue.tail }

/-- Result of the next call into the network loop. -/
def nio_call (s : ReceiptState) : Int × ReceiptState :=
  match s.nio_results with
  | [] => (0, s)
  | r :: rest => (r, { s with nio_results := rest })

/-- Modelled from the spec: `sf_send_add_event` of `sf_nio.h` hands the frame
in `task->data` to the network loop; only its result is modelled. -/
def sf_send_add_event (s : ReceiptState) : Int × ReceiptState := nio_call s

/-- Modelled from the spec: `sf_set_read_event` of `sf_nio.h` makes the task
wait for input; only its result is modelled. -/
def sf_set_read_event (s : ReceiptState) : Int × ReceiptState := nio_call s

/-- Modelled from the spec: `idempotency_client_channel_set_id_key` of
`client_channel.h` stores the pair `(id, key)` in the channel. -/
def idempotency_client_channel_set_id_key (channel : IdempotencyClientChannel)
    (id key : Int) : IdempotencyClientChannel :=
  { channel with id := id, key := key }

/-- Modelled from the spec: macro `FS_PROTO_SET_HEADER` of the protocol
header, which stores the command code and the body length. -/
def FS_PROTO_SET_HEADER (header : SFCommonProtoHeader) (cmd : Nat) (body_len : Int) :
    SFCommonProtoHeader :=
  { header with cmd := cmd, body_len := int2buff body_len }

/-! ### Functions of `receipt_handler.c` -/

/-- Function `receipt_recv_timeout_callback`. -/
def receipt_recv_timeout_callback (s : ReceiptState) : Int × ReceiptState :=
  if s.task.stage = NioStage.CONNECT then
    (ETIMEDOUT, s)
  else if s.channel.waiting_resp_qinfo.chain ≠ [] then
    (ETIMEDOUT, s)
  else
    (0, s)

/-- Function `setup_channel_request`. -/
def setup_channel_request (P : ProtoConsts) (s : ReceiptState) : Int × ReceiptState :=
  let body1 := buf_write s.task.body 0 (int2buff s.channel.id)
  let body2 := buf_write body1 4 (int2buff s.channel.key)
  let header := FS_PROTO_SET_HEADER s.task.header P.FS_SERVICE_PROTO_SETUP_CHANNEL_REQ
    SETUP_CHANNEL_BODY_SIZE
  sf_send_add_event
    { s with task := { s.task with
        body := body2
        header := header
        length := P.header_size + SETUP_CHANNEL_BODY_SIZE } }

/-- The `do ... while (receipt != NULL)` loop of `check_report_req_receipt`
from the receipt `receipt` on, `n` cells being written already
(`n = rbody - rstart`): the buffer, the number of cells, `last`, and the chain
from `receipt` on when the loop ends.  The test for the remaining space
compares a pointer difference with a `size_t`, that is, as unsigned 64-bit
numbers. -/
def report_loop (P : ProtoConsts) (size : Int) :
    List Nat → Nat → Option IdempotencyClientReceipt → List IdempotencyClientReceipt →
      List Nat × Nat × Option IdempotencyClientReceipt × List IdempotencyClientReceipt
  | body, n, last, [] => (body, n, last, [])
  | body, n, last, receipt :: rest =>
    if (size - (P.header_size + P.receipt_header_size + RECEIPT_BODY_SIZE * n : Nat)) % 2 ^ 64
        < (RECEIPT_BODY_SIZE : Int) then
      (body, n, last, receipt :: rest)
    else
      report_loop P size
        (buf_write body (P.receipt_header_size + RECEIPT_BODY_SIZE * n)
          (long2buff receipt.req_id))
        (n + 1) (some receipt) rest

/-- Function `check_report_req_receipt`: the result, `*count` and the state.
`none` stands for the assignment `last->next = NULL` with `last == NULL`. -/
def check_report_req_receipt (P : ProtoConsts) (s : ReceiptState) :
    Option (Int × Int × ReceiptState) :=
  if s.task.length > 0 then
    some (0, 0, s)
  else if s.channel.waiting_resp_qinfo.chain ≠ [] then
    some (0, 0, s)
  else
    let popped := fc_queue_pop_to_queue s.channel.queue
    if popped.2.chain = [] then
      some (0, 0,
        { s with channel := { s.channel with queue := popped.1, waiting_resp_qinfo := popped.2 } })
    else
      let walked := report_loop P s.task.size s.task.body 0 none popped.2.chain
      let split : Option (FcQueueInfo × FcQueueInfo) :=
        if walked.2.2.2 ≠ [] then
          match walked.2.2.1 with
          | none => none
          | some last =>
            some (fc_queue_push_queue_to_head_ex popped.1
                { chain := walked.2.2.2, tail := popped.2.tail },
              { chain := popped.2.chain.take walked.2.1, tail := some last })
        else some (popped.1, popped.2)
      match split with
      | none => none
      | some (queue2, waiting2) =>
        let count : Int := walked.2.1
        let body2 := buf_write walked.1 0 (int2buff count)
        let length : Int :=
          (P.header_size + P.receipt_header_size + RECEIPT_BODY_SIZE * walked.2.1 : Nat)
        let header : SFCommonProtoHeader :=
          { s.task.header with
            body_len := int2buff (length - P.header_size)
            cmd := P.FS_SERVICE_PROTO_REPORT_REQ_RECEIPT_REQ }
        let sent := sf_send_add_event
          { s with
            task := { s.task with body := body2, length := length, header := header }
            channel := { s.channel with queue := queue2, waiting_resp_qinfo := waiting2 }
            reported := s.reported ++ [popped.2.chain.take walked.2.1] }
        some (sent.1, count, sent.2)

/-- Function `update_lru_chain`. -/
def update_lru_chain (s : ReceiptState) : ReceiptState :=
  { s with
    channel := { s.channel with last_pkg_time := s.g_current_time }
    nodes := fc_list_move_tail s.nodes s.channel.dlink thread_ctx_head }

/-- Function `report_req_receipt_request`; the result of `sf_set_read_event`
is dropped. -/
def report_req_receipt_request (P : ProtoConsts) (s : ReceiptState) (update_lru : Bool) :
    Option (Int × ReceiptState) :=
  match check_report_req_receipt P s with
  | none => none
  | some (result, count, s1) =>
    if result ≠ 0 then some (result, s1)
    else if count = 0 then some (0, (sf_set_read_event s1).2)
    else if update_lru then some (0, update_lru_chain s1)
    else some (0, s1)

/-- The body length `(int)(task->length - sizeof(SFCommonProtoHeader))`. -/
def response_body_length (P : ProtoConsts) (task : FastTaskInfo) : Int :=
  to_int32 (task.length - P.header_size)

/-- Function `receipt_expect_body_length`. -/
def receipt_expect_body_length (P : ProtoConsts) (task : FastTaskInfo)
    (expect_body_len : Int) : Int :=
  if response_body_length P task ≠ expect_body_len then EINVAL else 0

/-- The compare-and-swap of `established` from 0 to 1 in
`deal_setup_channel_response`, followed by `fc_list_add_tail` when it
succeeds. -/
def channel_set_established (s : ReceiptState) : ReceiptState :=
  if s.channel.established = 0 then
    { s with
      channel := { s.channel with established := 1 }
      nodes := fc_list_add_tail s.nodes s.channel.dlink thread_ctx_head }
  else s

/-- The last step of `deal_setup_channel_response`: a chain in
`waiting_resp_qinfo` goes back in front of the producer queue. -/
def repush_waiting_resp (s : ReceiptState) : ReceiptState :=
  if s.channel.waiting_resp_qinfo.chain ≠ [] then
    { s with channel := { s.channel with
        queue := fc_queue_push_queue_to_head_ex s.channel.queue s.channel.waiting_resp_qinfo
        waiting_resp_qinfo := { chain := [], tail := none } } }
  else s

/-- Function `deal_setup_channel_response`. -/
def deal_setup_channel_response (P : ProtoConsts) (s : ReceiptState) : Int × ReceiptState :=
  if receipt_expect_body_length P s.task SETUP_CHANNEL_BODY_SIZE ≠ 0 then
    (receipt_expect_body_length P s.task SETUP_CHANNEL_BODY_SIZE, s)
  else if s.channel.established ≠ 0 then
    (0, s)
  else
    (0, repush_waiting_resp (channel_set_established
      { s with channel :=
          (idempotency_client_channel_set_id_key s.channel
            (buff2int (buf_read s.task.body 0 4)) (buff2int (buf_read s.task.body 4 4))) }))

/-- Function `deal_report_req_receipt_response`: every receipt of
`waiting_resp_qinfo` goes back to the allocator, in chain order. -/
def deal_report_req_receipt_response (P : ProtoConsts) (s : ReceiptState) :
    Int × ReceiptState :=
  if receipt_expect_body_length P s.task 0 ≠ 0 then
    (receipt_expect_body_length P s.task 0, s)
  else if s.channel.waiting_resp_qinfo.chain = [] then
    (0, s)
  else
    (0, { s with channel := { s.channel with
        receipt_allocator := s.channel.receipt_allocator ++ s.channel.waiting_resp_qinfo.chain
        waiting_resp_qinfo := { chain := [], tail := none } } })

/-- The assignment `task->offset = task->length = 0`. -/
def task_reset (s : ReceiptState) : ReceiptState :=
  { s with task := { s.task with offset := 0, length := 0 } }

/-- The `switch` of `receipt_deal_task` on the command of a response. -/
def deal_response_cmd (P : ProtoConsts) (s : ReceiptState) : Int × ReceiptState :=
  if s.task.header.cmd = P.FS_SERVICE_PROTO_SETUP_CHANNEL_RESP then
    deal_setup_channel_response P s
  else if s.task.header.cmd = P.FS_SERVICE_PROTO_REPORT_REQ_RECEIPT_RESP then
    deal_report_req_receipt_response P s
  else (EINVAL, s)

/-- The part of `receipt_deal_task` that handles a response: the status, the
`switch` on the command, and what follows a result of 0. -/
def deal_response (P : ProtoConsts) (s : ReceiptState) : Option (Int × ReceiptState) :=
  if buff2short s.task.header.status ≠ 0 then
    some (buff2short s.task.header.status, s)
  else if (deal_response_cmd P s).1 = 0 then
    report_req_receipt_request P (task_reset (update_lru_chain (deal_response_cmd P s).2)) false
  else some (deal_response_cmd P s)

/-- The `do ... while (0)` block of `receipt_deal_task`. -/
def deal_task_stage (P : ProtoConsts) (s : ReceiptState) : Option (Int × ReceiptState) :=
  if s.task.stage = NioStage.HANDSHAKE then
    some (setup_channel_request P s)
  else if s.task.stage = NioStage.CONTINUE then
    if s.channel.established ≠ 0 then report_req_receipt_request P s true
    else some (0, s)
  else deal_response P s

/-- Function `receipt_deal_task`: a positive result is returned negated. -/
def receipt_deal_task (P : ProtoConsts) (s : ReceiptState) : Option (Int × ReceiptState) :=
  (deal_task_stage P s).map (fun p => (if p.1 > 0 then -1 * p.1 else p.1, p.2))

/-- The walk `fc_list_for_each_entry_safe` from the list head number `pos`
on: the heads met before `head` is reached, `none` when `head` is not reached
within `fuel` steps. -/
def lru_walk (nodes : List FcListHead) (head : Nat) : Nat → Nat → Option (List Nat)
  | 0, _ => none
  | fuel + 1, pos =>
    if pos = head then some []
    else (lru_walk nodes head fuel (node_get nodes pos).next).map (fun l => pos :: l)

/-- Function `receipt_thread_loop_callback`: a walk over the LRU list of the
thread with an empty body. -/
def receipt_thread_loop_callback (fuel : Nat) (s : ReceiptState) : Option Int :=
  (lru_walk s.nodes thread_ctx_head fuel (node_get s.nodes thread_ctx_head).next).map
    (fun _ => 0)

/-! ### States, inputs and events used by the theorems -/

/-- Protocol constants for the examples: a common header of 16 bytes, a
receipt header of 8 bytes, and four distinct command codes. -/
def proto_example : ProtoConsts :=
  { header_size := 16
    receipt_header_size := 8
    FS_SERVICE_PROTO_SETUP_CHANNEL_REQ := 51
    FS_SERVICE_PROTO_SETUP_CHANNEL_RESP := 52
    FS_SERVICE_PROTO_REPORT_REQ_RECEIPT_REQ := 55
    FS_SERVICE_PROTO_REPORT_REQ_RECEIPT_RESP := 56 }

/-- The receipts with the given `req_id`s, in order. -/
def receipts (req_ids : List Nat) : List IdempotencyClientReceipt :=
  req_ids.map (fun i => { req_id := i })

/-- A queue or pair that holds the given chain, `tail` on its last receipt. -/
def chain_queue (chain : List IdempotencyClientReceipt) : FcQueueInfo :=
  { chain := chain, tail := chain.getLast? }

/-- A state for the examples: a task without pending output whose buffer
holds `size` zero bytes behind a header of `proto_example`, and a channel
that is not established, with list head number 1 off the thread's LRU list,
`queue` as producer queue and `waiting` as `waiting_resp_qinfo`; the LRU list
is empty and every call into the network loop succeeds. -/
def receipt_state (size : Nat) (queue waiting : List IdempotencyClientReceipt) :
    ReceiptState :=
  { task :=
      { stage := NioStage.RECV
        fd := 3
        offset := 0
        length := 0
        size := (16 + size : Nat)
        header := { body_len := [0, 0, 0, 0], status := [0, 0], cmd := 0 }
        body := List.replicate size 0 }
    channel :=
      { id := 0
        key := 0
        established := 0
        in_ioevent := 1
        last_pkg_time := 0
        dlink := 1
        queue := chain_queue queue
        waiting_resp_qinfo := chain_queue waiting
        receipt_allocator := [] }
    nodes := [{ next := 0, prev := 0 }, { next := 1, prev := 1 }]
    g_current_time := 0
    nio_results := []
    reported := [] }

/-- What the network loop has set in the task when it calls back: the clock,
the stage, the descriptor, and the frame in `task->data` with its length. -/
structure TaskInput where
  now : Int
  stage : NioStage
  fd : Int
  offset : Int
  length : Int
  header : SFCommonProtoHeader
  body : List Nat
  deriving DecidableEq, Repr

/-- The state as a callback finds it. -/
def task_input (s : ReceiptState) (inp : TaskInput) : ReceiptState :=
  { s with
    g_current_time := inp.now
    task := { s.task with
      stage := inp.stage
      fd := inp.fd
      offset := inp.offset
      length := inp.length
      header := inp.header
      body := inp.body } }

/-- The input of a received response: command, status bytes and body, at
time `now`. -/
def response_input (P : ProtoConsts) (now : Int) (cmd : Nat) (status body : List Nat) :
    TaskInput :=
  { now := now
    stage := NioStage.RECV
    fd := 3
    offset := 0
    length := (P.header_size + body.length : Nat)
    header := { body_len := int2buff body.length, status := status, cmd := cmd }
    body := body }

/-- The bytes of the cells of a chain of receipts: 8 bytes for each `req_id`,
most significant first, in chain order. -/
def receipt_cells (chain : List IdempotencyClientReceipt) : List Nat :=
  (chain.map (fun r => long2buff r.req_id)).flatten

/-- The buffer of the task has room for exactly `c` cells behind the common
header and the receipt header, and `task->size` is a size in memory. -/
def room_for (P : ProtoConsts) (task : FastTaskInfo) (c : Nat) : Prop :=
  ((P.header_size + P.receipt_header_size + 8 * c : Nat) : Int) ≤ task.size ∧
    task.size < ((P.header_size + P.receipt_header_size + 8 * (c + 1) : Nat) : Int) ∧
    task.size < 2 ^ 63

/-- The state when a response has been received into the buffer of the task:
the bytes of its body overwrite the start of `body`, `task->length` is the
length of the frame. -/
def receive_response (P : ProtoConsts) (s : ReceiptState) (now : Int) (cmd : Nat)
    (status body : List Nat) : ReceiptState :=
  task_input s
    { now := now
      stage := NioStage.RECV
      fd := s.task.fd
      offset := 0
      length := (P.header_size + body.length : Nat)
      header := { body_len := int2buff body.length, status := status, cmd := cmd }
      body := buf_write s.task.body 0 body }

theorem sys_call_queue (e : Env) : (sys_call e).2.queue = e.queue := by
  unfold sys_call; split <;> rfl

theorem sys_call_flag (e : Env) : (sys_call e).2.continue_flag = e.continue_flag := by
  unfold sys_call; split <;> rfl

theorem write_to_binlog_index_file_frame (e : Env) (w : SFBinlogWriterInfo) :
    Frame e w (write_to_binlog_index_file e w) := by
  unfold write_to_binlog_index_file Frame
  simp only []
  split <;> simp [sys_call_queue]

theorem open_writable_binlog_frame (e : Env) (w : SFBinlogWriterInfo) :
    Frame e w (open_writable_binlog e w) := by
  unfold open_writable_binlog Frame
  simp only []
  split
  · simp [sys_call_queue]
  · split <;> simp [sys_call_queue]

theorem frame_trans {e : Env} {w : SFBinlogWriterInfo} {r1 r2 : Nat × Env × SFBinlogWriterInfo}
    (h1 : Frame e w r1) (h2 : Frame r1.2.1 r1.2.2 r2) : Frame e w r2 := by
  obtain ⟨a1, a2, a3, a4⟩ := h1
  obtain ⟨b1, b2, b3, b4⟩ := h2
  exact ⟨b1.trans a1, b2.trans a2, b3.trans a3, b4.trans a4⟩

theorem open_next_binlog_frame (e : Env) (w : SFBinlogWriterInfo) :
    Frame e w (open_next_binlog e w) := by
  unfold open_next_binlog
  split
  · simp only []
    split
    · refine @frame_trans e w (0, (sys_call e).2, _) _ ?_ (open_writable_binlog_frame _ _)
      simp [Frame, sys_call_queue]
    · simp [Frame, sys_call_queue]
  · exact open_writable_binlog_frame e w

theorem do_write_to_file_frame (e : Env) (w : SFBinlogWriterInfo) (buff : List Nat) :
    Frame e w (do_write_to_file e w buff) := by
  unfold do_write_to_file Frame
  split
  · simp
  · simp only []
    split
    · simp [sys_call_queue]
    · split <;> simp [sys_call_queue]

theorem check_write_to_file_frame (M : Int) (e : Env) (w : SFBinlogWriterInfo)
    (buff : List Nat) : Frame e w (check_write_to_file M e w buff) := by
  unfold check_write_to_file
  split
  · exact do_write_to_file_frame e w buff
  · simp only []
    have h1 : Frame e w (write_to_binlog_index_file e
        { w with binlog := { w.binlog with index := w.binlog.index + 1 } }) := by
      have := write_to_binlog_index_file_frame e
        { w with binlog := { w.binlog with index := w.binlog.index + 1 } }
      exact this
    generalize write_to_binlog_index_file e
        { w with binlog := { w.binlog with index := w.binlog.index + 1 } } = r1 at h1 ⊢
    obtain ⟨res1, e1, w1⟩ := r1
    simp only []
    have h2 : Frame e w (if res1 = 0 then open_next_binlog e1 w1 else (res1, e1, w1)) := by
      split
      · exact frame_trans h1 (open_next_binlog_frame e1 w1)
      · exact h1
    generalize (if res1 = 0 then open_next_binlog e1 w1 else (res1, e1, w1)) = r2 at h2 ⊢
    obtain ⟨res2, e2, w2⟩ := r2
    simp only []
    split
    · exact h2
    · exact frame_trans h2 (do_write_to_file_frame e2 w2 buff)

theorem binlog_write_to_file_frame (M : Int) (e : Env) (w : SFBinlogWriterInfo) :
    Frame e w (binlog_write_to_file M e w) := by
  unfold binlog_write_to_file
  simp only []
  split
  · simp [Frame]
  · have h := check_write_to_file_frame M e w w.binlog_buffer.data
    obtain ⟨a1, a2, a3, a4⟩ := h
    exact ⟨a1, a2, a3, a4⟩

theorem deal_binlog_one_record_frame (M : Int) (e : Env) (w : SFBinlogWriterInfo)
    (wb : SFBinlogWriterBuffer) :
    (deal_binlog_one_record M e w wb).2.1.queue = e.queue ∧
      (deal_binlog_one_record M e w wb).2.2.version_ctx = w.version_ctx ∧
      (deal_binlog_one_record M e w wb).2.2.dealt = w.dealt ++ [wb] ∧
      (deal_binlog_one_record M e w wb).2.2.binlog_buffer.size = w.binlog_buffer.size := by
  have key : Frame e { w with dealt := w.dealt ++ [wb] } (deal_binlog_one_record M e w wb) := by
    unfold deal_binlog_one_record
    simp only []
    split
    · have h1 : Frame e { w with dealt := w.dealt ++ [wb] }
          (if SF_BINLOG_BUFFER_LENGTH w.binlog_buffer > 0 then
            binlog_write_to_file M e { w with dealt := w.dealt ++ [wb] }
          else (0, e, { w with dealt := w.dealt ++ [wb] })) := by
        split
        · exact binlog_write_to_file_frame M e _
        · simp [Frame]
      generalize (if SF_BINLOG_BUFFER_LENGTH w.binlog_buffer > 0 then
            binlog_write_to_file M e { w with dealt := w.dealt ++ [wb] }
          else (0, e, { w with dealt := w.dealt ++ [wb] })) = r1 at h1 ⊢
      obtain ⟨res1, e1, w1⟩ := r1
      simp only []
      split
      · exact h1
      · exact frame_trans h1 (check_write_to_file_frame M e1 w1 wb.bf)
    · have h1 : Frame e { w with dealt := w.dealt ++ [wb] }
          (if w.file.size + SF_BINLOG_BUFFER_LENGTH w.binlog_buffer + wb.bf.length > M then
            binlog_write_to_file M e { w with dealt := w.dealt ++ [wb] }
          else if (w.binlog_buffer.size : Int) - SF_BINLOG_BUFFER_LENGTH w.binlog_buffer
              < wb.bf.length then
            binlog_write_to_file M e { w with dealt := w.dealt ++ [wb] }
          else (0, e, { w with dealt := w.dealt ++ [wb] })) := by
        split
        · exact binlog_write_to_file_frame M e _
        · split
          · exact binlog_write_to_file_frame M e _
          · simp [Frame]
      generalize (if w.file.size + SF_BINLOG_BUFFER_LENGTH w.binlog_buffer + wb.bf.length > M then
            binlog_write_to_file M e { w with dealt := w.dealt ++ [wb] }
          else if (w.binlog_buffer.size : Int) - SF_BINLOG_BUFFER_LENGTH w.binlog_buffer
              < wb.bf.length then
            binlog_write_to_file M e { w with dealt := w.dealt ++ [wb] }
          else (0, e, { w with dealt := w.dealt ++ [wb] })) = r1 at h1 ⊢
      obtain ⟨res1, e1, w1⟩ := r1
      simp only []
      split
      · exact h1
      · obtain ⟨a1, a2, a3, a4⟩ := h1
        exact ⟨a1, a2, a3, a4⟩
  exact key

theorem DEAL_CURRENT_VERSION_WBUFFER_frame (M : Int) (e : Env) (w : SFBinlogWriterInfo)
    (wb : SFBinlogWriterBuffer) :
    (DEAL_CURRENT_VERSION_WBUFFER M e w wb).1.queue = e.queue ∧
      (DEAL_CURRENT_VERSION_WBUFFER M e w wb).2.version_ctx =
        { w.version_ctx with next := (w.version_ctx.next + 1) % 2 ^ 64 } ∧
      (DEAL_CURRENT_VERSION_WBUFFER M e w wb).2.dealt = w.dealt ++ [wb] := by
  obtain ⟨a1, a2, a3, -⟩ := deal_binlog_one_record_frame M e w wb
  unfold DEAL_CURRENT_VERSION_WBUFFER
  simp only []
  refine ⟨a1, ?_, a3⟩
  simp [a2]

theorem drain_ring_body_frame (M : Int) (index : Nat) (e : Env) (w : SFBinlogWriterInfo)
    (wb : SFBinlogWriterBuffer) :
    (drain_ring_body M index e w wb).1.queue = e.queue ∧
      (drain_ring_body M index e w wb).2.version_ctx =
        { next := (w.version_ctx.next + 1) % 2 ^ 64
          ring :=
            { w.version_ctx.ring with
              entries := w.version_ctx.ring.entries.set w.version_ctx.ring.start none
              start := (index + 1) % w.version_ctx.ring.size
              count := w.version_ctx.ring.count - 1 } } ∧
      (drain_ring_body M index e w wb).2.dealt = w.dealt ++ [wb] := by
  obtain ⟨a1, a2, a3⟩ := DEAL_CURRENT_VERSION_WBUFFER_frame M e w wb
  unfold drain_ring_body
  simp only []
  refine ⟨a1, ?_, a3⟩
  simp [a2]

theorem drain_ring_queue (M : Int) (fuel index : Nat) (e : Env) (w : SFBinlogWriterInfo)
    (e' : Env) (w' : SFBinlogWriterInfo) (h : drain_ring M fuel index e w = some (e', w')) :
    e'.queue = e.queue := by
  induction fuel generalizing index e w with
  | zero => simp [drain_ring] at h
  | succ n ih =>
    unfold drain_ring at h
    split at h
    · simp at h; rw [← h.1]
    · split at h
      · simp at h; rw [← h.1]
      · have := ih _ _ _ h
        rw [this]
        exact (drain_ring_body_frame M index e w _).1

theorem repush_scan_spec (wb : SFBinlogWriterBuffer) (rest : List SFBinlogWriterBuffer) :
    ∃ l1 l2, rest = l1 ++ l2 ∧ repush_scan wb rest = l1 ++ wb :: l2 ∧
      repush_skipped wb rest = l1.length ∧ (∀ x ∈ l1, x.version < wb.version) ∧
      (∀ x, l2.head? = some x → wb.version ≤ x.version) := by
  induction rest with
  | nil => exact ⟨[], [], by simp [repush_scan, repush_skipped]⟩
  | cons c rest ih =>
    by_cases hc : wb.version > c.version
    · obtain ⟨l1, l2, h1, h2, h3, h4, h5⟩ := ih
      refine ⟨c :: l1, l2, by simp [h1], by simp [repush_scan, hc, h2],
        by simp [repush_skipped, hc, h3], ?_, h5⟩
      intro x hx
      rcases List.mem_cons.1 hx with rfl | hx
      · exact hc
      · exact h4 x hx
    · refine ⟨[], c :: rest, by simp, by simp [repush_scan, hc], by simp [repush_skipped, hc],
        by simp, ?_⟩
      intro x hx
      simp at hx
      subst hx
      omega

theorem repush_scan_length (wb : SFBinlogWriterBuffer) (rest : List SFBinlogWriterBuffer) :
    (repush_scan wb rest).length = rest.length + 1 := by
  obtain ⟨l1, l2, h1, h2, -⟩ := repush_scan_spec wb rest
  rw [h2, h1]
  simp
  omega

theorem repush_to_queue_ne (q : Queue) (wb : SFBinlogWriterBuffer) :
    repush_to_queue q wb ≠ q := by
  obtain ⟨chain, tail⟩ := q
  cases chain with
  | nil => simp [repush_to_queue]
  | cons head rest =>
    intro h
    have hlen := congrArg (fun q => q.chain.length) h
    have htail := congrArg Queue.tail h
    simp only [repush_to_queue] at hlen htail
    split at hlen
    · simp at hlen
    · split at hlen
      · rename_i h1 h2
        simp only [List.getD_eq_getElem?_getD, gt_iff_lt] at h2
        simp [h1, h2] at htail
      · simp [repush_scan_length] at hlen

theorem sorted_le_last (l : List SFBinlogWriterBuffer) (d : SFBinlogWriterBuffer)
    (hs : l.Pairwise (fun a b => a.version ≤ b.version)) :
    ∀ x ∈ l, x.version ≤ (l.getD (l.length - 1) d).version := by
  intro x hx
  have hne : l ≠ [] := List.ne_nil_of_mem hx
  obtain ⟨init, last, rfl⟩ : ∃ init last, l = init ++ [last] :=
    ⟨l.dropLast, l.getLast hne, (List.dropLast_append_getLast hne).symm⟩
  have hget : (init ++ [last]).getD ((init ++ [last]).length - 1) d = last := by simp
  rw [hget]
  rw [List.pairwise_append] at hs
  rcases List.mem_append.1 hx with h | h
  · exact hs.2.2 x h last (by simp)
  · simp at h; subst h; exact le_refl _

theorem repush_to_queue_sorted_cons (tail : Nat) (head : SFBinlogWriterBuffer)
    (rest : List SFBinlogWriterBuffer) (wb : SFBinlogWriterBuffer)
    (hs : (head :: rest).Pairwise (fun a b => a.version ≤ b.version))
    (ht : tail + 1 = (head :: rest).length) :
    (repush_to_queue ⟨head :: rest, tail⟩ wb).sorted ∧
      (∃ l1 l2, head :: rest = l1 ++ l2 ∧
        (repush_to_queue ⟨head :: rest, tail⟩ wb).chain = l1 ++ wb :: l2) ∧
      (repush_to_queue ⟨head :: rest, tail⟩ wb).tail + 1 =
        (repush_to_queue ⟨head :: rest, tail⟩ wb).chain.length := by
  have htl : tail = rest.length := by simpa using ht
  have hle := sorted_le_last (head :: rest) head hs
  have hidx : (head :: rest).length - 1 = tail := by simp [htl]
  rw [hidx] at hle
  unfold repush_to_queue Queue.sorted
  simp only []
  split
  · rename_i h1
    refine ⟨?_, ⟨[], head :: rest, by simp, by simp⟩, by simp [htl]⟩
    refine List.pairwise_cons.2 ⟨?_, hs⟩
    intro a ha
    rcases List.mem_cons.1 ha with rfl | ha
    · exact h1
    · exact le_trans h1 ((List.pairwise_cons.1 hs).1 a ha)
  · rename_i h1
    split
    · rename_i h2
      have htake : List.take (tail + 1) (head :: rest) = head :: rest := by
        rw [List.take_of_length_le]; simp [htl]
      simp only [htake]
      refine ⟨?_, ⟨head :: rest, [], by simp, by simp⟩, by simp [htl]⟩
      rw [List.pairwise_append]
      refine ⟨hs, by simp, ?_⟩
      intro a ha b hb
      simp at hb
      subst hb
      have := hle a ha
      omega
    · rename_i h2
      obtain ⟨l1, l2, e1, e2, e3, e4, e5⟩ := repush_scan_spec wb rest
      have hl2 : l2 ≠ [] := by
        intro hnil
        subst hnil
        simp at e1
        subst e1
        have hlast : ((head :: rest).getD tail head) ∈ head :: rest := by
          rw [List.getD_eq_getElem _ _ (by simp [htl])]
          exact List.getElem_mem _
        rcases List.mem_cons.1 hlast with h | h
        · rw [h] at h2; omega
        · have := e4 _ h; omega
      have hlen2 : 0 < l2.length := List.length_pos.2 hl2
      simp only [e2, e3]
      refine ⟨?_, ⟨head :: l1, l2, by simp [e1], by simp⟩, ?_⟩
      · rw [e1] at hs
        obtain ⟨hh, hr⟩ := List.pairwise_cons.1 hs
        obtain ⟨p1, p2, p3⟩ := List.pairwise_append.1 hr
        refine List.pairwise_cons.2 ⟨?_, ?_⟩
        · intro a ha
          rcases List.mem_append.1 ha with ha | ha
          · exact hh a (List.mem_append_left _ ha)
          · rcases List.mem_cons.1 ha with rfl | ha
            · omega
            · exact hh a (List.mem_append_right _ ha)
        · rw [List.pairwise_append]
          refine ⟨p1, ?_, ?_⟩
          · refine List.pairwise_cons.2 ⟨?_, p2⟩
            intro a ha
            cases l2 with
            | nil => simp at ha
            | cons c l2 =>
              have hc := e5 c (by simp)
              rcases List.mem_cons.1 ha with rfl | ha
              · exact hc
              · exact le_trans hc ((List.pairwise_cons.1 p2).1 a ha)
          · intro a ha b hb
            rcases List.mem_cons.1 hb with rfl | hb
            · exact le_of_lt (e4 a ha)
            · exact p3 a ha b hb
      · have : l1.length + 1 ≤ tail := by rw [htl, e1]; simp; omega
        rw [if_pos this, htl, e1]
        simp
        omega

/-- C5: `repush_to_queue` on a queue that is sorted by version and whose
`tail` designates its last node gives a queue that is sorted by version, holds
the previous messages in their previous order with `wb` inserted among them,
is not empty, and whose `tail` designates its last node. -/
theorem repush_to_queue_keeps_sorted (q : Queue) (wb : SFBinlogWriterBuffer)
    (hs : q.sorted) (ht : q.tail_is_last) :
    (repush_to_queue q wb).sorted ∧
      (∃ l1 l2, q.chain = l1 ++ l2 ∧ (repush_to_queue q wb).chain = l1 ++ wb :: l2) ∧
      (repush_to_queue q wb).tail + 1 = (repush_to_queue q wb).chain.length ∧
      (repush_to_queue q wb).chain.getLast? =
        (repush_to_queue q wb).chain.get? (repush_to_queue q wb).tail := by
  have main : (repush_to_queue q wb).sorted ∧
      (∃ l1 l2, q.chain = l1 ++ l2 ∧ (repush_to_queue q wb).chain = l1 ++ wb :: l2) ∧
      (repush_to_queue q wb).tail + 1 = (repush_to_queue q wb).chain.length := by
    obtain ⟨chain, tail⟩ := q
    cases chain with
    | nil =>
      refine ⟨?_, ⟨[], [], by simp, by simp [repush_to_queue]⟩, by simp [repush_to_queue]⟩
      simp [repush_to_queue, Queue.sorted]
    | cons head rest =>
      rcases ht with h | h
      · simp at h
      · exact repush_to_queue_sorted_cons tail head rest wb hs h
  refine ⟨main.1, main.2.1, main.2.2, ?_⟩
  have h := main.2.2
  rw [List.getLast?_eq_getElem?, List.get?_eq_getElem?]
  congr 1
  omega

/-- Witness of C5: versions 3, 5, 9 in the queue, version 7 repushed. -/
theorem repush_to_queue_keeps_sorted_witness :
    (repush_to_queue ⟨[⟨3, .NORMAL, [], 0⟩, ⟨5, .NORMAL, [], 0⟩, ⟨9, .NORMAL, [], 0⟩], 2⟩
        ⟨7, .NORMAL, [1], 0⟩).chain.map (fun m => m.version) = [3, 5, 7, 9] ∧
      (repush_to_queue ⟨[⟨3, .NORMAL, [], 0⟩, ⟨5, .NORMAL, [], 0⟩, ⟨9, .NORMAL, [], 0⟩], 2⟩
        ⟨7, .NORMAL, [1], 0⟩).sorted :=
  ⟨by decide,
    (repush_to_queue_keeps_sorted
      ⟨[⟨3, .NORMAL, [], 0⟩, ⟨5, .NORMAL, [], 0⟩, ⟨9, .NORMAL, [], 0⟩], 2⟩
      ⟨7, .NORMAL, [1], 0⟩ (by simp [Queue.sorted]) (by simp [Queue.tail_is_last])).1⟩
/-! ## Repush decision of `deal_record_by_version` -/

/-- C4: `deal_record_by_version` repushes exactly when the signed 64-bit
difference `version - next` is at least `ring.size - 1`; it then inserts the
message into the queue and changes nothing else (writer, continue flag and
pending system-call results are as before); otherwise the queue is as
before. -/
theorem deal_record_by_version_repush (M : Int) (e : Env) (w : SFBinlogWriterInfo)
    (wb : SFBinlogWriterBuffer) :
    (version_distance wb.version w.version_ctx.next ≥ (w.version_ctx.ring.size : Int) - 1 →
      deal_record_by_version M e w wb =
        some ({ e with queue := repush_to_queue e.queue wb }, w)) ∧
    (∀ e' w', deal_record_by_version M e w wb = some (e', w') →
      (e'.queue = repush_to_queue e.queue wb ↔
        version_distance wb.version w.version_ctx.next ≥ (w.version_ctx.ring.size : Int) - 1) ∧
      (¬ version_distance wb.version w.version_ctx.next ≥ (w.version_ctx.ring.size : Int) - 1 →
        e'.queue = e.queue)) := by
  have hyes : version_distance wb.version w.version_ctx.next ≥ (w.version_ctx.ring.size : Int) - 1 →
      deal_record_by_version M e w wb =
        some ({ e with queue := repush_to_queue e.queue wb }, w) := by
    intro h
    unfold deal_record_by_version
    simp only []
    rw [if_pos h]
  have hno : ¬ version_distance wb.version w.version_ctx.next ≥ (w.version_ctx.ring.size : Int) - 1 →
      ∀ e' w', deal_record_by_version M e w wb = some (e', w') → e'.queue = e.queue := by
    intro h e' w' hr
    unfold deal_record_by_version at hr
    simp only [] at hr
    rw [if_neg h] at hr
    split at hr
    · have hq := (DEAL_CURRENT_VERSION_WBUFFER_frame M e w wb).1
      split at hr
      · simp at hr
        rw [← hr.1]; exact hq
      · rw [drain_ring_queue M _ _ _ _ e' w' hr]; exact hq
    · simp only [Option.some.injEq, Prod.mk.injEq] at hr; rw [← hr.1]
  refine ⟨hyes, ?_⟩
  intro e' w' hr
  by_cases h : version_distance wb.version w.version_ctx.next ≥ (w.version_ctx.ring.size : Int) - 1
  · rw [hyes h] at hr
    simp at hr
    refine ⟨⟨fun _ => h, fun _ => by rw [← hr.1]⟩, fun h' => absurd h h'⟩
  · have hq := hno h e' w' hr
    refine ⟨⟨fun h' => ?_, fun h' => absurd h' h⟩, fun _ => hq⟩
    rw [hq] at h'
    exact absurd h'.symm (repush_to_queue_ne e.queue wb)

/-- Witness of C4: ring of 4 at `next = 10` with `start = end = slot(10)`
receives version 13, and ring of 8 at `next = 100` receives version 107: both
are repushed and the writer is untouched. -/
theorem deal_record_by_version_repush_witness :
    deal_record_by_version 1000 env_ok (writer_init 10 4 64 0 []) (normal_record 13 [1]) =
        some ({ env_ok with queue := { chain := [normal_record 13 [1]], tail := 0 } },
          writer_init 10 4 64 0 []) ∧
      deal_record_by_version 1000 env_ok (writer_init 100 8 64 0 []) (normal_record 107 [1]) =
        some ({ env_ok with queue := { chain := [normal_record 107 [1]], tail := 0 } },
          writer_init 100 8 64 0 []) :=
  ⟨(deal_record_by_version_repush 1000 env_ok (writer_init 10 4 64 0 [])
      (normal_record 13 [1])).1 (by decide),
    (deal_record_by_version_repush 1000 env_ok (writer_init 100 8 64 0 [])
      (normal_record 107 [1])).1 (by decide)⟩
/-! ## Ring wrap scenario -/

/-- C3, as stated, fails: with ring size 4 and `next = 10`, the batch
13, 12, 11, 10 repushes version 13 (the queue holds it afterwards) and hands
only 10, 11, 12 to the write path. -/
theorem ring_wrap_batch_repushes :
    (binlog_writer_func_batch 1000
        (thread_init SFBinlogWriterType.ORDER_BY_VERSION (writer_init 10 4 64 0 []) env_ok)
        [normal_record 13 [13], normal_record 12 [12], normal_record 11 [11],
          normal_record 10 [10]]).map
      (fun t => (queued_versions t, dealt_versions t)) = some ([13], [[10, 11, 12]]) := by
  decide

/-- C3 amended: the batch 13, 12, 11, 10 repushes 13 once and writes
10, 11, 12; the next turn of the thread pops the repushed 13 and writes it, so
that the records reach the segment in the order 10, 11, 12, 13, the queue and
the ring are empty and `next = 14`. -/
theorem ring_wrap_two_turns :
    ((binlog_writer_func_batch 1000
        (thread_init SFBinlogWriterType.ORDER_BY_VERSION (writer_init 10 4 64 0 []) env_ok)
        [normal_record 13 [13], normal_record 12 [12], normal_record 11 [11],
          normal_record 10 [10]]).bind (binlog_writer_func_turn 1000)).map
      (fun t => (queued_versions t, dealt_versions t,
        t.writers.map (fun w => (w.dir.segments, w.version_ctx.next,
          w.version_ctx.ring.entries, w.version_ctx.ring.count)))) =
      some ([], [[10, 11, 12, 13]],
        [([(0, [10, 11, 12, 13])], 14, [none, none, none, none], 0)]) := by
  rfl
/-! ## Write path: what a successful call does -/

theorem seg_find_put (segs : List (Int × List Nat)) (i : Int) (bytes : List Nat) :
    seg_find (seg_put segs i bytes) i = some bytes := by
  simp [seg_put, seg_find]

theorem seg_find_remove (segs : List (Int × List Nat)) (i : Int) :
    seg_find (seg_remove segs i) i = none := by
  induction segs with
  | nil => simp [seg_remove, seg_find]
  | cons p rest ih =>
    obtain ⟨j, b⟩ := p
    by_cases h : j = i
    · simpa [seg_remove, h] using ih
    · simpa [seg_remove, h, seg_find] using ih

theorem write_to_binlog_index_file_binlog (e : Env) (w : SFBinlogWriterInfo) :
    (write_to_binlog_index_file e w).2.2.binlog = w.binlog ∧
      (write_to_binlog_index_file e w).2.2.file = w.file ∧
      (write_to_binlog_index_file e w).2.2.binlog_buffer = w.binlog_buffer ∧
      (write_to_binlog_index_file e w).2.2.dir.segments = w.dir.segments ∧
      (write_to_binlog_index_file e w).2.1.continue_flag = e.continue_flag := by
  unfold write_to_binlog_index_file
  simp only []
  split <;> simp [sys_call_flag]

theorem write_to_binlog_index_file_ok (e : Env) (w : SFBinlogWriterInfo)
    (h : (write_to_binlog_index_file e w).1 = 0) :
    (write_to_binlog_index_file e w).2.2.disk_log =
        w.disk_log ++ [DiskEvent.store_index w.binlog.index w.binlog.compress_index] ∧
      (write_to_binlog_index_file e w).2.2.dir.index_file =
        some (binlog_index_text w.binlog.index w.binlog.compress_index) := by
  unfold write_to_binlog_index_file at h ⊢
  simp only [] at h ⊢
  split
  · rename_i h1; rw [if_pos h1] at h; exact absurd h h1
  · simp

theorem write_to_binlog_index_file_fail (e : Env) (w : SFBinlogWriterInfo)
    (h : (write_to_binlog_index_file e w).1 ≠ 0) :
    (write_to_binlog_index_file e w).2.2 = w := by
  unfold write_to_binlog_index_file at h ⊢
  simp only [] at h ⊢
  split
  · rfl
  · rename_i h1; rw [if_neg h1] at h; exact absurd h h1

theorem open_writable_binlog_binlog (e : Env) (w : SFBinlogWriterInfo) :
    (open_writable_binlog e w).2.2.binlog = w.binlog ∧
      (open_writable_binlog e w).2.2.binlog_buffer = w.binlog_buffer ∧
      (open_writable_binlog e w).2.2.disk_log = w.disk_log ∧
      (open_writable_binlog e w).2.2.dir.index_file = w.dir.index_file := by
  unfold open_writable_binlog
  simp only []
  split
  · simp
  · split <;> simp

theorem open_writable_binlog_ok (e : Env) (w : SFBinlogWriterInfo)
    (h : (open_writable_binlog e w).1 = 0) :
    (open_writable_binlog e w).2.2.file =
        { fd := some w.binlog.index,
          size := ((seg_find w.dir.segments w.binlog.index).getD []).length } ∧
      (open_writable_binlog e w).2.2.dir.segments =
        seg_put w.dir.segments w.binlog.index
          ((seg_find w.dir.segments w.binlog.index).getD []) ∧
      (open_writable_binlog e w).2.2.dir.backups = w.dir.backups ∧
      (open_writable_binlog e w).2.1.continue_flag = e.continue_flag := by
  unfold open_writable_binlog at h ⊢
  simp only [] at h ⊢
  split
  · rename_i h1; rw [if_pos h1] at h; simp [h1] at h
  · rename_i h1; rw [if_neg h1] at h
    split
    · rename_i h2; rw [if_pos h2] at h; simp [h2] at h
    · simp [sys_call_flag]

theorem open_next_binlog_binlog (e : Env) (w : SFBinlogWriterInfo) :
    (open_next_binlog e w).2.2.binlog = w.binlog ∧
      (open_next_binlog e w).2.2.binlog_buffer = w.binlog_buffer ∧
      (open_next_binlog e w).2.2.disk_log = w.disk_log ∧
      (open_next_binlog e w).2.2.dir.index_file = w.dir.index_file := by
  unfold open_next_binlog
  split
  · simp only []
    split
    · exact open_writable_binlog_binlog _ _
    · simp
  · exact open_writable_binlog_binlog e w

theorem open_next_binlog_ok (e : Env) (w : SFBinlogWriterInfo)
    (h : (open_next_binlog e w).1 = 0) :
    (open_next_binlog e w).2.2.file = { fd := some w.binlog.index, size := 0 } ∧
      seg_find (open_next_binlog e w).2.2.dir.segments w.binlog.index = some [] ∧
      (open_next_binlog e w).2.1.continue_flag = e.continue_flag := by
  unfold open_next_binlog at h ⊢
  split
  · rename_i content hc
    rw [hc] at h
    simp only [] at h ⊢
    split
    · rename_i h1
      rw [if_pos h1] at h
      obtain ⟨a, b, -, d⟩ := open_writable_binlog_ok _ _ h
      simp only [] at a b d
      rw [a, b, d]
      simp [seg_find_remove, seg_find_put, sys_call_flag]
    · rename_i h1; rw [if_neg h1] at h; simp [h1] at h
  · rename_i hc
    rw [hc] at h
    simp only [] at h
    obtain ⟨a, b, -, d⟩ := open_writable_binlog_ok _ _ h
    rw [a, b, d]
    simp [hc, seg_find_put]

theorem do_write_to_file_binlog (e : Env) (w : SFBinlogWriterInfo) (buff : List Nat) :
    (do_write_to_file e w buff).2.2.binlog = w.binlog ∧
      (do_write_to_file e w buff).2.2.binlog_buffer = w.binlog_buffer ∧
      (do_write_to_file e w buff).2.2.dir.index_file = w.dir.index_file ∧
      (do_write_to_file e w buff).2.2.file.fd = w.file.fd := by
  unfold do_write_to_file
  split
  · simp
  · simp only []
    split
    · simp
    · split <;> simp

theorem do_write_to_file_ok (e : Env) (w : SFBinlogWriterInfo) (buff : List Nat)
    (h : (do_write_to_file e w buff).1 = 0) :
    ∃ seg, w.file.fd = some seg ∧
      (do_write_to_file e w buff).2.2.disk_log = w.disk_log ++ [DiskEvent.append seg buff] ∧
      (do_write_to_file e w buff).2.2.dir.segments =
        seg_put w.dir.segments seg ((seg_find w.dir.segments seg).getD [] ++ buff) ∧
      (do_write_to_file e w buff).2.2.file.size = w.file.size + buff.length ∧
      (do_write_to_file e w buff).2.1.continue_flag = e.continue_flag := by
  unfold do_write_to_file at h ⊢
  split
  · rename_i hfd; rw [hfd] at h; simp [EBADF] at h
  · rename_i seg hfd
    rw [hfd] at h
    simp only [] at h ⊢
    refine ⟨seg, hfd, ?_⟩
    split
    · rename_i h1; rw [if_pos h1] at h; simp [h1] at h
    · rename_i h1; rw [if_neg h1] at h
      split
      · rename_i h2; rw [if_pos h2] at h; simp [h2] at h
      · simp [sys_call_flag]
theorem check_write_to_file_keep (M : Int) (e : Env) (w : SFBinlogWriterInfo)
    (buff : List Nat) (h : w.file.size + buff.length ≤ M) :
    check_write_to_file M e w buff = do_write_to_file e w buff := by
  unfold check_write_to_file
  rw [if_pos h]

theorem check_write_to_file_rotate (M : Int) (e : Env) (w : SFBinlogWriterInfo)
    (buff : List Nat) (h : ¬ w.file.size + buff.length ≤ M) :
    check_write_to_file M e w buff =
      if (write_to_binlog_index_file e (index_incremented w)).1 ≠ 0 then
        write_to_binlog_index_file e (index_incremented w)
      else if (open_next_binlog (write_to_binlog_index_file e (index_incremented w)).2.1
          (write_to_binlog_index_file e (index_incremented w)).2.2).1 ≠ 0 then
        open_next_binlog (write_to_binlog_index_file e (index_incremented w)).2.1
          (write_to_binlog_index_file e (index_incremented w)).2.2
      else
        do_write_to_file
          (open_next_binlog (write_to_binlog_index_file e (index_incremented w)).2.1
            (write_to_binlog_index_file e (index_incremented w)).2.2).2.1
          (open_next_binlog (write_to_binlog_index_file e (index_incremented w)).2.1
            (write_to_binlog_index_file e (index_incremented w)).2.2).2.2 buff := by
  unfold check_write_to_file
  rw [if_neg h]
  simp only [index_incremented]
  generalize write_to_binlog_index_file e
    { w with binlog := { w.binlog with index := w.binlog.index + 1 } } = r1
  obtain ⟨res1, e1, w1⟩ := r1
  simp only []
  by_cases h1 : res1 = 0
  · simp only [h1, if_true, ne_eq, not_true_eq_false, if_false]
  · simp [h1]

theorem check_write_to_file_index (M : Int) (e : Env) (w : SFBinlogWriterInfo)
    (buff : List Nat) :
    (check_write_to_file M e w buff).2.2.binlog.index =
        (if w.file.size + buff.length ≤ M then w.binlog.index else w.binlog.index + 1) ∧
      (check_write_to_file M e w buff).2.2.binlog.compress_index = w.binlog.compress_index ∧
      (check_write_to_file M e w buff).2.2.binlog_buffer = w.binlog_buffer := by
  by_cases h : w.file.size + buff.length ≤ M
  · rw [check_write_to_file_keep M e w buff h, if_pos h]
    obtain ⟨a, b, -⟩ := do_write_to_file_binlog e w buff
    rw [a, b]; simp
  · rw [check_write_to_file_rotate M e w buff h, if_neg h]
    obtain ⟨a1, -, a3, -⟩ := write_to_binlog_index_file_binlog e (index_incremented w)
    split
    · rw [a1, a3]; simp [index_incremented]
    · obtain ⟨b1, b2, -⟩ := open_next_binlog_binlog
        (write_to_binlog_index_file e (index_incremented w)).2.1
        (write_to_binlog_index_file e (index_incremented w)).2.2
      split
      · rw [b1, b2, a1, a3]; simp [index_incremented]
      · obtain ⟨c1, c2, -⟩ := do_write_to_file_binlog
          (open_next_binlog (write_to_binlog_index_file e (index_incremented w)).2.1
            (write_to_binlog_index_file e (index_incremented w)).2.2).2.1
          (open_next_binlog (write_to_binlog_index_file e (index_incremented w)).2.1
            (write_to_binlog_index_file e (index_incremented w)).2.2).2.2 buff
        rw [c1, c2, b1, b2, a1, a3]; simp [index_incremented]

theorem check_write_to_file_rotate_ok (M : Int) (e : Env) (w : SFBinlogWriterInfo)
    (buff : List Nat) (h : ¬ w.file.size + buff.length ≤ M)
    (hok : (check_write_to_file M e w buff).1 = 0) :
    (check_write_to_file M e w buff).2.2.disk_log =
        w.disk_log ++ [DiskEvent.store_index (w.binlog.index + 1) w.binlog.compress_index,
          DiskEvent.append (w.binlog.index + 1) buff] ∧
      (check_write_to_file M e w buff).2.2.file =
        { fd := some (w.binlog.index + 1), size := buff.length } ∧
      seg_find (check_write_to_file M e w buff).2.2.dir.segments (w.binlog.index + 1) =
        some buff ∧
      (check_write_to_file M e w buff).2.2.dir.index_file =
        some (binlog_index_text (w.binlog.index + 1) w.binlog.compress_index) ∧
      (check_write_to_file M e w buff).2.1.continue_flag = e.continue_flag := by
  rw [check_write_to_file_rotate M e w buff h] at hok ⊢
  by_cases h1 : (write_to_binlog_index_file e (index_incremented w)).1 ≠ 0
  · rw [if_pos h1] at hok; exact absurd hok h1
  · rw [if_neg h1] at hok ⊢
    have h1' := not_not.1 h1
    obtain ⟨a1, a2, a3, a4, a5⟩ := write_to_binlog_index_file_binlog e (index_incremented w)
    obtain ⟨a6, a7⟩ := write_to_binlog_index_file_ok e (index_incremented w) h1'
    generalize write_to_binlog_index_file e (index_incremented w) = r1 at *
    obtain ⟨res1, e1, w1⟩ := r1
    simp only [] at *
    by_cases h2 : (open_next_binlog e1 w1).1 ≠ 0
    · rw [if_pos h2] at hok; exact absurd hok h2
    · rw [if_neg h2] at hok ⊢
      have h2' := not_not.1 h2
      obtain ⟨b1, b2, b3, b4⟩ := open_next_binlog_binlog e1 w1
      obtain ⟨b5, b6, b7⟩ := open_next_binlog_ok e1 w1 h2'
      generalize open_next_binlog e1 w1 = r2 at *
      obtain ⟨res2, e2, w2⟩ := r2
      simp only [] at *
      obtain ⟨seg, c1, c2, c3, c4, c5⟩ := do_write_to_file_ok e2 w2 buff hok
      obtain ⟨d1, d2, d3, d4⟩ := do_write_to_file_binlog e2 w2 buff
      have hseg : seg = w.binlog.index + 1 := by
        rw [b5] at c1
        simp at c1
        rw [← c1, a1]; simp [index_incremented]
      have hidx : w1.binlog.index = w.binlog.index + 1 := by rw [a1]; simp [index_incremented]
      have hcmp : w1.binlog.compress_index = w.binlog.compress_index := by
        rw [a1]; simp [index_incremented]
      refine ⟨?_, ?_, ?_, ?_, ?_⟩
      · rw [c2, b3, a6, hseg]; simp [index_incremented]
      · have hfd : (do_write_to_file e2 w2 buff).2.2.file.fd = some (w.binlog.index + 1) := by
          rw [d4, b5]; simp [hidx]
        have hsz : (do_write_to_file e2 w2 buff).2.2.file.size = buff.length := by
          rw [c4, b5]; simp
        generalize (do_write_to_file e2 w2 buff).2.2.file = f at hfd hsz
        obtain ⟨fd, sz⟩ := f
        simp at hfd hsz
        simp [hfd, hsz]
      · rw [c3, hseg, seg_find_put]
        rw [hidx] at b6
        rw [b6]; simp
      · rw [d3, b4, a7]; simp [index_incremented]
      · rw [c5, b7, a5]
/-- C7: `check_write_to_file` rotates exactly when `file.size + len` exceeds
`SF_BINLOG_FILE_MAX_SIZE`.  Without rotation the index is unchanged and a
successful write is appended to the segment the descriptor is open on.  With
rotation the index grows by exactly one, and when the call succeeds the new
index is stored in the index file, the descriptor is open on the new segment
and that segment holds exactly the bytes written. -/
theorem check_write_to_file_rotation_boundary (M : Int) (e : Env) (w : SFBinlogWriterInfo)
    (buff : List Nat) :
    ((check_write_to_file M e w buff).2.2.binlog.index = w.binlog.index + 1 ↔
        w.file.size + buff.length > M) ∧
      ((check_write_to_file M e w buff).2.2.binlog.index = w.binlog.index ↔
        w.file.size + buff.length ≤ M) ∧
      (w.file.size + buff.length ≤ M → (check_write_to_file M e w buff).1 = 0 →
        ∃ seg, w.file.fd = some seg ∧
          (check_write_to_file M e w buff).2.2.disk_log =
            w.disk_log ++ [DiskEvent.append seg buff] ∧
          (check_write_to_file M e w buff).2.2.dir.segments =
            seg_put w.dir.segments seg ((seg_find w.dir.segments seg).getD [] ++ buff)) ∧
      (w.file.size + buff.length > M → (check_write_to_file M e w buff).1 = 0 →
        (check_write_to_file M e w buff).2.2.disk_log =
            w.disk_log ++ [DiskEvent.store_index (w.binlog.index + 1) w.binlog.compress_index,
              DiskEvent.append (w.binlog.index + 1) buff] ∧
          (check_write_to_file M e w buff).2.2.file.fd = some (w.binlog.index + 1) ∧
          seg_find (check_write_to_file M e w buff).2.2.dir.segments (w.binlog.index + 1) =
            some buff ∧
          (check_write_to_file M e w buff).2.2.dir.index_file =
            some (binlog_index_text (w.binlog.index + 1) w.binlog.compress_index)) := by
  have hidx := (check_write_to_file_index M e w buff).1
  refine ⟨?_, ?_, ?_, ?_⟩
  · rw [hidx]; split <;> constructor <;> intro h <;> omega
  · rw [hidx]; split <;> constructor <;> intro h <;> omega
  · intro h hok
    rw [check_write_to_file_keep M e w buff h] at hok ⊢
    obtain ⟨seg, c1, c2, c3, -⟩ := do_write_to_file_ok e w buff hok
    exact ⟨seg, c1, c2, c3⟩
  · intro h hok
    obtain ⟨a, b, c, d, -⟩ := check_write_to_file_rotate_ok M e w buff (by omega) hok
    refine ⟨a, ?_, c, d⟩
    rw [b]

/-- Witness of C7: `SF_BINLOG_FILE_MAX_SIZE = 100`, segment 0 holds 80 bytes.
A record of 30 bytes gives `current_write = 1` and segment 1 holding exactly
that record; a record of 21 bytes rotates as well; a record of 20 bytes stays
in segment 0. -/
theorem check_write_to_file_rotation_boundary_witness :
    ((check_write_to_file 100 env_ok (writer_init 0 4 64 0 (List.replicate 80 0))
        (List.replicate 30 7)).2.2.binlog.index = 1 ∧
      seg_find (check_write_to_file 100 env_ok (writer_init 0 4 64 0 (List.replicate 80 0))
        (List.replicate 30 7)).2.2.dir.segments 1 = some (List.replicate 30 7) ∧
      (check_write_to_file 100 env_ok (writer_init 0 4 64 0 (List.replicate 80 0))
        (List.replicate 30 7)).2.2.dir.index_file =
          some "current_write=1\ncurrent_compress=0\n") ∧
    (check_write_to_file 100 env_ok (writer_init 0 4 64 0 (List.replicate 80 0))
        (List.replicate 21 7)).2.2.binlog.index = 1 ∧
    ((check_write_to_file 100 env_ok (writer_init 0 4 64 0 (List.replicate 80 0))
        (List.replicate 20 7)).2.2.binlog.index = 0 ∧
      (check_write_to_file 100 env_ok (writer_init 0 4 64 0 (List.replicate 80 0))
        (List.replicate 20 7)).2.2.dir.segments =
          [(0, List.replicate 80 0 ++ List.replicate 20 7)]) :=
  ⟨⟨(check_write_to_file_rotation_boundary 100 env_ok
        (writer_init 0 4 64 0 (List.replicate 80 0)) (List.replicate 30 7)).1.2 (by decide),
      ((check_write_to_file_rotation_boundary 100 env_ok
        (writer_init 0 4 64 0 (List.replicate 80 0)) (List.replicate 30 7)).2.2.2
          (by decide) (by decide)).2.2.1,
      ((check_write_to_file_rotation_boundary 100 env_ok
        (writer_init 0 4 64 0 (List.replicate 80 0)) (List.replicate 30 7)).2.2.2
          (by decide) (by decide)).2.2.2⟩,
    (check_write_to_file_rotation_boundary 100 env_ok
        (writer_init 0 4 64 0 (List.replicate 80 0)) (List.replicate 21 7)).1.2 (by decide),
    (check_write_to_file_rotation_boundary 100 env_ok
        (writer_init 0 4 64 0 (List.replicate 80 0)) (List.replicate 20 7)).2.1.2 (by decide),
    by
      obtain ⟨seg, h1, -, h3⟩ := (check_write_to_file_rotation_boundary 100 env_ok
        (writer_init 0 4 64 0 (List.replicate 80 0)) (List.replicate 20 7)).2.2.1
          (by decide) (by decide)
      rw [h3]
      have : seg = 0 := by
        have h : (writer_init 0 4 64 0 (List.replicate 80 0)).file.fd = some 0 := rfl
        rw [h] at h1
        exact (Option.some.inj h1).symm
      subst this
      rfl⟩
/-! ## The byte stream a writer produces -/

theorem appended_bytes_append (l1 l2 : List DiskEvent) :
    appended_bytes (l1 ++ l2) = appended_bytes l1 ++ appended_bytes l2 := by
  induction l1 with
  | nil => simp [appended_bytes]
  | cons ev rest ih => cases ev <;> simp [appended_bytes, ih]

theorem appended_segments_append (l1 l2 : List DiskEvent) :
    appended_segments (l1 ++ l2) = appended_segments l1 ++ appended_segments l2 := by
  induction l1 with
  | nil => simp [appended_segments]
  | cons ev rest ih => cases ev <;> simp [appended_segments, ih]

theorem appends_refl (w : SFBinlogWriterInfo) : Appends w w [] :=
  ⟨[], by simp, by simp [appended_bytes], fun h => ⟨h, le_refl _, by simp [appended_segments],
    by simp [appended_segments]⟩⟩

theorem appends_trans {w w1 w2 : SFBinlogWriterInfo} {b1 b2 : List Nat}
    (h1 : Appends w w1 b1) (h2 : Appends w1 w2 b2) : Appends w w2 (b1 ++ b2) := by
  obtain ⟨ev1, a1, a2, a3⟩ := h1
  obtain ⟨ev2, c1, c2, c3⟩ := h2
  refine ⟨ev1 ++ ev2, by rw [c1, a1, List.append_assoc], by rw [appended_bytes_append, a2, c2], ?_⟩
  intro hfd
  obtain ⟨x1, x2, x3, x4⟩ := a3 hfd
  obtain ⟨y1, y2, y3, y4⟩ := c3 x1
  refine ⟨y1, le_trans x2 y2, ?_, ?_⟩
  · rw [appended_segments_append, List.pairwise_append]
    refine ⟨x3, y3, ?_⟩
    intro a ha b hb
    exact le_trans (x4 a ha).2 (y4 b hb).1
  · intro s hs
    rw [appended_segments_append] at hs
    rcases List.mem_append.1 hs with hs | hs
    · exact ⟨(x4 s hs).1, le_trans (x4 s hs).2 y2⟩
    · exact ⟨le_trans x2 (y4 s hs).1, (y4 s hs).2⟩

theorem appends_congr {w w1 v v1 : SFBinlogWriterInfo} {b : List Nat} (h : Appends w w1 b)
    (h1 : v.disk_log = w.disk_log) (h2 : v.file.fd = w.file.fd) (h3 : v.binlog = w.binlog)
    (h4 : v1.disk_log = w1.disk_log) (h5 : v1.file.fd = w1.file.fd)
    (h6 : v1.binlog = w1.binlog) : Appends v v1 b := by
  obtain ⟨evs, a1, a2, a3⟩ := h
  refine ⟨evs, by rw [h4, h1, a1], a2, ?_⟩
  rw [h2, h3, h5, h6]
  exact a3

theorem check_write_to_file_appends (M : Int) (e : Env) (w : SFBinlogWriterInfo)
    (buff : List Nat) (hok : (check_write_to_file M e w buff).1 = 0) :
    Appends w (check_write_to_file M e w buff).2.2 buff := by
  by_cases h : w.file.size + buff.length ≤ M
  · have hidx := (check_write_to_file_index M e w buff).1
    rw [if_pos h] at hidx
    rw [check_write_to_file_keep M e w buff h] at hok hidx ⊢
    obtain ⟨seg, c1, c2, -⟩ := do_write_to_file_ok e w buff hok
    obtain ⟨-, -, -, d4⟩ := do_write_to_file_binlog e w buff
    refine ⟨[DiskEvent.append seg buff], c2, by simp [appended_bytes], ?_⟩
    intro hfd
    rw [hfd] at c1
    have hseg : seg = w.binlog.index := (Option.some.inj c1).symm
    subst hseg
    refine ⟨by rw [d4, hfd, hidx], by rw [hidx], by simp [appended_segments], ?_⟩
    simp [appended_segments, hidx]
  · have hidx := (check_write_to_file_index M e w buff).1
    rw [if_neg h] at hidx
    obtain ⟨a, b, -⟩ := check_write_to_file_rotate_ok M e w buff h hok
    refine ⟨_, a, by simp [appended_bytes], ?_⟩
    intro _
    refine ⟨by rw [b, hidx], by rw [hidx]; omega, by simp [appended_segments], ?_⟩
    simp [appended_segments, hidx]

theorem binlog_write_to_file_buffer (M : Int) (e : Env) (w : SFBinlogWriterInfo) :
    (binlog_write_to_file M e w).2.2.binlog_buffer.data = [] := by
  unfold binlog_write_to_file
  simp only []
  split
  · rename_i h
    simp [SF_BINLOG_BUFFER_LENGTH] at h
    exact h
  · rfl

theorem binlog_write_to_file_appends (M : Int) (e : Env) (w : SFBinlogWriterInfo)
    (hok : (binlog_write_to_file M e w).1 = 0) :
    Appends w (binlog_write_to_file M e w).2.2 w.binlog_buffer.data := by
  unfold binlog_write_to_file at hok ⊢
  simp only [] at hok ⊢
  split
  · rename_i h
    simp [SF_BINLOG_BUFFER_LENGTH] at h
    rw [h]
    exact appends_refl w
  · rename_i h
    rw [if_neg h] at hok
    exact appends_congr (check_write_to_file_appends M e w w.binlog_buffer.data hok) rfl rfl rfl rfl rfl rfl
/-! ## Buffering rules of `deal_binlog_one_record` -/

theorem deal_binlog_one_record_large (M : Int) (e : Env) (w : SFBinlogWriterInfo)
    (wb : SFBinlogWriterBuffer)
    (hL : (wb.bf.length : Int) ≥ (w.binlog_buffer.size : Int) / 4) :
    deal_binlog_one_record M e w wb =
      if SF_BINLOG_BUFFER_LENGTH w.binlog_buffer > 0 then
        if (binlog_write_to_file M e (record_noted w wb)).1 ≠ 0 then
          binlog_write_to_file M e (record_noted w wb)
        else
          check_write_to_file M (binlog_write_to_file M e (record_noted w wb)).2.1
            (binlog_write_to_file M e (record_noted w wb)).2.2 wb.bf
      else check_write_to_file M e (record_noted w wb) wb.bf := by
  unfold deal_binlog_one_record
  simp only [record_noted]
  rw [if_pos hL]
  by_cases hb : SF_BINLOG_BUFFER_LENGTH w.binlog_buffer > 0
  · simp only [hb, if_true]
  · simp only [hb, if_false, ne_eq, not_true_eq_false]

theorem deal_binlog_one_record_small (M : Int) (e : Env) (w : SFBinlogWriterInfo)
    (wb : SFBinlogWriterBuffer)
    (hL : ¬ (wb.bf.length : Int) ≥ (w.binlog_buffer.size : Int) / 4) :
    deal_binlog_one_record M e w wb =
      if w.file.size + SF_BINLOG_BUFFER_LENGTH w.binlog_buffer + wb.bf.length > M ∨
          (w.binlog_buffer.size : Int) - SF_BINLOG_BUFFER_LENGTH w.binlog_buffer
            < wb.bf.length then
        if (binlog_write_to_file M e (record_noted w wb)).1 ≠ 0 then
          binlog_write_to_file M e (record_noted w wb)
        else
          (0, (binlog_write_to_file M e (record_noted w wb)).2.1,
            buffer_append (binlog_write_to_file M e (record_noted w wb)).2.2 wb.bf)
      else (0, e, buffer_append (record_noted w wb) wb.bf) := by
  unfold deal_binlog_one_record
  simp only [record_noted]
  rw [if_neg hL]
  by_cases h1 : w.file.size + SF_BINLOG_BUFFER_LENGTH w.binlog_buffer + wb.bf.length > M
  · simp only [h1, if_true, true_or]
  · by_cases h2 : (w.binlog_buffer.size : Int) - SF_BINLOG_BUFFER_LENGTH w.binlog_buffer
        < wb.bf.length
    · simp only [h1, h2, if_true, if_false, or_true]
    · simp only [h1, h2, if_false, or_false, ne_eq, not_true_eq_false]

theorem deal_binlog_one_record_large_facts (M : Int) (e : Env) (w : SFBinlogWriterInfo)
    (wb : SFBinlogWriterBuffer)
    (hL : (wb.bf.length : Int) ≥ (w.binlog_buffer.size : Int) / 4) :
    deal_binlog_one_record M e w wb =
        (if SF_BINLOG_BUFFER_LENGTH w.binlog_buffer > 0 then
          if (binlog_write_to_file M e (record_noted w wb)).1 ≠ 0 then
            binlog_write_to_file M e (record_noted w wb)
          else
            check_write_to_file M (binlog_write_to_file M e (record_noted w wb)).2.1
              (binlog_write_to_file M e (record_noted w wb)).2.2 wb.bf
        else check_write_to_file M e (record_noted w wb) wb.bf) ∧
      (deal_binlog_one_record M e w wb).2.2.binlog_buffer.data = [] ∧
      ((deal_binlog_one_record M e w wb).1 = 0 →
        Appends w (deal_binlog_one_record M e w wb).2.2 (w.binlog_buffer.data ++ wb.bf)) := by
  refine ⟨deal_binlog_one_record_large M e w wb hL, ?_, ?_⟩
  · rw [deal_binlog_one_record_large M e w wb hL]
    split
    · split
      · exact binlog_write_to_file_buffer M e _
      · rw [(check_write_to_file_index M _ _ wb.bf).2.2]
        exact binlog_write_to_file_buffer M e _
    · rename_i hb
      rw [(check_write_to_file_index M _ _ wb.bf).2.2]
      simp [SF_BINLOG_BUFFER_LENGTH] at hb
      simpa [record_noted] using hb
  · rw [deal_binlog_one_record_large M e w wb hL]
    split
    · split
      · rename_i h1
        intro hok
        exact absurd hok h1
      · rename_i h1
        intro hok
        have hf := binlog_write_to_file_appends M e (record_noted w wb) (not_not.1 h1)
        have hc := check_write_to_file_appends M _ _ wb.bf hok
        exact appends_congr (appends_trans hf hc) rfl rfl rfl rfl rfl rfl
    · rename_i hb
      intro hok
      simp [SF_BINLOG_BUFFER_LENGTH] at hb
      rw [hb]
      exact appends_congr (check_write_to_file_appends M e (record_noted w wb) wb.bf hok)
        rfl rfl rfl rfl rfl rfl

/-- C10: a record of length `L ≥ buffer capacity / 4` is never copied into the
buffer: the buffered bytes are written out first when there are any, then the
record goes through `check_write_to_file`.  The buffer is empty after the
call, and when the call succeeds the bytes appended on disk are the old
buffer contents followed by the record. -/
theorem deal_binlog_one_record_large_bypass (M : Int) (e : Env) (w : SFBinlogWriterInfo)
    (wb : SFBinlogWriterBuffer)
    (hL : (wb.bf.length : Int) ≥ (w.binlog_buffer.size : Int) / 4) :
    deal_binlog_one_record M e w wb =
        (if SF_BINLOG_BUFFER_LENGTH w.binlog_buffer > 0 then
          if (binlog_write_to_file M e (record_noted w wb)).1 ≠ 0 then
            binlog_write_to_file M e (record_noted w wb)
          else
            check_write_to_file M (binlog_write_to_file M e (record_noted w wb)).2.1
              (binlog_write_to_file M e (record_noted w wb)).2.2 wb.bf
        else check_write_to_file M e (record_noted w wb) wb.bf) ∧
      (deal_binlog_one_record M e w wb).2.2.binlog_buffer.data = [] ∧
      ((deal_binlog_one_record M e w wb).1 = 0 →
        Appends w (deal_binlog_one_record M e w wb).2.2 (w.binlog_buffer.data ++ wb.bf)) :=
  deal_binlog_one_record_large_facts M e w wb hL

/-- Witness of C10: capacity 64, three bytes buffered, a record of 16 bytes:
the segment receives the three bytes and then the record, and the buffer is
empty. -/
theorem deal_binlog_one_record_large_bypass_witness :
    (deal_binlog_one_record 1000 env_ok
        { writer_init 0 4 64 0 [9] with binlog_buffer := { data := [1, 2, 3], size := 64 } }
        (normal_record 0 (List.replicate 16 7))).2.2.binlog_buffer.data = [] ∧
      (deal_binlog_one_record 1000 env_ok
        { writer_init 0 4 64 0 [9] with binlog_buffer := { data := [1, 2, 3], size := 64 } }
        (normal_record 0 (List.replicate 16 7))).2.2.dir.segments =
          [(0, [9] ++ [1, 2, 3] ++ List.replicate 16 7)] ∧
      Appends
        { writer_init 0 4 64 0 [9] with binlog_buffer := { data := [1, 2, 3], size := 64 } }
        (deal_binlog_one_record 1000 env_ok
          { writer_init 0 4 64 0 [9] with binlog_buffer := { data := [1, 2, 3], size := 64 } }
          (normal_record 0 (List.replicate 16 7))).2.2
        ([1, 2, 3] ++ List.replicate 16 7) :=
  ⟨(deal_binlog_one_record_large_bypass 1000 env_ok
      { writer_init 0 4 64 0 [9] with binlog_buffer := { data := [1, 2, 3], size := 64 } }
      (normal_record 0 (List.replicate 16 7)) (by decide)).2.1,
    by rfl,
    (deal_binlog_one_record_large_bypass 1000 env_ok
      { writer_init 0 4 64 0 [9] with binlog_buffer := { data := [1, 2, 3], size := 64 } }
      (normal_record 0 (List.replicate 16 7)) (by decide)).2.2 (by rfl)⟩
/-! ## Arrival order -/

theorem deal_binlog_one_record_stream (M : Int) (e : Env) (w : SFBinlogWriterInfo)
    (wb : SFBinlogWriterBuffer) (hok : (deal_binlog_one_record M e w wb).1 = 0) :
    ∃ F, Appends w (deal_binlog_one_record M e w wb).2.2 F ∧
      F ++ (deal_binlog_one_record M e w wb).2.2.binlog_buffer.data =
        w.binlog_buffer.data ++ wb.bf := by
  by_cases hL : (wb.bf.length : Int) ≥ (w.binlog_buffer.size : Int) / 4
  · obtain ⟨-, h2, h3⟩ := deal_binlog_one_record_large_facts M e w wb hL
    exact ⟨_, h3 hok, by rw [h2]; simp⟩
  · rw [deal_binlog_one_record_small M e w wb hL] at hok ⊢
    split
    · rename_i hc
      rw [if_pos hc] at hok
      split
      · rename_i h1
        rw [if_pos h1] at hok
        exact absurd hok h1
      · rename_i h1
        have hf := binlog_write_to_file_appends M e (record_noted w wb) (not_not.1 h1)
        have hb := binlog_write_to_file_buffer M e (record_noted w wb)
        refine ⟨w.binlog_buffer.data, appends_congr hf rfl rfl rfl rfl rfl rfl, ?_⟩
        simp [buffer_append, hb]
    · refine ⟨[], appends_congr (appends_refl w) rfl rfl rfl rfl rfl rfl, ?_⟩
      simp [buffer_append, record_noted]

theorem on_writer_some (t : SFBinlogWriterThread) (i : Nat) (w : SFBinlogWriterInfo)
    (f : Env → SFBinlogWriterInfo → Nat × Env × SFBinlogWriterInfo)
    (hw : t.writers.get? i = some w) :
    on_writer t i f =
      ((f t.env w).1, { t with env := (f t.env w).2.1, writers := t.writers.set i (f t.env w).2.2 }) ∧
    (on_writer t i f).2.writers.get? i = some (f t.env w).2.2 ∧
    (on_writer t i f).2.flush_writers = t.flush_writers ∧
    (on_writer t i f).2.flush_alloc = t.flush_alloc := by
  have h1 : on_writer t i f =
      ((f t.env w).1, { t with env := (f t.env w).2.1, writers := t.writers.set i (f t.env w).2.2 }) := by
    unfold on_writer
    rw [hw]
  refine ⟨h1, ?_, ?_, ?_⟩
  · rw [h1]
    simp only [List.get?_eq_getElem?] at hw ⊢
    have hi : i < t.writers.length := by
      by_contra hcon
      rw [List.getElem?_eq_none (by omega)] at hw
      cases hw
    simp [List.getElem?_set, hi]
  · rw [h1]
  · rw [h1]

theorem add_to_flush_writer_array_one (t : SFBinlogWriterThread) (i : Nat)
    (h : t.flush_writers = [] ∨ t.flush_writers = [i]) :
    (add_to_flush_writer_array t i).flush_writers = [i] ∧
      (add_to_flush_writer_array t i).writers = t.writers ∧
      (add_to_flush_writer_array t i).env = t.env ∧
      (add_to_flush_writer_array t i).flush_alloc = t.flush_alloc ∧
      (add_to_flush_writer_array t i).order_by = t.order_by := by
  unfold add_to_flush_writer_array
  rcases h with h | h
  · simp [h]
  · simp only [h]
    simp
    exact h

theorem deal_arrival_batch_stream (M : Int) (batch : List SFBinlogWriterBuffer) (i : Nat) :
    ∀ (t : SFBinlogWriterThread) (w : SFBinlogWriterInfo),
      t.writers.get? i = some w → (∀ m ∈ batch, m.writer = i) →
      (t.flush_writers = [] ∨ t.flush_writers = [i]) →
      (deal_arrival_batch M t batch).1 = 0 →
      ∃ w1 F, (deal_arrival_batch M t batch).2.writers.get? i = some w1 ∧
        Appends w w1 F ∧
        F ++ w1.binlog_buffer.data = w.binlog_buffer.data ++ batch_bytes batch ∧
        (batch ≠ [] → (deal_arrival_batch M t batch).2.flush_writers = [i]) := by
  induction batch with
  | nil =>
    intro t w hw _ _ _
    exact ⟨w, [], by simpa [deal_arrival_batch] using hw, appends_refl w,
      by simp [batch_bytes], by simp⟩
  | cons m rest ih =>
    intro t w hw hall hfw hok
    have hm : m.writer = i := hall m (by simp)
    obtain ⟨o1, o2, o3, o4⟩ := on_writer_some t i w
      (fun e w => deal_binlog_one_record M e w m) hw
    unfold deal_arrival_batch at hok ⊢
    rw [hm] at hok ⊢
    simp only [] at hok ⊢
    by_cases hr : (on_writer t i (fun e w => deal_binlog_one_record M e w m)).1 ≠ 0
    · rw [if_pos hr] at hok
      exact absurd hok hr
    · rw [if_neg hr] at hok ⊢
      have hr0 : (deal_binlog_one_record M t.env w m).1 = 0 := by
        have := not_not.1 hr
        rw [o1] at this
        exact this
      obtain ⟨F1, s1, s2⟩ := deal_binlog_one_record_stream M t.env w m hr0
      obtain ⟨a1, a2, a3, a4, a5⟩ := add_to_flush_writer_array_one
        (on_writer t i (fun e w => deal_binlog_one_record M e w m)).2 i (by rw [o3]; exact hfw)
      obtain ⟨w1, F2, b1, b2, b3, b4⟩ := ih
        (add_to_flush_writer_array (on_writer t i (fun e w => deal_binlog_one_record M e w m)).2 i)
        (deal_binlog_one_record M t.env w m).2.2 (by rw [a2]; exact o2)
        (fun x hx => hall x (List.mem_cons_of_mem _ hx)) (Or.inr a1) hok
      refine ⟨w1, F1 ++ F2, b1, appends_trans s1 b2, ?_, ?_⟩
      · rw [List.append_assoc, b3, ← List.append_assoc, s2]
        simp [batch_bytes]
      · intro _
        cases rest with
        | nil => simpa [deal_arrival_batch] using a1
        | cons m2 rest2 => exact b4 (by simp)
/-- C6: an arrival-ordered thread deals with a non-empty batch addressed to
one writer and reports success (every disk operation succeeded).  Then that
writer's buffer is empty, and the bytes the segment writes appended are the
bytes that were in the buffer followed by the records of the batch in queue
order; when the descriptor was open on the current segment, the segments were
written in non-decreasing number. -/
theorem deal_binlog_records_arrival_stream (M : Int) (t : SFBinlogWriterThread)
    (batch : List SFBinlogWriterBuffer) (i : Nat) (w : SFBinlogWriterInfo)
    (hord : t.order_by = SFBinlogWriterType.ORDER_BY_ARRIVAL) (hne : batch ≠ [])
    (hall : ∀ m ∈ batch, m.writer = i) (hw : t.writers.get? i = some w)
    (hok : (deal_binlog_records M t batch).map Prod.fst = some 0) :
    ∃ t1 w1, deal_binlog_records M t batch = some (0, t1) ∧
      t1.writers.get? i = some w1 ∧ w1.binlog_buffer.data = [] ∧
      Appends w w1 (w.binlog_buffer.data ++ batch_bytes batch) := by
  have heq : deal_binlog_records M t batch =
      if (deal_arrival_batch M { t with flush_writers := [] } batch).1 ≠ 0 then
        some (deal_arrival_batch M { t with flush_writers := [] } batch)
      else some (flush_writer_files M (deal_arrival_batch M { t with flush_writers := [] } batch).2) := by
    unfold deal_binlog_records
    simp only []
    split
    · rename_i h
      rw [hord] at h
      cases h
    · rfl
  rw [heq] at hok ⊢
  by_cases hr : (deal_arrival_batch M { t with flush_writers := [] } batch).1 ≠ 0
  · rw [if_pos hr] at hok
    simp at hok
    exact absurd hok hr
  · rw [if_neg hr] at hok ⊢
    obtain ⟨w1, F, b1, b2, b3, b4⟩ := deal_arrival_batch_stream M batch i
      { t with flush_writers := [] } w hw hall (Or.inl rfl) (not_not.1 hr)
    have hfw := b4 hne
    generalize (deal_arrival_batch M { t with flush_writers := [] } batch).2 = t2 at *
    have hflush : flush_writer_files M t2 = on_writer t2 i (binlog_write_to_file M) := by
      unfold flush_writer_files
      rw [hfw]
    obtain ⟨o1, o2, -, -⟩ := on_writer_some t2 i w1 (binlog_write_to_file M) b1
    rw [hflush] at hok ⊢
    simp only [Option.map_some', Option.some.injEq] at hok
    refine ⟨(on_writer t2 i (binlog_write_to_file M)).2, (binlog_write_to_file M t2.env w1).2.2,
      ?_, o2, binlog_write_to_file_buffer M t2.env w1, ?_⟩
    · rw [← hok]
    · rw [o1] at hok
      simp only [] at hok
      have := appends_trans b2 (binlog_write_to_file_appends M t2.env w1 hok)
      rw [b3] at this
      exact this

/-- Witness of C6: cold start (index 0, empty segment 0), records `A`, `B`,
`C` of 30 bytes each: the buffer ends empty, segment 0 holds `A ++ B ++ C`
and the index file says `current_write=0`. -/
theorem deal_binlog_records_arrival_stream_witness :
    (∃ t1 w1,
      deal_binlog_records 1000
          (thread_init SFBinlogWriterType.ORDER_BY_ARRIVAL (writer_init 0 4 1024 0 []) env_ok)
          [normal_record 0 (List.replicate 30 1), normal_record 0 (List.replicate 30 2),
            normal_record 0 (List.replicate 30 3)] = some (0, t1) ∧
        t1.writers.get? 0 = some w1 ∧ w1.binlog_buffer.data = [] ∧
        Appends (writer_init 0 4 1024 0 []) w1
          ((writer_init 0 4 1024 0 []).binlog_buffer.data ++
            batch_bytes [normal_record 0 (List.replicate 30 1),
              normal_record 0 (List.replicate 30 2), normal_record 0 (List.replicate 30 3)])) ∧
      (deal_binlog_records 1000
          (thread_init SFBinlogWriterType.ORDER_BY_ARRIVAL (writer_init 0 4 1024 0 []) env_ok)
          [normal_record 0 (List.replicate 30 1), normal_record 0 (List.replicate 30 2),
            normal_record 0 (List.replicate 30 3)]).map
        (fun r => r.2.writers.map (fun w => (w.dir.segments, w.dir.index_file))) =
        some [([(0, List.replicate 30 1 ++ List.replicate 30 2 ++ List.replicate 30 3)],
          some "current_write=0\ncurrent_compress=0\n")] :=
  ⟨deal_binlog_records_arrival_stream 1000
      (thread_init SFBinlogWriterType.ORDER_BY_ARRIVAL (writer_init 0 4 1024 0 []) env_ok)
      [normal_record 0 (List.replicate 30 1), normal_record 0 (List.replicate 30 2),
        normal_record 0 (List.replicate 30 3)] 0 (writer_init 0 4 1024 0 [])
      rfl (by simp) (by decide) rfl (by rfl),
    by rfl⟩
/-! ## Segment index -/

theorem sf_binlog_writer_set_binlog_index_index (e : Env) (w : SFBinlogWriterInfo) (k : Int) :
    (sf_binlog_writer_set_binlog_index e w k).2.2.binlog.index = k := by
  unfold sf_binlog_writer_set_binlog_index
  split
  · simp only []
    obtain ⟨a1, -⟩ := write_to_binlog_index_file_binlog e { w with binlog.index := k }
    split
    · rw [a1]
    · rw [(open_writable_binlog_binlog _ _).1, a1]
  · rename_i h
    rw [(open_writable_binlog_binlog _ _).1]
    exact not_not.1 h

theorem sf_binlog_writer_set_binlog_index_ok (e : Env) (w : SFBinlogWriterInfo) (k : Int)
    (hok : (sf_binlog_writer_set_binlog_index e w k).1 = 0) :
    (sf_binlog_writer_set_binlog_index e w k).2.2.file.fd = some k ∧
      (sf_binlog_writer_set_binlog_index e w k).2.2.disk_log =
        (if w.binlog.index ≠ k then
          w.disk_log ++ [DiskEvent.store_index k w.binlog.compress_index]
        else w.disk_log) := by
  unfold sf_binlog_writer_set_binlog_index at hok ⊢
  split
  · rename_i h
    rw [if_pos h] at hok
    simp only [] at hok ⊢
    obtain ⟨a1, -⟩ := write_to_binlog_index_file_binlog e { w with binlog.index := k }
    split
    · rename_i h1
      rw [if_pos h1] at hok
      exact absurd hok h1
    · rename_i h1
      rw [if_neg h1] at hok
      obtain ⟨b1, -⟩ := write_to_binlog_index_file_ok e { w with binlog.index := k }
        (not_not.1 h1)
      obtain ⟨c1, -⟩ := open_writable_binlog_ok _ _ hok
      obtain ⟨-, -, d3, -⟩ := open_writable_binlog_binlog
        (write_to_binlog_index_file e { w with binlog.index := k }).2.1
        (write_to_binlog_index_file e { w with binlog.index := k }).2.2
      rw [c1, d3, b1, a1]
      simp
  · rename_i h
    rw [if_neg h] at hok
    obtain ⟨c1, -⟩ := open_writable_binlog_ok _ _ hok
    obtain ⟨-, -, d3, -⟩ := open_writable_binlog_binlog e w
    rw [c1, d3]
    simp [not_not.1 h]

theorem stored_before_written_append (known : List Int) (l1 l2 : List DiskEvent) :
    stored_before_written known (l1 ++ l2) =
      (stored_before_written known l1).bind (fun k => stored_before_written k l2) := by
  induction l1 generalizing known with
  | nil => simp [stored_before_written]
  | cons ev rest ih =>
    cases ev with
    | store_index k c => simp [stored_before_written, ih]
    | append seg b =>
      by_cases h : seg ∈ known
      · simp [stored_before_written, h, ih]
      · simp [stored_before_written, h]

theorem apply_op_stored (M : Int) (e : Env) (w : SFBinlogWriterInfo) (op : WriterOp)
    (known : List Int) (hfd : w.file.fd = some w.binlog.index) (hk : w.binlog.index ∈ known)
    (hok : (apply_op M e w op).1 = 0) :
    ∃ evs known1, (apply_op M e w op).2.2.disk_log = w.disk_log ++ evs ∧
      stored_before_written known evs = some known1 ∧
      (apply_op M e w op).2.2.file.fd = some (apply_op M e w op).2.2.binlog.index ∧
      (apply_op M e w op).2.2.binlog.index ∈ known1 := by
  cases op with
  | write buff =>
    simp only [apply_op] at hok ⊢
    have hidx := (check_write_to_file_index M e w buff).1
    by_cases h : w.file.size + buff.length ≤ M
    · rw [if_pos h] at hidx
      have hok1 := hok
      rw [check_write_to_file_keep M e w buff h] at hok1
      obtain ⟨seg, c1, c2, -⟩ := do_write_to_file_ok e w buff hok1
      rw [← check_write_to_file_keep M e w buff h] at c2
      have hfd1 : (check_write_to_file M e w buff).2.2.file.fd = w.file.fd := by
        rw [check_write_to_file_keep M e w buff h]
        exact (do_write_to_file_binlog e w buff).2.2.2
      rw [hfd] at c1
      have hseg : seg = w.binlog.index := (Option.some.inj c1).symm
      refine ⟨_, known, c2, ?_, by rw [hfd1, hidx, hfd], by rw [hidx]; exact hk⟩
      simp [stored_before_written, hseg, hk]
    · rw [if_neg h] at hidx
      obtain ⟨c1, c2, -⟩ := check_write_to_file_rotate_ok M e w buff h hok
      refine ⟨_, (w.binlog.index + 1) :: known, c1, ?_, by rw [c2, hidx], by rw [hidx]; simp⟩
      simp [stored_before_written]
  | set_binlog_index k =>
    simp only [apply_op] at hok ⊢
    have hidx := sf_binlog_writer_set_binlog_index_index e w k
    obtain ⟨c1, c2⟩ := sf_binlog_writer_set_binlog_index_ok e w k hok
    by_cases h : w.binlog.index ≠ k
    · rw [if_pos h] at c2
      refine ⟨_, k :: known, c2, by simp [stored_before_written], by rw [c1, hidx],
        by rw [hidx]; simp⟩
    · rw [if_neg h] at c2
      refine ⟨[], known, by simpa using c2, by simp [stored_before_written],
        by rw [c1, hidx], ?_⟩
      rw [hidx, ← not_not.1 h]
      exact hk

theorem run_ops_stored (M : Int) (ops : List WriterOp) :
    ∀ (e : Env) (w : SFBinlogWriterInfo) (known : List Int) (e1 : Env)
      (w1 : SFBinlogWriterInfo), w.file.fd = some w.binlog.index → w.binlog.index ∈ known →
      run_ops M e w ops = some (e1, w1) →
      ∃ evs known1, w1.disk_log = w.disk_log ++ evs ∧
        stored_before_written known evs = some known1 := by
  induction ops with
  | nil =>
    intro e w known e1 w1 _ _ h
    simp [run_ops] at h
    exact ⟨[], known, by rw [← h.2]; simp, by simp [stored_before_written]⟩
  | cons op rest ih =>
    intro e w known e1 w1 hfd hk h
    unfold run_ops at h
    split at h
    · cases h
    · rename_i hok
      obtain ⟨evs, known1, a1, a2, a3, a4⟩ := apply_op_stored M e w op known hfd hk
        (not_not.1 hok)
      obtain ⟨evs2, known2, b1, b2⟩ := ih _ _ known1 e1 w1 a3 a4 h
      refine ⟨evs ++ evs2, known2, by rw [b1, a1, List.append_assoc], ?_⟩
      rw [stored_before_written_append, a2]
      simpa using b2

/-- Function `sf_binlog_writer_set_binlog_index` succeeds in taking the index
from 5 down to 3: nothing guards against a decrease. -/
theorem set_binlog_index_lowers_index :
    (sf_binlog_writer_set_binlog_index env_ok (writer_init 0 4 64 5 []) 3).1 = 0 ∧
      (sf_binlog_writer_set_binlog_index env_ok (writer_init 0 4 64 5 []) 3).2.2.binlog.index
        = 3 ∧
      ¬ (writer_init 0 4 64 5 []).binlog.index <
        (sf_binlog_writer_set_binlog_index env_ok (writer_init 0 4 64 5 []) 3).2.2.binlog.index := by
  decide

/-- A write through `check_write_to_file` leaves the segment index
as it is or, when it rotates, raises it by exactly one;
`sf_binlog_writer_set_binlog_index` sets it to the value given, whatever that
is; and in every sequence of such operations that all succeed, started with
the descriptor open on the current segment, each segment write goes to the
segment that was current at the start or to one whose number was stored in
the index file earlier in the sequence. -/
theorem segment_index_steps (M : Int) (e : Env) (w : SFBinlogWriterInfo) :
    (∀ buff, (check_write_to_file M e w buff).2.2.binlog.index =
        if w.file.size + buff.length ≤ M then w.binlog.index else w.binlog.index + 1) ∧
      (∀ k, (sf_binlog_writer_set_binlog_index e w k).2.2.binlog.index = k) ∧
      (∀ ops, w.file.fd = some w.binlog.index → (run_ops M e w ops).isSome = true →
        ∃ e1 w1 evs known, run_ops M e w ops = some (e1, w1) ∧
          w1.disk_log = w.disk_log ++ evs ∧
          stored_before_written [w.binlog.index] evs = some known) := by
  refine ⟨fun buff => (check_write_to_file_index M e w buff).1,
    fun k => sf_binlog_writer_set_binlog_index_index e w k, ?_⟩
  intro ops hfd h
  obtain ⟨r, hr⟩ := Option.isSome_iff_exists.1 h
  obtain ⟨e1, w1⟩ := r
  obtain ⟨evs, known, a1, a2⟩ := run_ops_stored M ops e w [w.binlog.index] e1 w1 hfd (by simp) hr
  exact ⟨e1, w1, evs, known, hr, a1, a2⟩

/-- An instance of `segment_index_steps`: a rotating write (index 0 to 1), a
plain write, a jump to index 7 and another rotating write (7 to 8) all succeed; the log shows
each index stored before its segment is written. -/
theorem segment_index_steps_witness :
    (run_ops 100 env_ok (writer_init 0 4 64 0 (List.replicate 80 0))
        [WriterOp.write (List.replicate 30 1), WriterOp.write [2],
          WriterOp.set_binlog_index 7, WriterOp.write (List.replicate 101 3)]).map
      (fun r => r.2.disk_log) =
      some [DiskEvent.store_index 1 0, DiskEvent.append 1 (List.replicate 30 1),
        DiskEvent.append 1 [2], DiskEvent.store_index 7 0, DiskEvent.store_index 8 0,
        DiskEvent.append 8 (List.replicate 101 3)] ∧
    ∃ e1 w1 evs known,
      run_ops 100 env_ok (writer_init 0 4 64 0 (List.replicate 80 0))
        [WriterOp.write (List.replicate 30 1), WriterOp.write [2],
          WriterOp.set_binlog_index 7, WriterOp.write (List.replicate 101 3)] = some (e1, w1) ∧
        w1.disk_log = (writer_init 0 4 64 0 (List.replicate 80 0)).disk_log ++ evs ∧
        stored_before_written [(writer_init 0 4 64 0 (List.replicate 80 0)).binlog.index] evs
          = some known :=
  ⟨by rfl,
    (segment_index_steps 100 env_ok (writer_init 0 4 64 0 (List.replicate 80 0))).2.2
      _ rfl (by rfl)⟩

/-- C8 on a failed store followed by a retry: the first
`sf_binlog_writer_set_binlog_index(writer, 5)` fails in the store of the index
file and leaves `binlog.index = 5` in memory; the second call finds the index
equal to 5, skips the store and opens segment 5; the write that follows puts
its bytes into segment 5 while `binlog_index.dat` still reads
`current_write=0`, and the disk log holds a segment write without any store of
its index. -/
theorem retried_set_binlog_index_skips_store :
    set_index_failed.1 = 28 ∧
      set_index_failed.2.2.binlog.index = 5 ∧
      set_index_failed.2.2.dir.index_file = some "current_write=0\ncurrent_compress=0\n" ∧
      set_index_retried.1 = 0 ∧
      set_index_retried.2.2.file.fd = some 5 ∧
      set_index_retried.2.2.disk_log = [] ∧
      written_after_retry.1 = 0 ∧
      seg_find written_after_retry.2.2.dir.segments 5 = some [1, 2, 3] ∧
      written_after_retry.2.2.dir.index_file = some "current_write=0\ncurrent_compress=0\n" ∧
      written_after_retry.2.2.disk_log = [DiskEvent.append 5 [1, 2, 3]] ∧
      stored_before_written [0] written_after_retry.2.2.disk_log = none := by
  decide
/-! ## Failures in the writer thread -/

/-- C9 at its failing input: a version-ordered thread, segment 0 holding 80 of
at most 100 bytes, receives the 30-byte record with version `next`, and the
store of the index file fails with errno 28 during the rotation.  The macro
`DEAL_CURRENT_VERSION_WBUFFER` drops the error: the batch ends with the
continue flag still true, nothing written, the record gone from the ring and
`next` advanced.  The same batch in arrival order clears the flag. -/
theorem version_order_drops_index_store_failure :
    (binlog_writer_func_batch 100
        (thread_init SFBinlogWriterType.ORDER_BY_VERSION
          (writer_init 10 4 64 0 (List.replicate 80 0))
          { continue_flag := true, oracle := [28], queue := { chain := [], tail := 0 } })
        [normal_record 10 (List.replicate 30 7)]).map
      (fun t => (t.env.continue_flag, t.env.oracle, queued_versions t,
        t.writers.map (fun w => (w.disk_log, w.dir.segments, w.binlog_buffer.data,
          w.version_ctx.next, w.binlog.index, w.dir.index_file)))) =
      some (true, [], [],
        [([], [(0, List.replicate 80 0)], [], 11, 1,
          some "current_write=0\ncurrent_compress=0\n")]) ∧
    (binlog_writer_func_batch 100
        (thread_init SFBinlogWriterType.ORDER_BY_ARRIVAL
          (writer_init 10 4 64 0 (List.replicate 80 0))
          { continue_flag := true, oracle := [28], queue := { chain := [], tail := 0 } })
        [normal_record 10 (List.replicate 30 7)]).map
      (fun t => t.env.continue_flag) = some false := by
  constructor <;> rfl

/-! ## Version ring: order of the records written -/

theorem add_mod_cases (a x s : Nat) (hx : x < s) :
    (a + x) % s = if a % s + x < s then a % s + x else a % s + x - s := by
  have hs : 0 < s := by omega
  have ha : a % s < s := Nat.mod_lt a hs
  rw [Nat.add_mod, Nat.mod_eq_of_lt hx]
  split
  · rename_i h; exact Nat.mod_eq_of_lt h
  · rename_i h
    rw [Nat.mod_eq_sub_mod (by omega)]
    exact Nat.mod_eq_of_lt (by omega)

theorem mod_window_eq (a b s : Nat) (h1 : a ≤ b) (h2 : b < a + s) (h3 : b % s = a % s) :
    b = a := by
  obtain ⟨x, rfl⟩ : ∃ x, b = a + x := ⟨b - a, by omega⟩
  have hx : x < s := by omega
  rw [add_mod_cases a x s hx] at h3
  have ha : a % s < s := Nat.mod_lt a (by omega)
  split at h3 <;> omega

theorem version_distance_window (v next : Nat) (h1 : next ≤ v)
    (h3 : v - next < 2 ^ 63) : version_distance v next = ((v - next : Nat) : Int) := by
  unfold version_distance
  have h : (v + 2 ^ 64 - next) % 2 ^ 64 = v - next := by
    have : v + 2 ^ 64 - next = (v - next) + 2 ^ 64 := by omega
    rw [this, Nat.add_mod_right]
    exact Nat.mod_eq_of_lt (by omega)
  simp only [h]
  rw [if_pos h3]

theorem add_mod_or (a x s : Nat) (hx : x < s) :
    (a % s + x < s ∧ (a + x) % s = a % s + x) ∨
      (s ≤ a % s + x ∧ (a + x) % s = a % s + x - s) := by
  rw [add_mod_cases a x s hx]
  by_cases h : a % s + x < s
  · left; exact ⟨h, by rw [if_pos h]⟩
  · right; exact ⟨by omega, by rw [if_neg h]⟩

theorem ring_expand_window (r : Ring) (next hi d : Nat) (hs : 2 ≤ r.size)
    (hstart : r.start = next % r.size) (hend : r.end_ = (next + hi) % r.size)
    (hhi : hi + 1 ≤ r.size) (hd1 : 1 ≤ d) (hd2 : d + 2 ≤ r.size) :
    ring_expand r ((next + d) % r.size) = decide (hi ≤ d) := by
  have hm : next % r.size < r.size := Nat.mod_lt _ (by omega)
  have e1 := add_mod_or next hi r.size (by omega)
  have e2 := add_mod_or next d r.size (by omega)
  unfold ring_expand
  rw [hstart, hend]
  generalize (next + hi) % r.size = E at e1 ⊢
  generalize (next + d) % r.size = C at e2 ⊢
  generalize next % r.size = S at hm e1 e2 ⊢
  by_cases c3 : hi ≤ d
  · rw [decide_eq_true c3]
    split
    · rfl
    · split
      · simp only [Bool.not_eq_true', Bool.and_eq_false_imp, decide_eq_true_eq,
          decide_eq_false_iff_not]
        omega
      · simp only [Bool.and_eq_true, decide_eq_true_eq]
        omega
  · rw [decide_eq_false c3]
    split
    · omega
    · split
      · simp only [Bool.not_eq_false', Bool.and_eq_true, decide_eq_true_eq]
        omega
      · simp only [Bool.and_eq_false_imp, decide_eq_true_eq, decide_eq_false_iff_not]
        omega

theorem ring_store_ctx (w : SFBinlogWriterInfo) (wb : SFBinlogWriterBuffer) :
    (ring_store w wb).version_ctx =
      { next := w.version_ctx.next
        ring :=
          { entries := w.version_ctx.ring.entries.set
              (wb.version % w.version_ctx.ring.size) (some wb)
            start := w.version_ctx.ring.start
            end_ :=
              if ring_expand w.version_ctx.ring (wb.version % w.version_ctx.ring.size) then
                ((wb.version + 1) % 2 ^ 64) % w.version_ctx.ring.size
              else w.version_ctx.ring.end_
            size := w.version_ctx.ring.size
            count := w.version_ctx.ring.count + 1
            max_count :=
              if w.version_ctx.ring.count + 1 > w.version_ctx.ring.max_count then
                w.version_ctx.ring.count + 1
              else w.version_ctx.ring.max_count } } ∧
      (ring_store w wb).dealt = w.dealt := by
  unfold ring_store
  simp only []
  by_cases h1 : w.version_ctx.ring.count + 1 > w.version_ctx.ring.max_count
  · simp only [h1, if_true]
    have hx : ring_expand
        { entries := w.version_ctx.ring.entries.set (wb.version % w.version_ctx.ring.size) (some wb),
          start := w.version_ctx.ring.start, end_ := w.version_ctx.ring.end_,
          size := w.version_ctx.ring.size, count := w.version_ctx.ring.count + 1,
          max_count := w.version_ctx.ring.count + 1 } (wb.version % w.version_ctx.ring.size) =
        ring_expand w.version_ctx.ring (wb.version % w.version_ctx.ring.size) := rfl
    rw [hx]
    split <;> simp
  · simp only [h1, if_false]
    have hx : ring_expand
        { entries := w.version_ctx.ring.entries.set (wb.version % w.version_ctx.ring.size) (some wb),
          start := w.version_ctx.ring.start, end_ := w.version_ctx.ring.end_,
          size := w.version_ctx.ring.size, count := w.version_ctx.ring.count + 1,
          max_count := w.version_ctx.ring.max_count } (wb.version % w.version_ctx.ring.size) =
        ring_expand w.version_ctx.ring (wb.version % w.version_ctx.ring.size) := rfl
    rw [hx]
    split <;> simp

theorem ring_store_ok (hi : Nat) (w : SFBinlogWriterInfo) (wb : SFBinlogWriterBuffer)
    (h : RingOk 1 hi w.version_ctx) (h1 : w.version_ctx.next < wb.version)
    (h2 : wb.version + 2 ≤ w.version_ctx.next + w.version_ctx.ring.size)
    (h3 : wb.version + 1 < 2 ^ 64) :
    RingOk 1 (max hi (wb.version - w.version_ctx.next + 1)) (ring_store w wb).version_ctx := by
  obtain ⟨a1, a2, a3, a4, a5, a6, a7⟩ := h
  obtain ⟨d, hd⟩ : ∃ d, wb.version = w.version_ctx.next + d := ⟨wb.version - w.version_ctx.next, by omega⟩
  have hexp := ring_expand_window w.version_ctx.ring w.version_ctx.next hi d a1 a4 a5 a6
    (by omega) (by omega)
  rw [← hd] at hexp
  rw [(ring_store_ctx w wb).1]
  refine ⟨a1, a2, by simpa using a3, a4, ?_, by simp only []; omega, ?_⟩
  · simp only [hexp]
    by_cases c : hi ≤ d
    · rw [decide_eq_true c, if_pos rfl, Nat.mod_eq_of_lt h3]
      congr 1
      omega
    · rw [decide_eq_false c, if_neg (by simp), a5]
      congr 1
      omega
  · intro i wb0 hget
    dsimp only at hget ⊢
    simp only [List.getElem?_set] at hget
    split at hget
    · rename_i hi0
      split at hget
      · simp only [Option.some.injEq] at hget
        subst hget
        refine ⟨hi0, by omega, by omega, h3⟩
      · cases hget
    · obtain ⟨b1, b2, b3, b4⟩ := a7 i wb0 hget
      exact ⟨b1, b2, by omega, b4⟩

theorem drain_ring_rule (M : Int) (I : Nat → Nat → Env → SFBinlogWriterInfo → Prop)
    (hbody : ∀ m index e w wb, I m index e w →
      w.version_ctx.ring.start ≠ w.version_ctx.ring.end_ →
      w.version_ctx.ring.entries.getD w.version_ctx.ring.start none = some wb →
      ∃ m1, m1 < m ∧
        I m1 (index + 1) (drain_ring_body M index e w wb).1 (drain_ring_body M index e w wb).2) :
    ∀ fuel m index e w, I m index e w → m < fuel →
      ∃ m1 index1 e1 w1, drain_ring M fuel index e w = some (e1, w1) ∧ I m1 index1 e1 w1 ∧
        (w1.version_ctx.ring.start = w1.version_ctx.ring.end_ ∨
          w1.version_ctx.ring.entries.getD w1.version_ctx.ring.start none = none) := by
  intro fuel
  induction fuel with
  | zero => intro m index e w _ hm; omega
  | succ n ih =>
    intro m index e w hI hm
    unfold drain_ring
    by_cases hse : w.version_ctx.ring.start = w.version_ctx.ring.end_
    · rw [if_pos hse]
      exact ⟨m, index, e, w, rfl, hI, Or.inl hse⟩
    · rw [if_neg hse]
      cases hslot : w.version_ctx.ring.entries.getD w.version_ctx.ring.start none with
      | none => exact ⟨m, index, e, w, rfl, hI, Or.inr hslot⟩
      | some wb =>
        obtain ⟨m1, hm1, hI1⟩ := hbody m index e w wb hI hse hslot
        exact ih m1 (index + 1) _ _ hI1 (by omega)

theorem succ_mod_congr (a b s : Nat) (h : a % s = b % s) : (a + 1) % s = (b + 1) % s := by
  rw [Nat.add_mod a 1 s, Nat.add_mod b 1 s, h]

theorem ring_start_eq_end_iff (c : VersionCtx) (lo hi : Nat) (h : RingOk lo hi c) :
    c.ring.start = c.ring.end_ ↔ hi = 0 := by
  obtain ⟨a1, a2, a3, a4, a5, a6, a7⟩ := h
  rw [a4, a5]
  rcases add_mod_or c.next hi c.ring.size (by omega) with ⟨h1, h2⟩ | ⟨h1, h2⟩
  · rw [h2]; omega
  · rw [h2]
    have := Nat.mod_lt c.next (show 0 < c.ring.size by omega)
    omega

theorem getD_some_iff (l : List (Option SFBinlogWriterBuffer)) (i : Nat)
    (wb : SFBinlogWriterBuffer) : l.getD i none = some wb ↔ l[i]? = some (some wb) := by
  rw [List.getD_eq_getElem?_getD]
  cases h : l[i]? with
  | none => simp
  | some o => simp

theorem range_concat (n0 next : Nat) (h : n0 ≤ next) :
    List.range' n0 (next + 1 - n0) = List.range' n0 (next - n0) ++ [next] := by
  have : next + 1 - n0 = (next - n0) + 1 := by omega
  rw [this, List.range'_concat]
  congr 2
  omega

theorem drain_ring_body_ok (M : Int) (D : List SFBinlogWriterBuffer) (n0 : Nat) (q : Queue)
    (m index : Nat) (e : Env) (w : SFBinlogWriterInfo) (wb : SFBinlogWriterBuffer)
    (hI : DrainOk D n0 q m index e w)
    (hse : w.version_ctx.ring.start ≠ w.version_ctx.ring.end_)
    (hslot : w.version_ctx.ring.entries.getD w.version_ctx.ring.start none = some wb) :
    1 ≤ m ∧ wb.version = w.version_ctx.next ∧
      (drain_ring_body M index e w wb).2.version_ctx.next = w.version_ctx.next + 1 ∧
      DrainOk D n0 q (m - 1) (index + 1) (drain_ring_body M index e w wb).1
        (drain_ring_body M index e w wb).2 := by
  obtain ⟨hR, hD, hq, hidx⟩ := hI
  have hm : 1 ≤ m := by
    have := (ring_start_eq_end_iff _ 0 m hR).not.1 hse
    omega
  obtain ⟨a1, a2, a3, a4, a5, a6, a7⟩ := hR
  obtain ⟨b1, b2, b3, b4⟩ := a7 _ wb ((getD_some_iff _ _ _).1 hslot)
  have hv : wb.version = w.version_ctx.next :=
    mod_window_eq _ _ w.version_ctx.ring.size (by omega) (by omega) (by rw [b1, a4])
  obtain ⟨f1, f2, f3⟩ := drain_ring_body_frame M index e w wb
  have hnext : (w.version_ctx.next + 1) % 2 ^ 64 = w.version_ctx.next + 1 :=
    Nat.mod_eq_of_lt (by omega)
  refine ⟨hm, hv, by rw [f2]; exact hnext, ?_, ?_, by rw [f1]; exact hq, ?_⟩
  · rw [f2, hnext]
    refine ⟨a1, a2, by simpa using a3, ?_, ?_, by simp only []; omega, ?_⟩
    · dsimp only
      exact succ_mod_congr _ _ _ (by rw [hidx, a4])
    · dsimp only
      rw [a5]
      congr 1
      omega
    · intro i wb0 hget
      dsimp only at hget ⊢
      simp only [List.getElem?_set] at hget
      split at hget
      · split at hget <;> cases hget
      · rename_i hne
        obtain ⟨c1, c2, c3, c4⟩ := a7 i wb0 hget
        refine ⟨c1, ?_, by omega, c4⟩
        by_contra hcon
        have : wb0.version = w.version_ctx.next := by omega
        rw [this, ← a4] at c1
        exact hne c1
  · obtain ⟨d1, L, d2, d3⟩ := hD
    refine ⟨by rw [f2]; dsimp only; omega, L ++ [wb], by rw [f3, d2, List.append_assoc], ?_⟩
    rw [f2]
    dsimp only
    rw [hnext, List.map_append, d3, range_concat n0 _ d1]
    simp [hv]
  · rw [f2]

theorem ring_ok_after_drain (c : VersionCtx) (m : Nat) (h : RingOk 0 m c)
    (hstop : c.ring.start = c.ring.end_ ∨ c.ring.entries.getD c.ring.start none = none) :
    RingOk 1 m c := by
  have hiff := ring_start_eq_end_iff c 0 m h
  obtain ⟨a1, a2, a3, a4, a5, a6, a7⟩ := h
  refine ⟨a1, a2, a3, a4, a5, a6, ?_⟩
  intro i wb hget
  obtain ⟨b1, b2, b3, b4⟩ := a7 i wb hget
  refine ⟨b1, ?_, b3, b4⟩
  rcases hstop with hs | hs
  · have := hiff.1 hs
    omega
  · by_contra hcon
    have hv : wb.version = c.next := by omega
    rw [hv, ← a4] at b1
    rw [← b1] at hget
    rw [List.getD_eq_getElem?_getD, hget] at hs
    simp at hs

theorem not_repushed_of_window (w : SFBinlogWriterInfo) (wb : SFBinlogWriterBuffer)
    (hs : w.version_ctx.ring.size < 2 ^ 31) (h1 : w.version_ctx.next ≤ wb.version)
    (h2 : wb.version + 2 ≤ w.version_ctx.next + w.version_ctx.ring.size) :
    ¬ version_distance wb.version w.version_ctx.next ≥ (w.version_ctx.ring.size : Int) - 1 := by
  rw [version_distance_window _ _ h1 (by omega)]
  omega

theorem deal_record_by_version_current (M : Int) (e : Env) (w : SFBinlogWriterInfo)
    (wb : SFBinlogWriterBuffer) (hi : Nat) (D : List SFBinlogWriterBuffer) (n0 : Nat)
    (h : RingOk 1 hi w.version_ctx) (hd : DealtOk D n0 w)
    (hv : wb.version = w.version_ctx.next) (h3 : wb.version + 1 < 2 ^ 64) :
    ∃ e1 w1 m, deal_record_by_version M e w wb = some (e1, w1) ∧ RingOk 1 m w1.version_ctx ∧
      DealtOk D n0 w1 ∧ e1.queue = e.queue := by
  have hiff := ring_start_eq_end_iff _ 1 hi h
  obtain ⟨a1, a2, a3, a4, a5, a6, a7⟩ := h
  have hnr := not_repushed_of_window w wb a2 (by omega) (by omega)
  obtain ⟨f1, f2, f3⟩ := DEAL_CURRENT_VERSION_WBUFFER_frame M e w wb
  have hnext : (w.version_ctx.next + 1) % 2 ^ 64 = w.version_ctx.next + 1 :=
    Nat.mod_eq_of_lt (by omega)
  rw [hnext] at f2
  have hdealt : DealtOk D n0 (DEAL_CURRENT_VERSION_WBUFFER M e w wb).2 := by
    obtain ⟨d1, L, d2, d3⟩ := hd
    refine ⟨by rw [f2]; dsimp only; omega, L ++ [wb], by rw [f3, d2, List.append_assoc], ?_⟩
    rw [f2]
    dsimp only
    rw [List.map_append, d3, range_concat n0 _ d1]
    simp [hv]
  unfold deal_record_by_version
  simp only []
  rw [if_neg hnr, if_pos (by rw [hv, a4])]
  generalize DEAL_CURRENT_VERSION_WBUFFER M e w wb = r at f1 f2 f3 hdealt
  obtain ⟨e1, w1⟩ := r
  obtain ⟨x1, x2, x3, vc, x5, x6, x7⟩ := w1
  dsimp only at f1 f2 f3 hdealt ⊢
  subst f2
  dsimp only
  have hsucc : (w.version_ctx.ring.start + 1) % w.version_ctx.ring.size =
      (w.version_ctx.next + 1) % w.version_ctx.ring.size :=
    succ_mod_congr _ _ _ (by rw [a4, Nat.mod_mod])
  by_cases hse : w.version_ctx.ring.start = w.version_ctx.ring.end_
  · rw [if_pos hse]
    have hi0 : hi = 0 := hiff.1 hse
    refine ⟨e1, _, 0, rfl, ?_, ?_, f1⟩
    · refine ⟨a1, a2, a3, hsucc, hsucc, by dsimp only; omega, ?_⟩
      intro i wb0 hget
      obtain ⟨c1, c2, c3, c4⟩ := a7 i wb0 hget
      omega
    · obtain ⟨d1, L, d2, d3⟩ := hdealt
      exact ⟨d1, L, d2, d3⟩
  · rw [if_neg hse]
    have hi1 : 1 ≤ hi := by
      have := hiff.not.1 hse
      omega
    have hI : DrainOk D n0 e.queue (hi - 1) (w.version_ctx.ring.start + 1) e1
        { binlog := x1, file := x2, binlog_buffer := x3,
          version_ctx :=
            { next := w.version_ctx.next + 1
              ring :=
                { entries := w.version_ctx.ring.entries
                  start := (w.version_ctx.ring.start + 1) % w.version_ctx.ring.size
                  end_ := w.version_ctx.ring.end_
                  size := w.version_ctx.ring.size
                  count := w.version_ctx.ring.count
                  max_count := w.version_ctx.ring.max_count } },
          dir := x5, disk_log := x6, dealt := x7 } := by
      refine ⟨?_, ?_, f1, rfl⟩
      · refine ⟨a1, a2, a3, hsucc, ?_, by dsimp only; omega, ?_⟩
        · dsimp only
          rw [a5]; congr 1; omega
        · intro i wb0 hget
          obtain ⟨c1, c2, c3, c4⟩ := a7 i wb0 hget
          exact ⟨c1, by dsimp only; omega, by dsimp only; omega, c4⟩
      · obtain ⟨d1, L, d2, d3⟩ := hdealt
        exact ⟨d1, L, d2, d3⟩
    obtain ⟨m1, index1, e2, w2, r1, r2, r3⟩ := drain_ring_rule M (DrainOk D n0 e.queue)
      (fun m index e0 w0 wb0 hI0 hse0 hslot0 =>
        ⟨m - 1,
          by have := (drain_ring_body_ok M D n0 e.queue m index e0 w0 wb0 hI0 hse0 hslot0).1; omega,
          (drain_ring_body_ok M D n0 e.queue m index e0 w0 wb0 hI0 hse0 hslot0).2.2.2⟩)
      (w.version_ctx.ring.size + 1) (hi - 1) _ _ _ hI (by omega)
    exact ⟨e2, w2, m1, r1, ring_ok_after_drain _ _ r2.1 r3, r2.2.1, r2.2.2.1⟩

theorem deal_record_by_version_future (M : Int) (e : Env) (w : SFBinlogWriterInfo)
    (wb : SFBinlogWriterBuffer) (hi : Nat) (D : List SFBinlogWriterBuffer) (n0 : Nat)
    (h : RingOk 1 hi w.version_ctx) (hd : DealtOk D n0 w)
    (h1 : w.version_ctx.next < wb.version)
    (h2 : wb.version + 2 ≤ w.version_ctx.next + w.version_ctx.ring.size)
    (h3 : wb.version + 1 < 2 ^ 64) :
    deal_record_by_version M e w wb = some (e, ring_store w wb) ∧
      RingOk 1 (max hi (wb.version - w.version_ctx.next + 1)) (ring_store w wb).version_ctx ∧
      DealtOk D n0 (ring_store w wb) := by
  have hok := ring_store_ok hi w wb h h1 h2 h3
  obtain ⟨a1, a2, a3, a4, a5, a6, a7⟩ := h
  have hnr := not_repushed_of_window w wb a2 (by omega) h2
  have hcur : ¬ wb.version % w.version_ctx.ring.size = w.version_ctx.ring.start := by
    intro hcon
    have := mod_window_eq w.version_ctx.next wb.version w.version_ctx.ring.size (by omega)
      (by omega) (by rw [hcon, a4])
    omega
  refine ⟨?_, hok, ?_⟩
  · unfold deal_record_by_version
    simp only []
    rw [if_neg hnr, if_neg hcur]
  · obtain ⟨d1, L, d2, d3⟩ := hd
    obtain ⟨s1, s2⟩ := ring_store_ctx w wb
    exact ⟨by rw [s1]; exact d1, L, by rw [s2]; exact d2, by rw [s1]; exact d3⟩

theorem deal_record_by_version_ok (M : Int) (e : Env) (w : SFBinlogWriterInfo)
    (wb : SFBinlogWriterBuffer) (hi : Nat) (D : List SFBinlogWriterBuffer) (n0 : Nat)
    (h : RingOk 1 hi w.version_ctx) (hd : DealtOk D n0 w)
    (h1 : w.version_ctx.next ≤ wb.version)
    (h2 : wb.version + 2 ≤ w.version_ctx.next + w.version_ctx.ring.size)
    (h3 : wb.version + 1 < 2 ^ 64) :
    ∃ e1 w1 m, deal_record_by_version M e w wb = some (e1, w1) ∧ RingOk 1 m w1.version_ctx ∧
      DealtOk D n0 w1 ∧ e1.queue = e.queue := by
  by_cases hv : wb.version = w.version_ctx.next
  · exact deal_record_by_version_current M e w wb hi D n0 h hd hv h3
  · obtain ⟨r1, r2, r3⟩ := deal_record_by_version_future M e w wb hi D n0 h hd (by omega) h2 h3
    exact ⟨e, _, _, r1, r2, r3, rfl⟩

theorem version_ctx_init_ok (n0 s : Nat) (hs : 2 ≤ s) (hs2 : s < 2 ^ 31) :
    RingOk 1 0 (version_ctx_init n0 s) := by
  refine ⟨hs, hs2, by simp [version_ctx_init], rfl, rfl, by simp [version_ctx_init]; omega, ?_⟩
  intro i wb hget
  simp only [version_ctx_init] at hget
  rw [List.getElem?_replicate] at hget
  split at hget <;> cases hget

theorem within_window_iff (w : SFBinlogWriterInfo) (wb : SFBinlogWriterBuffer) :
    within_window w wb = true ↔
      w.version_ctx.next ≤ wb.version ∧
        wb.version + 2 ≤ w.version_ctx.next + w.version_ctx.ring.size := by
  unfold within_window at_most_window_end
  simp only [Bool.and_eq_true, decide_eq_true_eq]
  constructor <;> intro h <;> refine ⟨h.1, ?_⟩ <;> omega

theorem deal_records_by_version_ok (M : Int) (D : List SFBinlogWriterBuffer) (n0 : Nat)
    (msgs : List SFBinlogWriterBuffer) :
    ∀ (e : Env) (w : SFBinlogWriterInfo) (hi : Nat), RingOk 1 hi w.version_ctx →
      DealtOk D n0 w → (∀ m ∈ msgs, m.version + 1 < 2 ^ 64) →
      each_when_processed M within_window e w msgs = true →
      ∃ e1 w1 m1, deal_records_by_version M e w msgs = some (e1, w1) ∧
        RingOk 1 m1 w1.version_ctx ∧ DealtOk D n0 w1 ∧ e1.queue = e.queue := by
  induction msgs with
  | nil =>
    intro e w hi h hd _ _
    exact ⟨e, w, hi, rfl, h, hd, rfl⟩
  | cons wb rest ih =>
    intro e w hi h hd hu hwin
    unfold each_when_processed at hwin
    rw [Bool.and_eq_true] at hwin
    obtain ⟨hw1, hw2⟩ := hwin
    obtain ⟨h1, h2⟩ := (within_window_iff w wb).1 hw1
    obtain ⟨e1, w1, m1, r1, r2, r3, r4⟩ := deal_record_by_version_ok M e w wb hi D n0 h hd h1 h2
      (hu wb (by simp))
    rw [r1] at hw2
    dsimp only at hw2
    obtain ⟨e2, w2, m2, s1, s2, s3, s4⟩ := ih e1 w1 m1 r2 r3
      (fun m hm => hu m (List.mem_cons_of_mem _ hm)) hw2
    refine ⟨e2, w2, m2, ?_, s2, s3, by rw [s4, r4]⟩
    unfold deal_records_by_version
    rw [r1]
    exact s1

/-- C2, as stated, fails: ring of 4 at `next = 10`; the messages 10 and then 7
are both at most `next + (ring_size - 2)` when processed, and the write path
receives them in the order 10, 7. -/
theorem stale_version_written_out_of_order :
    each_when_processed 1000 at_most_window_end env_ok (writer_init 10 4 64 0 [])
        [normal_record 10 [1], normal_record 7 [2]] = true ∧
      (deal_records_by_version 1000 env_ok (writer_init 10 4 64 0 [])
        [normal_record 10 [1], normal_record 7 [2]]).map
          (fun r => r.2.dealt.map (fun m => m.version)) = some [10, 7] ∧
      ¬ List.Pairwise (fun a b : Nat => a < b) [10, 7] := by
  refine ⟨by rfl, by rfl, by decide⟩

/-- C2 amended: for a version-ordered writer with a ring as initialised
(`next = n0`, `2 ≤ ring_size`), and every sequence of messages in which each
version is at least `next` and at most `next + (ring_size - 2)` at the moment
it is processed (versions below `2 ^ 64 - 1`, so that the cursor does not
wrap), every call of `deal_record_by_version` returns, nothing is repushed,
and the versions of the records passed to the write path are
`n0, n0 + 1, ...` up to the final `next - 1`: a strictly increasing sequence,
whatever the submission order. -/
theorem versions_written_strictly_increasing (M : Int) (e : Env) (w : SFBinlogWriterInfo)
    (n0 s : Nat) (msgs : List SFBinlogWriterBuffer) (hs2 : s < 2 ^ 31)
    (hinit : w.version_ctx = version_ctx_init n0 s)
    (hu : ∀ m ∈ msgs, m.version + 1 < 2 ^ 64)
    (hwin : each_when_processed M within_window e w msgs = true) :
    ∃ e1 w1 L, deal_records_by_version M e w msgs = some (e1, w1) ∧
      w1.dealt = w.dealt ++ L ∧
      L.map (fun m => m.version) = List.range' n0 (w1.version_ctx.next - n0) ∧
      (L.map (fun m => m.version)).Pairwise (fun a b => a < b) ∧
      e1.queue = e.queue := by
  cases msgs with
  | nil =>
    refine ⟨e, w, [], rfl, by simp, ?_, by simp, rfl⟩
    rw [hinit]
    simp [version_ctx_init]
  | cons wb rest =>
    have hs : 2 ≤ s := by
      have hwin1 := hwin
      unfold each_when_processed at hwin1
      rw [Bool.and_eq_true] at hwin1
      obtain ⟨h1, h2⟩ := (within_window_iff w wb).1 hwin1.1
      rw [hinit] at h1 h2
      simp only [version_ctx_init] at h1 h2
      omega
    have hR : RingOk 1 0 w.version_ctx := by rw [hinit]; exact version_ctx_init_ok n0 s hs hs2
    have hD : DealtOk w.dealt n0 w := by
      refine ⟨by rw [hinit]; simp [version_ctx_init], [], by simp, ?_⟩
      rw [hinit]
      simp [version_ctx_init]
    obtain ⟨e1, w1, m1, r1, r2, r3, r4⟩ := deal_records_by_version_ok M w.dealt n0 (wb :: rest)
      e w 0 hR hD hu hwin
    obtain ⟨d1, L, d2, d3⟩ := r3
    refine ⟨e1, w1, L, r1, d2, d3, ?_, r4⟩
    rw [d3]
    exact List.pairwise_lt_range' n0 _

/-- Witness of C2 amended: ring of 4 at `next = 10`, submission order
12, 11, 12, 10, 13 (version 12 twice while it is pending): the write path
receives 10, 11, 12, 13. -/
theorem versions_written_strictly_increasing_witness :
    (∃ e1 w1 L,
      deal_records_by_version 1000 env_ok (writer_init 10 4 64 0 [])
          [normal_record 12 [1], normal_record 11 [2], normal_record 12 [3],
            normal_record 10 [4], normal_record 13 [5]] = some (e1, w1) ∧
        w1.dealt = (writer_init 10 4 64 0 []).dealt ++ L ∧
        L.map (fun m => m.version) = List.range' 10 (w1.version_ctx.next - 10) ∧
        (L.map (fun m => m.version)).Pairwise (fun a b => a < b) ∧
        e1.queue = env_ok.queue) ∧
      (deal_records_by_version 1000 env_ok (writer_init 10 4 64 0 [])
          [normal_record 12 [1], normal_record 11 [2], normal_record 12 [3],
            normal_record 10 [4], normal_record 13 [5]]).map
        (fun r => r.2.dealt.map (fun m => m.version)) = some [10, 11, 12, 13] :=
  ⟨versions_written_strictly_increasing 1000 env_ok (writer_init 10 4 64 0 []) 10 4
      [normal_record 12 [1], normal_record 11 [2], normal_record 12 [3],
        normal_record 10 [4], normal_record 13 [5]] (by decide) rfl (by decide) (by rfl),
    by rfl⟩

/-! ## Version ring: every version submitted once -/

theorem reduceOption_set_some (l : List (Option SFBinlogWriterBuffer)) (i : Nat)
    (x : SFBinlogWriterBuffer) (h : l[i]? = some none) :
    (l.set i (some x)).reduceOption.Perm (x :: l.reduceOption) := by
  induction l generalizing i with
  | nil => simp at h
  | cons a rest ih =>
    cases i with
    | zero =>
      simp at h
      subst h
      simp [List.reduceOption_cons_of_some, List.reduceOption_cons_of_none]
    | succ j =>
      simp at h
      have := ih j h
      cases a with
      | none => simpa [List.reduceOption_cons_of_none] using this
      | some y =>
        simp only [List.set_cons_succ, List.reduceOption_cons_of_some]
        exact (List.Perm.cons y this).trans (List.Perm.swap x y _)

theorem reduceOption_set_none (l : List (Option SFBinlogWriterBuffer)) (i : Nat)
    (x : SFBinlogWriterBuffer) (h : l[i]? = some (some x)) :
    l.reduceOption.Perm (x :: (l.set i none).reduceOption) := by
  induction l generalizing i with
  | nil => simp at h
  | cons a rest ih =>
    cases i with
    | zero =>
      simp at h
      subst h
      simp [List.reduceOption_cons_of_some, List.reduceOption_cons_of_none]
    | succ j =>
      simp at h
      have := ih j h
      cases a with
      | none => simpa [List.reduceOption_cons_of_none] using this
      | some y =>
        simp only [List.set_cons_succ, List.reduceOption_cons_of_some]
        exact (List.Perm.cons y this).trans (List.Perm.swap x y _)

theorem mem_reduceOption_getElem (l : List (Option SFBinlogWriterBuffer))
    (x : SFBinlogWriterBuffer) : x ∈ l.reduceOption ↔ ∃ i : Nat, l[i]? = some (some x) := by
  rw [List.reduceOption_mem_iff, List.mem_iff_getElem?]

theorem reduceOption_nil_replicate (l : List (Option SFBinlogWriterBuffer))
    (h : l.reduceOption = []) : l = List.replicate l.length none := by
  induction l with
  | nil => rfl
  | cons a rest ih =>
    cases a with
    | none =>
      rw [List.reduceOption_cons_of_none] at h
      simp only [List.length_cons, List.replicate_succ]
      rw [← ih h]
    | some y => simp [List.reduceOption_cons_of_some] at h

theorem slot_ne_of_offset (next k s : Nat) (hk1 : 1 ≤ k) (hk2 : k < s) :
    (next + k) % s ≠ next % s := by
  intro h
  have := mod_window_eq next (next + k) s (by omega) (by omega) h
  omega

theorem drain_ring_body_full (M : Int) (D : List SFBinlogWriterBuffer) (n0 : Nat) (q : Queue)
    (m index : Nat) (e : Env) (w : SFBinlogWriterInfo) (wb : SFBinlogWriterBuffer)
    (P : List SFBinlogWriterBuffer) (hI : DrainOk D n0 q m index e w) (s : Nat) (hF : RingFull s m P D w)
    (hse : w.version_ctx.ring.start ≠ w.version_ctx.ring.end_)
    (hslot : w.version_ctx.ring.entries.getD w.version_ctx.ring.start none = some wb) :
    RingFull s (m - 1) P D (drain_ring_body M index e w wb).2 := by
  obtain ⟨hm, hv, -, -⟩ := drain_ring_body_ok M D n0 q m index e w wb hI hse hslot
  obtain ⟨⟨a1, a2, a3, a4, a5, a6, a7⟩, -, -, -⟩ := hI
  obtain ⟨g0, g1, g2, L, g3, g4⟩ := hF
  obtain ⟨-, f2, f3⟩ := drain_ring_body_frame M index e w wb
  have hget := (getD_some_iff _ _ _).1 hslot
  have hperm := reduceOption_set_none _ _ _ hget
  have hnext : (w.version_ctx.next + 1) % 2 ^ 64 = w.version_ctx.next + 1 := by
    obtain ⟨-, -, -, b4⟩ := a7 _ wb hget
    exact Nat.mod_eq_of_lt (by omega)
  unfold RingFull
  rw [f2, f3, hnext]
  dsimp only
  refine ⟨g0, ?_, ?_, L ++ [wb], by rw [g3, List.append_assoc], ?_⟩
  · have hl := hperm.length_eq
    simp only [List.length_cons] at hl
    rw [g1, hl]
    push_cast
    omega
  · by_cases hm1 : m = 1
    · left; omega
    · right
      rcases g2 with g2 | ⟨wb1, g2⟩
      · omega
      · refine ⟨wb1, ?_⟩
        have hidx : w.version_ctx.next + 1 + (m - 1) - 1 = w.version_ctx.next + m - 1 := by omega
        rw [hidx, List.getElem?_set]
        have hne : ¬ w.version_ctx.ring.start =
            (w.version_ctx.next + m - 1) % w.version_ctx.ring.size := by
          rw [a4]
          have : w.version_ctx.next + m - 1 = w.version_ctx.next + (m - 1) := by omega
          rw [this]
          exact (slot_ne_of_offset _ _ _ (by omega) (by omega)).symm
        rw [if_neg hne]
        exact g2
  · rw [List.append_assoc]
    refine List.Perm.trans ?_ g4
    exact List.Perm.append_left L hperm.symm

theorem ring_store_full (hi : Nat) (w : SFBinlogWriterInfo) (wb : SFBinlogWriterBuffer)
    (P D : List SFBinlogWriterBuffer) (h : RingOk 1 hi w.version_ctx) (s : Nat) (hF : RingFull s hi P D w)
    (h1 : w.version_ctx.next < wb.version)
    (h2 : wb.version + 2 ≤ w.version_ctx.next + w.version_ctx.ring.size)
    (hfresh : wb.version ∉ P.map (fun m => m.version)) :
    RingFull s (max hi (wb.version - w.version_ctx.next + 1)) (wb :: P) D (ring_store w wb) := by
  obtain ⟨a1, a2, a3, a4, a5, a6, a7⟩ := h
  obtain ⟨g0, g1, g2, L, g3, g4⟩ := hF
  obtain ⟨s1, s2⟩ := ring_store_ctx w wb
  have hcur : wb.version % w.version_ctx.ring.size < w.version_ctx.ring.entries.length := by
    rw [a3]; exact Nat.mod_lt _ (by omega)
  have hempty : w.version_ctx.ring.entries[wb.version % w.version_ctx.ring.size]? = some none := by
    cases hx : w.version_ctx.ring.entries[wb.version % w.version_ctx.ring.size]? with
    | none =>
      rw [List.getElem?_eq_none_iff] at hx
      omega
    | some o =>
      cases o with
      | none => rfl
      | some wb0 =>
        exfalso
        obtain ⟨b1, b2, b3, b4⟩ := a7 _ wb0 hx
        have hveq : wb0.version = wb.version := by
          rcases Nat.le_total wb.version wb0.version with hle | hle
          · exact mod_window_eq _ _ w.version_ctx.ring.size hle (by omega) b1
          · exact (mod_window_eq _ _ w.version_ctx.ring.size hle (by omega) b1.symm).symm
        apply hfresh
        have hmem : wb0 ∈ P := by
          apply g4.subset
          apply List.mem_append_right
          exact (mem_reduceOption_getElem _ _).2 ⟨_, hx⟩
        exact List.mem_map.2 ⟨wb0, hmem, hveq⟩
  have hperm := reduceOption_set_some _ _ wb hempty
  unfold RingFull
  rw [s1, s2]
  dsimp only
  refine ⟨g0, ?_, ?_, L, g3, ?_⟩
  · have hl := hperm.length_eq
    simp only [List.length_cons] at hl
    rw [g1, hl]
    push_cast
    omega
  · right
    by_cases c : hi ≤ wb.version - w.version_ctx.next
    · refine ⟨wb, ?_⟩
      have hidx : w.version_ctx.next + max hi (wb.version - w.version_ctx.next + 1) - 1 =
          wb.version := by omega
      rw [hidx, List.getElem?_set]
      simp [hcur]
    · rcases g2 with g2 | ⟨wb1, g2⟩
      · omega
      · have hmax : max hi (wb.version - w.version_ctx.next + 1) = hi := by omega
        rw [hmax, List.getElem?_set]
        by_cases heq : wb.version % w.version_ctx.ring.size =
            (w.version_ctx.next + hi - 1) % w.version_ctx.ring.size
        · rw [if_pos heq, if_pos hcur]; exact ⟨wb, rfl⟩
        · rw [if_neg heq]; exact ⟨wb1, g2⟩
  · refine List.Perm.trans (List.Perm.append_left L hperm) ?_
    refine List.Perm.trans List.perm_middle ?_
    exact List.Perm.cons wb g4

theorem perm_dealt_cons (L pend P : List SFBinlogWriterBuffer) (wb : SFBinlogWriterBuffer)
    (h : (L ++ pend).Perm P) : (L ++ [wb] ++ pend).Perm (wb :: P) := by
  rw [List.append_assoc]
  refine List.Perm.trans ?_ (List.Perm.cons wb h)
  exact List.perm_middle

theorem deal_record_by_version_current_full (M : Int) (e : Env) (w : SFBinlogWriterInfo)
    (wb : SFBinlogWriterBuffer) (hi : Nat) (P D : List SFBinlogWriterBuffer) (n0 : Nat)
    (s : Nat)
    (h : RingOk 1 hi w.version_ctx) (hF : RingFull s hi P D w) (hd : DealtOk D n0 w)
    (hv : wb.version = w.version_ctx.next) (h3 : wb.version + 1 < 2 ^ 64) :
    ∃ e1 w1 m, deal_record_by_version M e w wb = some (e1, w1) ∧ RingOk 1 m w1.version_ctx ∧
      RingFull s m (wb :: P) D w1 ∧ DealtOk D n0 w1 ∧ e1.queue = e.queue := by
  have hiff := ring_start_eq_end_iff _ 1 hi h
  obtain ⟨a1, a2, a3, a4, a5, a6, a7⟩ := h
  obtain ⟨g0, g1, g2, L0, g3, g4⟩ := hF
  have hnr := not_repushed_of_window w wb a2 (by omega) (by omega)
  obtain ⟨f1, f2, f3⟩ := DEAL_CURRENT_VERSION_WBUFFER_frame M e w wb
  have hnext : (w.version_ctx.next + 1) % 2 ^ 64 = w.version_ctx.next + 1 :=
    Nat.mod_eq_of_lt (by omega)
  rw [hnext] at f2
  have hdealt : DealtOk D n0 (DEAL_CURRENT_VERSION_WBUFFER M e w wb).2 := by
    obtain ⟨d1, L, d2, d3⟩ := hd
    refine ⟨by rw [f2]; dsimp only; omega, L ++ [wb], by rw [f3, d2, List.append_assoc], ?_⟩
    rw [f2]
    dsimp only
    rw [List.map_append, d3, range_concat n0 _ d1]
    simp [hv]
  unfold deal_record_by_version
  simp only []
  rw [if_neg hnr, if_pos (by rw [hv, a4])]
  generalize DEAL_CURRENT_VERSION_WBUFFER M e w wb = r at f1 f2 f3 hdealt
  obtain ⟨e1, w1⟩ := r
  obtain ⟨x1, x2, x3, vc, x5, x6, x7⟩ := w1
  dsimp only at f1 f2 f3 hdealt ⊢
  subst f2
  subst f3
  dsimp only
  have hsucc : (w.version_ctx.ring.start + 1) % w.version_ctx.ring.size =
      (w.version_ctx.next + 1) % w.version_ctx.ring.size :=
    succ_mod_congr _ _ _ (by rw [a4, Nat.mod_mod])
  have hperm : (L0 ++ [wb] ++ w.version_ctx.ring.entries.reduceOption).Perm (wb :: P) :=
    perm_dealt_cons _ _ _ _ g4
  by_cases hse : w.version_ctx.ring.start = w.version_ctx.ring.end_
  · rw [if_pos hse]
    have hi0 : hi = 0 := hiff.1 hse
    refine ⟨e1, _, 0, rfl, ?_, ?_, ?_, f1⟩
    · refine ⟨a1, a2, a3, hsucc, hsucc, by dsimp only; omega, ?_⟩
      intro i wb0 hget
      obtain ⟨c1, c2, c3, c4⟩ := a7 i wb0 hget
      omega
    · exact ⟨g0, g1, Or.inl rfl, L0 ++ [wb], by dsimp only; rw [g3, List.append_assoc], hperm⟩
    · obtain ⟨d1, L, d2, d3⟩ := hdealt
      exact ⟨d1, L, d2, d3⟩
  · rw [if_neg hse]
    have hi1 : 1 ≤ hi := by
      have := hiff.not.1 hse
      omega
    have hI : DrainOk D n0 e.queue (hi - 1) (w.version_ctx.ring.start + 1) e1
          { binlog := x1, file := x2, binlog_buffer := x3,
            version_ctx :=
              { next := w.version_ctx.next + 1
                ring :=
                  { entries := w.version_ctx.ring.entries
                    start := (w.version_ctx.ring.start + 1) % w.version_ctx.ring.size
                    end_ := w.version_ctx.ring.end_
                    size := w.version_ctx.ring.size
                    count := w.version_ctx.ring.count
                    max_count := w.version_ctx.ring.max_count } },
            dir := x5, disk_log := x6, dealt := w.dealt ++ [wb] } ∧
        RingFull s (hi - 1) (wb :: P) D
          { binlog := x1, file := x2, binlog_buffer := x3,
            version_ctx :=
              { next := w.version_ctx.next + 1
                ring :=
                  { entries := w.version_ctx.ring.entries
                    start := (w.version_ctx.ring.start + 1) % w.version_ctx.ring.size
                    end_ := w.version_ctx.ring.end_
                    size := w.version_ctx.ring.size
                    count := w.version_ctx.ring.count
                    max_count := w.version_ctx.ring.max_count } },
            dir := x5, disk_log := x6, dealt := w.dealt ++ [wb] } := by
      refine ⟨⟨?_, ?_, f1, rfl⟩, ?_⟩
      · refine ⟨a1, a2, a3, hsucc, ?_, by dsimp only; omega, ?_⟩
        · dsimp only
          rw [a5]; congr 1; omega
        · intro i wb0 hget
          obtain ⟨c1, c2, c3, c4⟩ := a7 i wb0 hget
          exact ⟨c1, by dsimp only; omega, by dsimp only; omega, c4⟩
      · obtain ⟨d1, L, d2, d3⟩ := hdealt
        exact ⟨d1, L, d2, d3⟩
      · refine ⟨g0, g1, ?_, L0 ++ [wb], by dsimp only; rw [g3, List.append_assoc], hperm⟩
        dsimp only
        rcases g2 with g2 | ⟨wb1, g2⟩
        · omega
        · by_cases hh : hi - 1 = 0
          · left; exact hh
          · right
            refine ⟨wb1, ?_⟩
            have : w.version_ctx.next + 1 + (hi - 1) - 1 = w.version_ctx.next + hi - 1 := by
              omega
            rw [this]
            exact g2
    obtain ⟨m1, index1, e2, w2, r1, r2, r3⟩ := drain_ring_rule M
      (fun m index e0 w0 => DrainOk D n0 e.queue m index e0 w0 ∧ RingFull s m (wb :: P) D w0)
      (fun m index e0 w0 wb0 hI0 hse0 hslot0 =>
        ⟨m - 1,
          by
            have := (drain_ring_body_ok M D n0 e.queue m index e0 w0 wb0 hI0.1 hse0 hslot0).1
            omega,
          (drain_ring_body_ok M D n0 e.queue m index e0 w0 wb0 hI0.1 hse0 hslot0).2.2.2,
          drain_ring_body_full M D n0 e.queue m index e0 w0 wb0 (wb :: P) hI0.1 s hI0.2 hse0
            hslot0⟩)
      (w.version_ctx.ring.size + 1) (hi - 1) _ _ _ hI (by omega)
    exact ⟨e2, w2, m1, r1, ring_ok_after_drain _ _ r2.1.1 r3, r2.2, r2.1.2.1, r2.1.2.2.1⟩

theorem deal_record_by_version_full (M : Int) (e : Env) (w : SFBinlogWriterInfo)
    (wb : SFBinlogWriterBuffer) (hi : Nat) (P D : List SFBinlogWriterBuffer) (n0 : Nat)
    (s : Nat)
    (h : RingOk 1 hi w.version_ctx) (hF : RingFull s hi P D w) (hd : DealtOk D n0 w)
    (h1 : w.version_ctx.next ≤ wb.version)
    (h2 : wb.version + 2 ≤ w.version_ctx.next + w.version_ctx.ring.size)
    (h3 : wb.version + 1 < 2 ^ 64) (hfresh : wb.version ∉ P.map (fun m => m.version)) :
    ∃ e1 w1 m, deal_record_by_version M e w wb = some (e1, w1) ∧ RingOk 1 m w1.version_ctx ∧
      RingFull s m (wb :: P) D w1 ∧ DealtOk D n0 w1 ∧ e1.queue = e.queue := by
  by_cases hv : wb.version = w.version_ctx.next
  · exact deal_record_by_version_current_full M e w wb hi P D n0 s h hF hd hv h3
  · obtain ⟨r1, r2, r3⟩ := deal_record_by_version_future M e w wb hi D n0 h hd (by omega) h2 h3
    exact ⟨e, _, _, r1, r2, ring_store_full hi w wb P D h s hF (by omega) h2 hfresh, r3, rfl⟩

theorem below_repush_distance_iff (w : SFBinlogWriterInfo) (wb : SFBinlogWriterBuffer) :
    below_repush_distance w wb = true ↔
      (wb.version : Int) - (w.version_ctx.next : Int) < (w.version_ctx.ring.size : Int) - 1 := by
  unfold below_repush_distance
  simp only [decide_eq_true_eq]

theorem dealt_versions_in_processed (s hi n0 : Nat) (P D : List SFBinlogWriterBuffer)
    (w : SFBinlogWriterInfo) (hF : RingFull s hi P D w) (hd : DealtOk D n0 w) (v : Nat)
    (h1 : n0 ≤ v) (h2 : v < w.version_ctx.next) : v ∈ P.map (fun m => m.version) := by
  obtain ⟨-, -, -, L, g3, g4⟩ := hF
  obtain ⟨d1, L1, d2, d3⟩ := hd
  have hL : L1 = L := List.append_cancel_left (d2.symm.trans g3)
  subst hL
  have hv : v ∈ L1.map (fun m => m.version) := by
    rw [d3, List.mem_range'_1]
    omega
  obtain ⟨m, hm, hmv⟩ := List.mem_map.1 hv
  exact List.mem_map.2 ⟨m, g4.subset (List.mem_append_left _ hm), hmv⟩

theorem deal_records_by_version_full (M : Int) (D : List SFBinlogWriterBuffer) (n0 k s : Nat)
    (hk : n0 + k < 2 ^ 64) (msgs : List SFBinlogWriterBuffer) :
    ∀ (e : Env) (w : SFBinlogWriterInfo) (hi : Nat) (P : List SFBinlogWriterBuffer),
      RingOk 1 hi w.version_ctx → RingFull s hi P D w → DealtOk D n0 w →
      (∀ m ∈ msgs, n0 ≤ m.version ∧ m.version < n0 + k) →
      (msgs.map (fun m => m.version)).Nodup →
      (∀ m ∈ msgs, m.version ∉ P.map (fun m => m.version)) →
      each_when_processed M below_repush_distance e w msgs = true →
      ∃ e1 w1 m1, deal_records_by_version M e w msgs = some (e1, w1) ∧
        RingOk 1 m1 w1.version_ctx ∧ RingFull s m1 (msgs.reverse ++ P) D w1 ∧
        DealtOk D n0 w1 ∧ e1.queue = e.queue := by
  induction msgs with
  | nil =>
    intro e w hi P h hF hd _ _ _ _
    exact ⟨e, w, hi, rfl, h, by simpa using hF, hd, rfl⟩
  | cons wb rest ih =>
    intro e w hi P h hF hd hrange hnodup hfresh hwin
    unfold each_when_processed at hwin
    rw [Bool.and_eq_true] at hwin
    obtain ⟨hw1, hw2⟩ := hwin
    have hdist := (below_repush_distance_iff w wb).1 hw1
    obtain ⟨hr1, hr2⟩ := hrange wb (by simp)
    have hfr := hfresh wb (by simp)
    have hge : w.version_ctx.next ≤ wb.version := by
      by_contra hcon
      exact hfr (dealt_versions_in_processed s hi n0 P D w hF hd wb.version hr1 (by omega))
    obtain ⟨e1, w1, m1, r1, r2, r3, r4, r5⟩ := deal_record_by_version_full M e w wb hi P D n0 s
      h hF hd hge (by omega) (by omega) hfr
    rw [r1] at hw2
    dsimp only at hw2
    rw [List.map_cons, List.nodup_cons] at hnodup
    obtain ⟨e2, w2, m2, s1, s2, s3, s4, s5⟩ := ih e1 w1 m1 (wb :: P) r2 r3 r4
      (fun m hm => hrange m (List.mem_cons_of_mem _ hm)) hnodup.2
      (by
        intro m hm hcon
        rw [List.map_cons, List.mem_cons] at hcon
        rcases hcon with hcon | hcon
        · exact hnodup.1 (by rw [← hcon]; exact List.mem_map.2 ⟨m, hm, rfl⟩)
        · exact hfresh m (List.mem_cons_of_mem _ hm) hcon)
      hw2
    refine ⟨e2, w2, m2, ?_, s2, ?_, s4, by rw [s5, r5]⟩
    · unfold deal_records_by_version
      rw [r1]
      exact s1
    · simpa using s3

theorem reduceOption_replicate_none (s : Nat) :
    (List.replicate s (none : Option SFBinlogWriterBuffer)).reduceOption = [] := by
  induction s with
  | zero => rfl
  | succ n ih => rw [List.replicate_succ, List.reduceOption_cons_of_none, ih]

theorem version_ctx_init_full (n0 s : Nat) (w : SFBinlogWriterInfo)
    (hinit : w.version_ctx = version_ctx_init n0 s) : RingFull s 0 [] w.dealt w := by
  refine ⟨by rw [hinit]; rfl, ?_, Or.inl rfl, [], by simp, ?_⟩
  · rw [hinit]
    simp only [version_ctx_init]
    rw [reduceOption_replicate_none]
    rfl
  · rw [hinit]
    simp only [version_ctx_init]
    rw [reduceOption_replicate_none]
    simp

theorem ring_final_state (s hi n0 k : Nat) (msgs D : List SFBinlogWriterBuffer)
    (w : SFBinlogWriterInfo) (h : RingOk 1 hi w.version_ctx) (hF : RingFull s hi msgs D w)
    (hd : DealtOk D n0 w)
    (hperm : (msgs.map (fun m => m.version)).Perm (List.range' n0 k)) :
    ∃ L, w.dealt = D ++ L ∧ L.map (fun m => m.version) = List.range' n0 k ∧ L.Perm msgs ∧
      w.version_ctx.next = n0 + k ∧ w.version_ctx.ring.entries = List.replicate s none ∧
      w.version_ctx.ring.count = 0 ∧ w.version_ctx.ring.start = (n0 + k) % s ∧
      w.version_ctx.ring.end_ = (n0 + k) % s := by
  obtain ⟨a1, a2, a3, a4, a5, a6, a7⟩ := h
  obtain ⟨g0, g1, g2, L, g3, g4⟩ := hF
  obtain ⟨d1, L1, d2, d3⟩ := hd
  have hL : L1 = L := List.append_cancel_left (d2.symm.trans g3)
  subst hL
  have hvers : ((L1 ++ w.version_ctx.ring.entries.reduceOption).map (fun m => m.version)).Perm
      (List.range' n0 k) := (g4.map _).trans hperm
  have hnot : w.version_ctx.next ∉
      (L1 ++ w.version_ctx.ring.entries.reduceOption).map (fun m => m.version) := by
    intro hmem
    rw [List.map_append, List.mem_append] at hmem
    rcases hmem with hmem | hmem
    · rw [d3, List.mem_range'_1] at hmem
      omega
    · obtain ⟨m, hm, hmv⟩ := List.mem_map.1 hmem
      obtain ⟨i, hi0⟩ := (mem_reduceOption_getElem _ _).1 hm
      obtain ⟨-, b2, -, -⟩ := a7 i m hi0
      omega
  have hge : n0 + k ≤ w.version_ctx.next := by
    by_contra hcon
    apply hnot
    rw [hvers.mem_iff, List.mem_range'_1]
    omega
  have hlen := hvers.length_eq
  have hL1 := congrArg List.length d3
  simp only [List.length_map, List.length_append, List.length_range'] at hlen hL1
  have hpend : w.version_ctx.ring.entries.reduceOption = [] :=
    List.length_eq_zero.1 (by omega)
  have hnext : w.version_ctx.next = n0 + k := by omega
  have hentries := reduceOption_nil_replicate _ hpend
  rw [a3, g0] at hentries
  have hhi : hi = 0 := by
    rcases g2 with g2 | ⟨wb, g2⟩
    · exact g2
    · exfalso
      have := (mem_reduceOption_getElem _ wb).2 ⟨_, g2⟩
      rw [hpend] at this
      simp at this
  refine ⟨L1, g3, ?_, ?_, hnext, hentries, ?_, ?_, ?_⟩
  · rw [d3, hnext]; congr 1; omega
  · simpa [hpend] using g4
  · rw [g1, hpend]; rfl
  · rw [a4, hnext, g0]
  · rw [a5, hnext, hhi, g0]; rfl

/-- C1: a version-ordered writer with `next = n0` and an empty ring of
`s ≥ 2` slots processes messages whose versions are `n0, ..., n0 + k - 1` in
some order, each satisfying `version - next < s - 1` at the moment it is
processed.  Every call returns, nothing is repushed, the records are handed
to the write path in the order `n0, n0 + 1, ..., n0 + k - 1`, and afterwards
`next = n0 + k`, every slot is empty, `count = 0` and
`start = end = slot(n0 + k)`. -/
theorem version_gap_fill (M : Int) (e : Env) (w : SFBinlogWriterInfo) (n0 s k : Nat)
    (msgs : List SFBinlogWriterBuffer) (hs : 2 ≤ s) (hs2 : s < 2 ^ 31)
    (hinit : w.version_ctx = version_ctx_init n0 s) (hk : n0 + k < 2 ^ 64)
    (hperm : (msgs.map (fun m => m.version)).Perm (List.range' n0 k))
    (hwin : each_when_processed M below_repush_distance e w msgs = true) :
    ∃ e1 w1 L, deal_records_by_version M e w msgs = some (e1, w1) ∧
      w1.dealt = w.dealt ++ L ∧ L.map (fun m => m.version) = List.range' n0 k ∧
      L.Perm msgs ∧ w1.version_ctx.next = n0 + k ∧
      w1.version_ctx.ring.entries = List.replicate s none ∧
      w1.version_ctx.ring.count = 0 ∧ w1.version_ctx.ring.start = (n0 + k) % s ∧
      w1.version_ctx.ring.end_ = (n0 + k) % s ∧ e1.queue = e.queue := by
  have hR : RingOk 1 0 w.version_ctx := by rw [hinit]; exact version_ctx_init_ok n0 s hs hs2
  have hF := version_ctx_init_full n0 s w hinit
  have hD : DealtOk w.dealt n0 w := by
    refine ⟨by rw [hinit]; simp [version_ctx_init], [], by simp, ?_⟩
    rw [hinit]
    simp [version_ctx_init]
  have hrange : ∀ m ∈ msgs, n0 ≤ m.version ∧ m.version < n0 + k := by
    intro m hm
    have : m.version ∈ List.range' n0 k :=
      hperm.mem_iff.1 (List.mem_map.2 ⟨m, hm, rfl⟩)
    rw [List.mem_range'_1] at this
    exact this
  have hnodup : (msgs.map (fun m => m.version)).Nodup :=
    hperm.nodup_iff.2 (List.nodup_range' n0 k)
  obtain ⟨e1, w1, m1, r1, r2, r3, r4, r5⟩ := deal_records_by_version_full M w.dealt n0 k s hk
    msgs e w 0 [] hR hF hD hrange hnodup (by simp) hwin
  obtain ⟨g0, g1, g2, L0, g3, g4⟩ := r3
  have hF1 : RingFull s m1 msgs w.dealt w1 :=
    ⟨g0, g1, g2, L0, g3, g4.trans (by simp)⟩
  obtain ⟨L, c1, c2, c3, c4, c5, c6, c7, c8⟩ := ring_final_state s m1 n0 k msgs w.dealt w1 r2
    hF1 r4 hperm
  exact ⟨e1, w1, L, r1, c1, c2, c3, c4, c5, c6, c7, c8, r5⟩

/-- Witness of C1: `n0 = 100`, `s = 8`, submission order 102, 101, 103, 100:
the write path receives 100, 101, 102, 103, the ring is empty and
`next = 104`. -/
theorem version_gap_fill_witness :
    (∃ e1 w1 L,
      deal_records_by_version 1000 env_ok (writer_init 100 8 64 0 [])
          [normal_record 102 [2], normal_record 101 [1], normal_record 103 [3],
            normal_record 100 [0]] = some (e1, w1) ∧
        w1.dealt = (writer_init 100 8 64 0 []).dealt ++ L ∧
        L.map (fun m => m.version) = List.range' 100 4 ∧
        L.Perm [normal_record 102 [2], normal_record 101 [1], normal_record 103 [3],
          normal_record 100 [0]] ∧
        w1.version_ctx.next = 100 + 4 ∧
        w1.version_ctx.ring.entries = List.replicate 8 none ∧
        w1.version_ctx.ring.count = 0 ∧ w1.version_ctx.ring.start = (100 + 4) % 8 ∧
        w1.version_ctx.ring.end_ = (100 + 4) % 8 ∧ e1.queue = env_ok.queue) ∧
      (deal_records_by_version 1000 env_ok (writer_init 100 8 64 0 [])
          [normal_record 102 [2], normal_record 101 [1], normal_record 103 [3],
            normal_record 100 [0]]).map
        (fun r => (r.2.dealt.map (fun m => m.version), r.2.version_ctx.next,
          r.2.version_ctx.ring.entries)) =
        some ([100, 101, 102, 103], 104, List.replicate 8 none) :=
  ⟨version_gap_fill 1000 env_ok (writer_init 100 8 64 0 []) 100 8 4
      [normal_record 102 [2], normal_record 101 [1], normal_record 103 [3],
        normal_record 100 [0]] (by decide) (by decide) rfl (by decide) (by decide) (by rfl),
    by rfl⟩
/-! ## The buffer never overflows -/

theorem deal_binlog_one_record_buffer_cases (M : Int) (e : Env) (w : SFBinlogWriterInfo)
    (wb : SFBinlogWriterBuffer)
    (hu : w.binlog_buffer.data.length ≤ w.binlog_buffer.size) :
    (deal_binlog_one_record M e w wb).2.2.binlog_buffer.size = w.binlog_buffer.size ∧
      (deal_binlog_one_record M e w wb).2.2.binlog_buffer.data.length ≤ w.binlog_buffer.size ∧
      ((wb.bf.length : Int) ≥ (w.binlog_buffer.size : Int) / 4 →
        (deal_binlog_one_record M e w wb).2.2.binlog_buffer.data = []) ∧
      ((deal_binlog_one_record M e w wb).1 ≠ 0 →
        (deal_binlog_one_record M e w wb).2.2.binlog_buffer.data = []) ∧
      ((deal_binlog_one_record M e w wb).2.2.binlog_buffer.data = [] ∨
        ((deal_binlog_one_record M e w wb).2.2.binlog_buffer.data = w.binlog_buffer.data ++ wb.bf ∧
          w.binlog_buffer.data.length + wb.bf.length ≤ w.binlog_buffer.size) ∨
        ((deal_binlog_one_record M e w wb).2.2.binlog_buffer.data = wb.bf ∧
          (wb.bf.length : Int) < (w.binlog_buffer.size : Int) / 4 ∧
          wb.bf.length ≤ w.binlog_buffer.size)) := by
  refine ⟨(deal_binlog_one_record_frame M e w wb).2.2.2, ?_⟩
  by_cases hL : (wb.bf.length : Int) ≥ (w.binlog_buffer.size : Int) / 4
  · have h0 := (deal_binlog_one_record_large_facts M e w wb hL).2.1
    rw [h0]
    exact ⟨by simp, fun _ => rfl, fun _ => rfl, Or.inl rfl⟩
  · have hC : wb.bf.length ≤ w.binlog_buffer.size := by omega
    rw [deal_binlog_one_record_small M e w wb hL]
    refine ⟨?_, fun h => absurd h hL, ?_, ?_⟩
    · split
      · split
        · rw [binlog_write_to_file_buffer]; simp
        · simp only [buffer_append, binlog_write_to_file_buffer, List.nil_append]
          exact hC
      · rename_i hc
        simp only [SF_BINLOG_BUFFER_LENGTH, not_or, not_lt] at hc
        simp only [buffer_append, record_noted, List.length_append]
        omega
    · split
      · split
        · intro _
          exact binlog_write_to_file_buffer M e _
        · intro h
          exact absurd rfl h
      · intro h
        exact absurd rfl h
    · split
      · split
        · exact Or.inl (binlog_write_to_file_buffer M e _)
        · refine Or.inr (Or.inr ⟨?_, not_le.1 hL, hC⟩)
          simp only [buffer_append, binlog_write_to_file_buffer, List.nil_append]
      · rename_i hc
        simp only [SF_BINLOG_BUFFER_LENGTH, not_or, not_lt] at hc
        refine Or.inr (Or.inl ⟨?_, ?_⟩)
        · simp only [buffer_append, record_noted]
        · omega

/-- C19: when the used length of the buffer is at most its capacity before
`deal_binlog_one_record`, it is so afterwards, and the capacity is the same.
A record of length `L ≥ capacity / 4` is never copied (the buffer is empty
afterwards), a failed call leaves the buffer empty, and otherwise the buffer
is empty, or the old bytes followed by the record, which then fitted in the
free space, or the record alone after a flush, with `L < capacity / 4`. -/
theorem deal_binlog_one_record_buffer_bound (M : Int) (e : Env) (w : SFBinlogWriterInfo)
    (wb : SFBinlogWriterBuffer)
    (hu : w.binlog_buffer.data.length ≤ w.binlog_buffer.size) :
    (deal_binlog_one_record M e w wb).2.2.binlog_buffer.size = w.binlog_buffer.size ∧
      (deal_binlog_one_record M e w wb).2.2.binlog_buffer.data.length ≤ w.binlog_buffer.size ∧
      ((wb.bf.length : Int) ≥ (w.binlog_buffer.size : Int) / 4 →
        (deal_binlog_one_record M e w wb).2.2.binlog_buffer.data = []) ∧
      ((deal_binlog_one_record M e w wb).1 ≠ 0 →
        (deal_binlog_one_record M e w wb).2.2.binlog_buffer.data = []) ∧
      ((deal_binlog_one_record M e w wb).2.2.binlog_buffer.data = [] ∨
        ((deal_binlog_one_record M e w wb).2.2.binlog_buffer.data = w.binlog_buffer.data ++ wb.bf ∧
          w.binlog_buffer.data.length + wb.bf.length ≤ w.binlog_buffer.size) ∨
        ((deal_binlog_one_record M e w wb).2.2.binlog_buffer.data = wb.bf ∧
          (wb.bf.length : Int) < (w.binlog_buffer.size : Int) / 4 ∧
          wb.bf.length ≤ w.binlog_buffer.size)) :=
  deal_binlog_one_record_buffer_cases M e w wb hu

/-- C19 at a concrete input: capacity 64 with 60 bytes used and a record of
10 bytes; the buffer is flushed first and then holds the record alone, 10
bytes of 64. -/
theorem deal_binlog_one_record_buffer_bound_witness :
    (60 : Nat) ≤ 64 ∧
      (deal_binlog_one_record 1000 env_ok
          { writer_init 1 4 64 0 [] with
            binlog_buffer := { data := List.replicate 60 7, size := 64 } }
          (normal_record 1 (List.replicate 10 9))).2.2.binlog_buffer.data.length ≤ 64 :=
  ⟨by decide,
    (deal_binlog_one_record_buffer_bound 1000 env_ok
      { writer_init 1 4 64 0 [] with
        binlog_buffer := { data := List.replicate 60 7, size := 64 } }
      (normal_record 1 (List.replicate 10 9)) (by decide)).2.1⟩
/-! ## Round trip of the index file -/

theorem digitChar_digit (d : Nat) (h : d < 10) :
    (Nat.digitChar d).isDigit = true ∧ (Nat.digitChar d).toNat - 48 = d ∧
      Nat.digitChar d ≠ '\n' ∧ Nat.digitChar d ≠ '=' ∧ Nat.digitChar d ≠ '-' ∧
      Nat.digitChar d ≠ '+' := by
  interval_cases d <;> decide

/-- A text is a run of decimal digits. -/
theorem toDigitsCore_digits (fuel : Nat) :
    ∀ (n : Nat) (ds : List Char), n < fuel →
      (∀ c ∈ ds, c.isDigit = true) →
      (∀ c ∈ Nat.toDigitsCore 10 fuel n ds, c.isDigit = true) ∧
      (Nat.toDigitsCore 10 fuel n ds).foldl (fun a c => a * 10 + (c.toNat - 48)) 0 =
        ds.foldl (fun a c => a * 10 + (c.toNat - 48)) n ∧
      Nat.toDigitsCore 10 fuel n ds ≠ [] := by
  induction fuel with
  | zero => intro n ds h; omega
  | succ fuel ih =>
    intro n ds h hds
    have hd := digitChar_digit (n % 10) (Nat.mod_lt _ (by decide))
    unfold Nat.toDigitsCore
    simp only []
    by_cases h0 : n / 10 = 0
    · rw [if_pos h0]
      refine ⟨?_, ?_, by simp⟩
      · intro c hc
        rcases List.mem_cons.1 hc with rfl | hc
        · exact hd.1
        · exact hds c hc
      · rw [List.foldl_cons, hd.2.1]
        have : n % 10 = n := by omega
        rw [this]; simp
    · rw [if_neg h0]
      have hlt : n / 10 < fuel := by omega
      have hds2 : ∀ c ∈ Nat.digitChar (n % 10) :: ds, c.isDigit = true := by
        intro c hc
        rcases List.mem_cons.1 hc with rfl | hc
        · exact hd.1
        · exact hds c hc
      obtain ⟨a1, a2, a3⟩ := ih (n / 10) (Nat.digitChar (n % 10) :: ds) hlt hds2
      refine ⟨a1, ?_, a3⟩
      rw [a2, List.foldl_cons, hd.2.1]
      have : n / 10 * 10 + n % 10 = n := by omega
      rw [this]

theorem atoi_digits_eq_foldl (l : List Char) :
    ∀ acc : Nat, (∀ c ∈ l, c.isDigit = true) →
      atoi_digits acc l = l.foldl (fun a c => a * 10 + (c.toNat - 48)) acc := by
  induction l with
  | nil => intro acc _; rfl
  | cons c rest ih =>
    intro acc h
    unfold atoi_digits
    rw [if_pos (h c (List.mem_cons_self _ _)), List.foldl_cons]
    exact ih _ (fun x hx => h x (List.mem_cons_of_mem _ hx))

theorem nat_repr_facts (n : Nat) :
    (∀ c ∈ (toString n).data, c.isDigit = true) ∧ atoi_digits 0 (toString n).data = n ∧
      (toString n).data ≠ [] := by
  have h := toDigitsCore_digits (n + 1) n [] (by omega) (by simp)
  have hs : (toString n).data = Nat.toDigitsCore 10 (n + 1) n [] := rfl
  rw [hs]
  refine ⟨h.1, ?_, h.2.2⟩
  rw [atoi_digits_eq_foldl _ 0 h.1, h.2.1]
  rfl
theorem int_repr_facts (k : Int) :
    atoi (toString k).data = k ∧ (∀ c ∈ (toString k).data, c ≠ '\n' ∧ c ≠ '=') := by
  have hdig : ∀ c : Char, c.isDigit = true → c ≠ '\n' ∧ c ≠ '=' ∧ c ≠ '-' ∧ c ≠ '+' := by
    intro c hc
    refine ⟨?_, ?_, ?_, ?_⟩ <;> (rintro rfl; revert hc; decide)
  cases k with
  | ofNat m =>
    have hs : (toString (Int.ofNat m)).data = (toString m).data := rfl
    obtain ⟨a1, a2, a3⟩ := nat_repr_facts m
    rw [hs]
    refine ⟨?_, fun c hc => ⟨(hdig c (a1 c hc)).1, (hdig c (a1 c hc)).2.1⟩⟩
    cases hl : (toString m).data with
    | nil => exact absurd hl a3
    | cons d rest =>
      rw [hl] at a1 a2
      have hd := hdig d (a1 d (List.mem_cons_self _ _))
      unfold atoi
      split
      · rename_i heq
        simp only [List.cons.injEq] at heq
        exact absurd heq.1 hd.2.2.1
      · rename_i heq
        simp only [List.cons.injEq] at heq
        exact absurd heq.1 hd.2.2.2
      · rw [a2]; rfl
  | negSucc m =>
    have hs : (toString (Int.negSucc m)).data = '-' :: (toString (m + 1)).data := rfl
    obtain ⟨a1, a2, a3⟩ := nat_repr_facts (m + 1)
    rw [hs]
    refine ⟨?_, ?_⟩
    · show - ((atoi_digits 0 (toString (m + 1)).data : Nat) : Int) = Int.negSucc m
      rw [a2]; rfl
    · intro c hc
      rcases List.mem_cons.1 hc with rfl | hc
      · decide
      · exact ⟨(hdig c (a1 c hc)).1, (hdig c (a1 c hc)).2.1⟩

theorem ini_lines_append (a rest : List Char) (h : ∀ c ∈ a, c ≠ '\n') :
    ini_lines (a ++ '\n' :: rest) = a :: ini_lines rest := by
  induction a with
  | nil => simp [ini_lines]
  | cons c a ih =>
    have hc : c ≠ '\n' := h c (List.mem_cons_self _ _)
    rw [List.cons_append, ini_lines, if_neg hc, ih (fun x hx => h x (List.mem_cons_of_mem _ hx))]

theorem ini_item_append (name value : List Char) (h : ∀ c ∈ name, c ≠ '=') :
    ini_item (name ++ '=' :: value) = (name, some value) := by
  induction name with
  | nil => simp [ini_item]
  | cons c a ih =>
    have hc : c ≠ '=' := h c (List.mem_cons_self _ _)
    rw [List.cons_append, ini_item, if_neg hc, ih (fun x hx => h x (List.mem_cons_of_mem _ hx))]

theorem key_chars :
    (∀ x ∈ "current_write".data, x ≠ '\n') ∧ (∀ x ∈ "current_compress".data, x ≠ '\n') ∧
      (∀ x ∈ "current_write".data, x ≠ '=') ∧ (∀ x ∈ "current_compress".data, x ≠ '=') ∧
      "current_write".data ≠ "current_compress".data := by
  decide

theorem iniLoadFromFile_index_text (k c : Int) :
    iniLoadFromFile (binlog_index_text k c) =
      [("current_write".data, (toString k).data),
        ("current_compress".data, (toString c).data)] := by
  have hk := (int_repr_facts k).2
  have hc := (int_repr_facts c).2
  have htext : (binlog_index_text k c).data =
      ("current_write".data ++ '=' :: (toString k).data) ++ '\n' ::
        (("current_compress".data ++ '=' :: (toString c).data) ++ '\n' :: []) := by
    simp [binlog_index_text, String.data_append]
  have hl1 : ∀ x ∈ "current_write".data ++ '=' :: (toString k).data, x ≠ '\n' := by
    intro x hx
    rcases List.mem_append.1 hx with h | h
    · exact key_chars.1 x h
    · rcases List.mem_cons.1 h with rfl | h
      · decide
      · exact (hk x h).1
  have hl2 : ∀ x ∈ "current_compress".data ++ '=' :: (toString c).data, x ≠ '\n' := by
    intro x hx
    rcases List.mem_append.1 hx with h | h
    · exact key_chars.2.1 x h
    · rcases List.mem_cons.1 h with rfl | h
      · decide
      · exact (hc x h).1
  unfold iniLoadFromFile
  rw [htext, ini_lines_append _ _ hl1, ini_lines_append _ _ hl2]
  rw [show ini_lines [] = [[]] from rfl]
  simp only [List.filterMap_cons, List.filterMap_nil]
  rw [ini_item_append _ _ key_chars.2.2.1, ini_item_append _ _ key_chars.2.2.2.1]
  rfl

theorem to_int32_id (v : Int) (h : -2 ^ 31 ≤ v ∧ v < 2 ^ 31) : to_int32 v = v := by
  unfold to_int32
  omega

theorem get_binlog_index_from_file_index_text (e : Env) (w : SFBinlogWriterInfo) (k c : Int)
    (hk : -2 ^ 31 ≤ k ∧ k < 2 ^ 31) (hc : -2 ^ 31 ≤ c ∧ c < 2 ^ 31)
    (hfile : w.dir.index_file = some (binlog_index_text k c))
    (hload : (sys_call e).1 = 0) :
    (get_binlog_index_from_file e w).1 = 0 ∧
      (get_binlog_index_from_file e w).2.2.binlog = { index := k, compress_index := c } ∧
      (get_binlog_index_from_file e w).2.2.dir = w.dir := by
  have hitems := iniLoadFromFile_index_text k c
  unfold get_binlog_index_from_file
  rw [hfile]
  simp only [hload, ne_eq, not_true_eq_false, if_false, hitems]
  have h1 : iniGetIntValue "current_write"
      [("current_write".data, (toString k).data),
        ("current_compress".data, (toString c).data)] 0 = k := by
    unfold iniGetIntValue
    rw [List.find?_cons_of_pos _ (by simp)]
    simp only []
    rw [(int_repr_facts k).1, to_int32_id k hk]
  have h2 : iniGetIntValue "current_compress"
      [("current_write".data, (toString k).data),
        ("current_compress".data, (toString c).data)] 0 = c := by
    unfold iniGetIntValue
    rw [List.find?_cons_of_neg _ (by simp),
      List.find?_cons_of_pos _ (by simp)]
    simp only []
    rw [(int_repr_facts c).1, to_int32_id c hc]
  rw [h1, h2]
  simp

/-- C12: for C ints `k` and `c`, a successful `write_to_binlog_index_file`
of a writer holding `(k, c)` leaves the text
`current_write=<k>\ncurrent_compress=<c>\n` in the index file, and
`get_binlog_index_from_file`, run by any writer on that directory with a
successful `iniLoadFromFile`, returns 0 and sets `binlog.index = k` and
`binlog.compress_index = c`. -/
theorem index_file_round_trip (e e2 : Env) (w w2 : SFBinlogWriterInfo)
    (hk : -2 ^ 31 ≤ w.binlog.index ∧ w.binlog.index < 2 ^ 31)
    (hc : -2 ^ 31 ≤ w.binlog.compress_index ∧ w.binlog.compress_index < 2 ^ 31)
    (hstore : (write_to_binlog_index_file e w).1 = 0)
    (hdir : w2.dir = (write_to_binlog_index_file e w).2.2.dir)
    (hload : (sys_call e2).1 = 0) :
    (write_to_binlog_index_file e w).2.2.dir.index_file =
        some ("current_write=" ++ toString w.binlog.index ++ "\n" ++
          "current_compress=" ++ toString w.binlog.compress_index ++ "\n") ∧
      (get_binlog_index_from_file e2 w2).1 = 0 ∧
      (get_binlog_index_from_file e2 w2).2.2.binlog.index = w.binlog.index ∧
      (get_binlog_index_from_file e2 w2).2.2.binlog.compress_index =
        w.binlog.compress_index := by
  have hfile := (write_to_binlog_index_file_ok e w hstore).2
  have h := get_binlog_index_from_file_index_text e2 w2 w.binlog.index
    w.binlog.compress_index hk hc (by rw [hdir, hfile]) hload
  refine ⟨hfile, h.1, ?_, ?_⟩
  · rw [h.2.1]
  · rw [h.2.1]

/-- C12 for `(k, c) = (-12, 3)`: the stored text is
`current_write=-12\ncurrent_compress=3\n`, and a writer that holds `(5, 7)`
reads `(-12, 3)` back from it. -/
theorem index_file_round_trip_witness :
    (write_to_binlog_index_file env_ok
        { writer_without_index_file with
          binlog := { index := -12, compress_index := 3 } }).2.2.dir.index_file =
        some "current_write=-12\ncurrent_compress=3\n" ∧
      (get_binlog_index_from_file env_ok
        { writer_without_index_file with
          dir := (write_to_binlog_index_file env_ok
            { writer_without_index_file with
              binlog := { index := -12, compress_index := 3 } }).2.2.dir }).2.2.binlog =
        { index := -12, compress_index := 3 } := by
  have h := index_file_round_trip env_ok env_ok
    { writer_without_index_file with binlog := { index := -12, compress_index := 3 } }
    { writer_without_index_file with
      dir := (write_to_binlog_index_file env_ok
        { writer_without_index_file with
          binlog := { index := -12, compress_index := 3 } }).2.2.dir }
    (by decide) (by decide) (by rfl) (by rfl) (by rfl)
  exact ⟨h.1, by decide⟩
/-! ## Missing index file -/

theorem get_binlog_index_from_file_missing (e : Env) (w : SFBinlogWriterInfo)
    (hfile : w.dir.index_file = none) :
    get_binlog_index_from_file e w =
        write_to_binlog_index_file e { w with binlog := { w.binlog with index := 0 } } ∧
      (get_binlog_index_from_file e w).2.2.binlog =
        { index := 0, compress_index := w.binlog.compress_index } ∧
      ((get_binlog_index_from_file e w).1 = 0 →
        (get_binlog_index_from_file e w).2.2.dir.index_file =
          some (binlog_index_text 0 w.binlog.compress_index)) := by
  have h0 : get_binlog_index_from_file e w =
      write_to_binlog_index_file e { w with binlog := { w.binlog with index := 0 } } := by
    unfold get_binlog_index_from_file
    rw [hfile]
  rw [h0]
  refine ⟨rfl, ?_, ?_⟩
  · rw [(write_to_binlog_index_file_binlog e _).1]
  · intro hok
    exact (write_to_binlog_index_file_ok e _ hok).2

/-- C11 at a writer that holds `(current_write, current_compress) = (5, 7)`
and has no index file: `get_binlog_index_from_file` returns 0, sets
`binlog.index` to 0 and leaves `binlog.compress_index` at 7, and the file it
stores reads `current_write=0`, `current_compress=7`. -/
theorem missing_index_file_keeps_compress_index :
    writer_without_index_file.dir.index_file = none ∧
      (get_binlog_index_from_file env_ok writer_without_index_file).1 = 0 ∧
      (get_binlog_index_from_file env_ok writer_without_index_file).2.2.binlog =
        { index := 0, compress_index := 7 } ∧
      (get_binlog_index_from_file env_ok writer_without_index_file).2.2.dir.index_file =
        some "current_write=0\ncurrent_compress=7\n" := by
  decide
/-! ## Receive timeout -/

/-- C17: `receipt_recv_timeout_callback` returns `ETIMEDOUT` exactly when the
task is in the `CONNECT` stage or `waiting_resp_qinfo` holds a receipt, returns
0 in every other case, and leaves the task, the channel and everything else
as they were. -/
theorem receipt_recv_timeout_callback_result (s : ReceiptState) :
    ((receipt_recv_timeout_callback s).1 = ETIMEDOUT ↔
        (s.task.stage = NioStage.CONNECT ∨ s.channel.waiting_resp_qinfo.chain ≠ [])) ∧
      (¬ (s.task.stage = NioStage.CONNECT ∨ s.channel.waiting_resp_qinfo.chain ≠ []) →
        (receipt_recv_timeout_callback s).1 = 0) ∧
      (receipt_recv_timeout_callback s).2 = s := by
  unfold receipt_recv_timeout_callback
  by_cases h1 : s.task.stage = NioStage.CONNECT
  · simp [h1]
  · by_cases h2 : s.channel.waiting_resp_qinfo.chain = []
    · simp [h1, h2, ETIMEDOUT]
    · simp [h1, h2]
/-! ## Responses that are refused -/

theorem deal_response_invalid (P : ProtoConsts) (s : ReceiptState)
    (hcodes : P.FS_SERVICE_PROTO_SETUP_CHANNEL_RESP ≠ P.FS_SERVICE_PROTO_REPORT_REQ_RECEIPT_RESP)
    (hstatus : buff2short s.task.header.status = 0)
    (hbad :
      (s.task.header.cmd ≠ P.FS_SERVICE_PROTO_SETUP_CHANNEL_RESP ∧
        s.task.header.cmd ≠ P.FS_SERVICE_PROTO_REPORT_REQ_RECEIPT_RESP) ∨
      (s.task.header.cmd = P.FS_SERVICE_PROTO_SETUP_CHANNEL_RESP ∧
        response_body_length P s.task ≠ SETUP_CHANNEL_BODY_SIZE) ∨
      (s.task.header.cmd = P.FS_SERVICE_PROTO_REPORT_REQ_RECEIPT_RESP ∧
        response_body_length P s.task ≠ 0)) :
    deal_response P s = some (EINVAL, s) := by
  have hcmd : deal_response_cmd P s = (EINVAL, s) := by
    unfold deal_response_cmd
    rcases hbad with ⟨h1, h2⟩ | ⟨h1, h2⟩ | ⟨h1, h2⟩
    · rw [if_neg h1, if_neg h2]
    · rw [if_pos h1]
      unfold deal_setup_channel_response receipt_expect_body_length
      rw [if_pos h2, if_pos (by decide)]
    · have hne : s.task.header.cmd ≠ P.FS_SERVICE_PROTO_SETUP_CHANNEL_RESP := by
        rw [h1]; exact fun h => hcodes h.symm
      rw [if_neg hne, if_pos h1]
      unfold deal_report_req_receipt_response receipt_expect_body_length
      rw [if_pos h2, if_pos (by decide)]
  unfold deal_response
  rw [if_neg (not_not.2 hstatus), hcmd,
    if_neg (show ¬ (EINVAL, s).1 = 0 from (by decide : ¬ EINVAL = 0))]

/-- C16: on a response (a stage other than `HANDSHAKE` and `CONTINUE`) with
status 0, `receipt_deal_task` fails with `EINVAL`, which it returns negated as
it does every positive error, when the command is neither
`SETUP_CHANNEL_RESP` nor `REPORT_REQ_RECEIPT_RESP`, or when the body length is
not the size of the setup response body for the former, not 0 for the latter.
The state after the call is the state before it: id, key, established flag,
producer queue, `waiting_resp_qinfo`, `last_pkg_time`, the LRU list, the task
and the history of reported receipts are unchanged. -/
theorem receipt_deal_task_invalid_response (P : ProtoConsts) (s : ReceiptState)
    (hcodes : P.FS_SERVICE_PROTO_SETUP_CHANNEL_RESP ≠ P.FS_SERVICE_PROTO_REPORT_REQ_RECEIPT_RESP)
    (hstage : s.task.stage ≠ NioStage.HANDSHAKE ∧ s.task.stage ≠ NioStage.CONTINUE)
    (hstatus : buff2short s.task.header.status = 0)
    (hbad :
      (s.task.header.cmd ≠ P.FS_SERVICE_PROTO_SETUP_CHANNEL_RESP ∧
        s.task.header.cmd ≠ P.FS_SERVICE_PROTO_REPORT_REQ_RECEIPT_RESP) ∨
      (s.task.header.cmd = P.FS_SERVICE_PROTO_SETUP_CHANNEL_RESP ∧
        response_body_length P s.task ≠ SETUP_CHANNEL_BODY_SIZE) ∨
      (s.task.header.cmd = P.FS_SERVICE_PROTO_REPORT_REQ_RECEIPT_RESP ∧
        response_body_length P s.task ≠ 0)) :
    receipt_deal_task P s = some (-EINVAL, s) := by
  unfold receipt_deal_task deal_task_stage
  rw [if_neg hstage.1, if_neg hstage.2, deal_response_invalid P s hcodes hstatus hbad]
  rfl

/-- C16 on a response of 3 bytes with the unknown command 99, on a channel
that waits for the answer to receipts 1 and 2. -/
theorem receipt_deal_task_invalid_response_witness :
    receipt_deal_task proto_example
        (task_input (receipt_state 64 (receipts [3]) (receipts [1, 2]))
          (response_input proto_example 10 99 [0, 0] [1, 2, 3])) =
      some (-EINVAL, task_input (receipt_state 64 (receipts [3]) (receipts [1, 2]))
          (response_input proto_example 10 99 [0, 0] [1, 2, 3])) :=
  receipt_deal_task_invalid_response proto_example
    (task_input (receipt_state 64 (receipts [3]) (receipts [1, 2]))
      (response_input proto_example 10 99 [0, 0] [1, 2, 3]))
    (by decide) (by decide) (by decide) (Or.inl (by decide))
/-! ## The LRU list of a thread -/

theorem lru_walk_self_loop (nodes : List FcListHead) (head pos : Nat) (hne : pos ≠ head)
    (hloop : (node_get nodes pos).next = pos) (fuel : Nat) :
    lru_walk nodes head fuel pos = none := by
  induction fuel with
  | zero => rfl
  | succ fuel ih =>
    unfold lru_walk
    rw [if_neg hne, hloop, ih]
    rfl

/-- C18 on a channel that is not established and off the LRU list: a
`REPORT_REQ_RECEIPT_RESP` at time 10 and a `SETUP_CHANNEL_RESP` at time 20,
both with status 0 and the expected body length, are both handled with result
0.  The first one puts the channel on the list (`update_lru_chain`), the
second one adds it again (`fc_list_add_tail`): afterwards `head->next` is the
channel and the channel's `next` is the channel itself, so the walk of
`receipt_thread_loop_callback` from the head never comes back to the head. -/
theorem lru_list_broken_by_early_receipt_response :
    ∃ s1 s2 : ReceiptState,
      receipt_deal_task proto_example
          (task_input (receipt_state 64 [] [])
            (response_input proto_example 10 56 [0, 0] [])) = some (0, s1) ∧
        s1.channel.established = 0 ∧
        s1.nodes = [{ next := 1, prev := 1 }, { next := 0, prev := 0 }] ∧
        receipt_deal_task proto_example
          (task_input s1
            (response_input proto_example 20 52 [0, 0] [0, 0, 0, 7, 0, 0, 0, 9])) =
          some (0, s2) ∧
        s2.channel.established = 1 ∧ s2.channel.last_pkg_time = 20 ∧
        s2.nodes = [{ next := 1, prev := 1 }, { next := 1, prev := 1 }] ∧
        ∀ fuel : Nat, receipt_thread_loop_callback fuel s2 = none := by
  refine ⟨_, _, rfl, by decide, by decide, rfl, by decide, by decide, by decide, ?_⟩
  intro fuel
  unfold receipt_thread_loop_callback
  rw [show (node_get _ thread_ctx_head).next = 1 from by decide]
  rw [lru_walk_self_loop _ thread_ctx_head 1 (by decide) (by decide) fuel]
  rfl
/-! ## Building a receipt request -/

theorem long2buff_length (n : Int) : (long2buff n).length = 8 := rfl

theorem int2buff_length (n : Int) : (int2buff n).length = 4 := rfl

theorem buf_write_at_end (a b bytes : List Nat) (off : Nat) (h : a.length = off) :
    buf_write (a ++ b) off bytes = a ++ bytes ++ b.drop bytes.length := by
  subst h
  unfold buf_write
  rw [List.take_left, List.drop_append]

theorem report_loop_spec (P : ProtoConsts) (size : Int) (c : Nat)
    (hlow : ((P.header_size + P.receipt_header_size + 8 * c : Nat) : Int) ≤ size)
    (hhigh : size < ((P.header_size + P.receipt_header_size + 8 * (c + 1) : Nat) : Int))
    (hsize : size < 2 ^ 63) (chain : List IdempotencyClientReceipt) :
    ∀ (n : Nat) (last : Option IdempotencyClientReceipt) (a b : List Nat),
      n ≤ c → a.length = P.receipt_header_size + 8 * n →
      8 * min chain.length (c - n) ≤ b.length →
      report_loop P size (a ++ b) n last chain =
        (a ++ receipt_cells (chain.take (min chain.length (c - n))) ++
            b.drop (8 * min chain.length (c - n)),
          n + min chain.length (c - n),
          (chain.take (min chain.length (c - n))).getLast?.or last,
          chain.drop (min chain.length (c - n))) := by
  induction chain with
  | nil =>
    intro n last a b _ _ _
    simp [report_loop, receipt_cells]
  | cons r rest ih =>
    intro n last a b hn ha hb
    unfold report_loop
    by_cases hc : n = c
    · subst hc
      have hlt : (size - ((P.header_size + P.receipt_header_size + RECEIPT_BODY_SIZE * n : Nat)
          : Int)) % 2 ^ 64 < (RECEIPT_BODY_SIZE : Int) := by
        simp only [RECEIPT_BODY_SIZE]
        push_cast at hlow hhigh ⊢
        omega
      rw [if_pos hlt]
      simp [receipt_cells]
    · have hge : ¬ (size - ((P.header_size + P.receipt_header_size + RECEIPT_BODY_SIZE * n : Nat)
          : Int)) % 2 ^ 64 < (RECEIPT_BODY_SIZE : Int) := by
        simp only [RECEIPT_BODY_SIZE]
        push_cast at hlow hhigh ⊢
        omega
      rw [if_neg hge]
      have hk : min (r :: rest).length (c - n) = min rest.length (c - (n + 1)) + 1 := by
        simp only [List.length_cons]
        omega
      rw [hk] at hb ⊢
      have hw : buf_write (a ++ b) (P.receipt_header_size + RECEIPT_BODY_SIZE * n)
          (long2buff r.req_id) = (a ++ long2buff r.req_id) ++ b.drop 8 := by
        rw [buf_write_at_end a b _ _ (by simp only [RECEIPT_BODY_SIZE]; exact ha),
          long2buff_length]
      rw [hw, ih (n + 1) (some r) (a ++ long2buff r.req_id) (b.drop 8) (by omega)
        (by rw [List.length_append, long2buff_length, ha]; omega)
        (by rw [List.length_drop]; omega)]
      simp only [receipt_cells, List.take_succ_cons, List.map_cons, List.flatten_cons, List.drop_succ_cons,
        List.append_assoc, List.drop_drop, Prod.mk.injEq]
      refine ⟨?_, by omega, ?_, trivial⟩
      · rw [show 8 + 8 * min rest.length (c - (n + 1)) =
          8 * (min rest.length (c - (n + 1)) + 1) from by omega]
      · cases hrest : (List.take (min rest.length (c - (n + 1))) rest).getLast? with
        | none =>
          have : List.take (min rest.length (c - (n + 1))) rest = [] := by
            simpa using hrest
          simp [this]
        | some x =>
          rw [List.getLast?_cons]
          simp [hrest]

theorem report_loop_body_free (P : ProtoConsts) (size : Int)
    (chain : List IdempotencyClientReceipt) :
    ∀ (n : Nat) (last : Option IdempotencyClientReceipt) (body1 body2 : List Nat),
      (report_loop P size body1 n last chain).2 = (report_loop P size body2 n last chain).2 := by
  induction chain with
  | nil => intro n last body1 body2; rfl
  | cons r rest ih =>
    intro n last body1 body2
    unfold report_loop
    split
    · rfl
    · exact ih _ _ _ _

theorem report_loop_walk (P : ProtoConsts) (task : FastTaskInfo) (c : Nat)
    (hroom : room_for P task c) (chain : List IdempotencyClientReceipt) (body : List Nat) :
    (report_loop P task.size body 0 none chain).2 =
      (min chain.length c, (chain.take (min chain.length c)).getLast?,
        chain.drop (min chain.length c)) := by
  obtain ⟨hlow, hhigh, hsize⟩ := hroom
  have h := report_loop_spec P task.size c hlow hhigh hsize chain 0 none
    (List.replicate P.receipt_header_size 0) (List.replicate (8 * min chain.length c) 0)
    (Nat.zero_le _) (by simp) (by simp)
  rw [report_loop_body_free P task.size chain 0 none body
    (List.replicate P.receipt_header_size 0 ++ List.replicate (8 * min chain.length c) 0), h]
  simp

theorem report_loop_body (P : ProtoConsts) (task : FastTaskInfo) (c : Nat)
    (hroom : room_for P task c) (chain : List IdempotencyClientReceipt) (body : List Nat)
    (hbody : P.receipt_header_size + 8 * min chain.length c ≤ body.length) :
    (report_loop P task.size body 0 none chain).1 =
      body.take P.receipt_header_size ++ receipt_cells (chain.take (min chain.length c)) ++
        body.drop (P.receipt_header_size + 8 * min chain.length c) := by
  obtain ⟨hlow, hhigh, hsize⟩ := hroom
  have h := report_loop_spec P task.size c hlow hhigh hsize chain 0 none
    (body.take P.receipt_header_size) (body.drop P.receipt_header_size)
    (Nat.zero_le _) (by rw [List.length_take]; omega) (by rw [List.length_drop]; omega)
  rw [List.take_append_drop] at h
  rw [h]
  simp [List.drop_drop, Nat.add_comm]
theorem nio_call_eq (s : ReceiptState) :
    nio_call s = (s.nio_results.headD 0, { s with nio_results := s.nio_results.tail }) := by
  unfold nio_call
  cases h : s.nio_results with
  | nil =>
    simp only [List.headD_nil, List.tail_nil]
    rw [← h]
  | cons r rest => rfl

theorem check_report_req_receipt_build (P : ProtoConsts) (s : ReceiptState) (c : Nat)
    (hlen : ¬ s.task.length > 0) (hwait : s.channel.waiting_resp_qinfo.chain = [])
    (hq : s.channel.queue.chain ≠ []) (hc : 1 ≤ c) (hroom : room_for P s.task c) :
    check_report_req_receipt P s =
      some (s.nio_results.headD 0, ((min s.channel.queue.chain.length c : Nat) : Int),
        { s with
          task := { s.task with
            body := buf_write
              (report_loop P s.task.size s.task.body 0 none s.channel.queue.chain).1 0
              (int2buff (min s.channel.queue.chain.length c : Nat))
            length := ((P.header_size + P.receipt_header_size +
              8 * min s.channel.queue.chain.length c : Nat) : Int)
            header := { s.task.header with
              body_len := int2buff (((P.header_size + P.receipt_header_size +
                8 * min s.channel.queue.chain.length c : Nat) : Int) - P.header_size)
              cmd := P.FS_SERVICE_PROTO_REPORT_REQ_RECEIPT_REQ } }
          channel := { s.channel with
            queue :=
              if c < s.channel.queue.chain.length then
                { chain := s.channel.queue.chain.drop c, tail := s.channel.queue.tail }
              else { chain := [], tail := none }
            waiting_resp_qinfo :=
              if c < s.channel.queue.chain.length then
                { chain := s.channel.queue.chain.take c
                  tail := (s.channel.queue.chain.take c).getLast? }
              else { chain := s.channel.queue.chain, tail := s.channel.queue.tail } }
          reported := s.reported ++
            [s.channel.queue.chain.take (min s.channel.queue.chain.length c)]
          nio_results := s.nio_results.tail }) := by
  have hw := report_loop_walk P s.task c hroom s.channel.queue.chain s.task.body
  have hn : 0 < s.channel.queue.chain.length := List.length_pos.2 hq
  unfold check_report_req_receipt
  rw [if_neg hlen, if_neg (not_not.2 hwait)]
  have hpop : fc_queue_pop_to_queue s.channel.queue =
      ({ chain := [], tail := none },
        { chain := s.channel.queue.chain, tail := s.channel.queue.tail }) := by
    unfold fc_queue_pop_to_queue
    rw [if_pos hq]
  simp only [hpop]
  rw [if_neg hq]
  simp only [hw, sf_send_add_event, nio_call_eq]
  by_cases hsplit : c < s.channel.queue.chain.length
  · have hmin : min s.channel.queue.chain.length c = c := by omega
    have hdrop : List.drop c s.channel.queue.chain ≠ [] := by
      intro h
      have := congrArg List.length h
      simp at this
      omega
    have hlast : ∃ l, (List.take c s.channel.queue.chain).getLast? = some l := by
      cases h : (List.take c s.channel.queue.chain).getLast? with
      | none =>
        have h0 := congrArg List.length (List.getLast?_eq_none_iff.1 h)
        rw [List.length_take, List.length_nil] at h0
        omega
      | some l => exact ⟨l, rfl⟩
    obtain ⟨l, hl⟩ := hlast
    simp only [hmin, hsplit, if_true, hdrop, ne_eq, not_false_eq_true, hl,
      fc_queue_push_queue_to_head_ex, if_false, List.append_nil, RECEIPT_BODY_SIZE]
  · have hmin : min s.channel.queue.chain.length c = s.channel.queue.chain.length := by omega
    simp only [hmin, hsplit, if_false, List.drop_length, ne_eq, not_true_eq_false,
      List.take_length, RECEIPT_BODY_SIZE]

theorem check_report_req_receipt_frame (P : ProtoConsts) (s : ReceiptState) (c : Nat)
    (hlen : s.task.length = 0) (hwait : s.channel.waiting_resp_qinfo.chain = [])
    (hq : s.channel.queue.chain ≠ [])
    (htail : s.channel.queue.tail = s.channel.queue.chain.getLast?)
    (hc : 1 ≤ c) (hroom : room_for P s.task c) (hrs : 4 ≤ P.receipt_header_size)
    (hbody : ((P.header_size + s.task.body.length : Nat) : Int) = s.task.size) :
    ∃ (result : Int) (s1 : ReceiptState),
      check_report_req_receipt P s =
          some (result, ((min s.channel.queue.chain.length c : Nat) : Int), s1) ∧
        s1.channel.waiting_resp_qinfo =
          chain_queue (s.channel.queue.chain.take (min s.channel.queue.chain.length c)) ∧
        s1.channel.queue =
          chain_queue (s.channel.queue.chain.drop (min s.channel.queue.chain.length c)) ∧
        s1.channel.waiting_resp_qinfo.chain ++ s1.channel.queue.chain = s.channel.queue.chain ∧
        s1.task.header.cmd = P.FS_SERVICE_PROTO_REPORT_REQ_RECEIPT_REQ ∧
        s1.task.header.body_len =
          int2buff ((P.receipt_header_size + 8 * min s.channel.queue.chain.length c : Nat) : Int) ∧
        s1.task.length =
          ((P.header_size + P.receipt_header_size +
            8 * min s.channel.queue.chain.length c : Nat) : Int) ∧
        s1.task.body =
          int2buff ((min s.channel.queue.chain.length c : Nat) : Int) ++
            (s.task.body.take P.receipt_header_size).drop 4 ++
            receipt_cells (s.channel.queue.chain.take (min s.channel.queue.chain.length c)) ++
            s.task.body.drop
              (P.receipt_header_size + 8 * min s.channel.queue.chain.length c) ∧
        s1.reported = s.reported ++
          [s.channel.queue.chain.take (min s.channel.queue.chain.length c)] := by
  have hb := check_report_req_receipt_build P s c (by omega) hwait hq hc hroom
  have hk : P.receipt_header_size + 8 * min s.channel.queue.chain.length c ≤
      s.task.body.length := by
    obtain ⟨hlow, -, -⟩ := hroom
    push_cast at hlow hbody
    omega
  refine ⟨_, _, hb, ?_, ?_, ?_, rfl, ?_, rfl, ?_, rfl⟩
  · by_cases hsplit : c < s.channel.queue.chain.length
    · have hmin : min s.channel.queue.chain.length c = c := by omega
      simp only [hsplit, if_true, hmin, chain_queue]
    · have hmin : min s.channel.queue.chain.length c = s.channel.queue.chain.length := by omega
      simp only [hsplit, if_false, hmin, chain_queue, List.take_length, htail]
  · by_cases hsplit : c < s.channel.queue.chain.length
    · have hmin : min s.channel.queue.chain.length c = c := by omega
      have hdrop : List.drop c s.channel.queue.chain ≠ [] := by
        intro h
        have h0 := congrArg List.length h
        rw [List.length_drop, List.length_nil] at h0
        omega
      simp only [hsplit, if_true, hmin, chain_queue, FcQueueInfo.mk.injEq, true_and]
      rw [htail, List.getLast?_drop, if_neg (by omega)]
    · have hmin : min s.channel.queue.chain.length c = s.channel.queue.chain.length := by omega
      simp only [hsplit, if_false, hmin, chain_queue, List.drop_length, List.getLast?_nil]
  · by_cases hsplit : c < s.channel.queue.chain.length
    · simp only [hsplit, if_true, List.take_append_drop]
    · simp only [hsplit, if_false, List.append_nil]
  · show int2buff (((P.header_size + P.receipt_header_size +
        8 * min s.channel.queue.chain.length c : Nat) : Int) - P.header_size) = _
    congr 1
    push_cast
    omega
  · show buf_write _ 0 _ = _
    rw [report_loop_body P s.task c hroom s.channel.queue.chain s.task.body hk]
    unfold buf_write
    simp only [List.take_zero, List.nil_append, Nat.zero_add, int2buff_length,
      List.append_assoc]
    rw [List.drop_append_of_le_length (by rw [List.length_take]; omega)]

/-- C13: with `task->length == 0`, an empty `waiting_resp_qinfo`, a producer
queue `r1 .. rn` (`n ≥ 1`, `tail` on `rn`) and a buffer of `task->size` bytes
with room for exactly `c ≥ 1` cells behind the two headers,
`check_report_req_receipt` reports `count = min n c`, leaves
`waiting_resp_qinfo = r1 .. r_count` with `tail` on `r_count` and the producer
queue `r_count+1 .. rn`, and builds the frame with command
`REPORT_REQ_RECEIPT_REQ`, body length `receipt header size + 8 * count`, the
count in the first 4 bytes of the receipt header and the `req_id`s of
`r1 .. r_count` as 8-byte cells behind it, most significant byte first. -/
theorem check_report_req_receipt_batch (P : ProtoConsts) (s : ReceiptState) (c : Nat)
    (hlen : s.task.length = 0) (hwait : s.channel.waiting_resp_qinfo.chain = [])
    (hq : s.channel.queue.chain ≠ [])
    (htail : s.channel.queue.tail = s.channel.queue.chain.getLast?)
    (hc : 1 ≤ c) (hroom : room_for P s.task c) (hrs : 4 ≤ P.receipt_header_size)
    (hbody : ((P.header_size + s.task.body.length : Nat) : Int) = s.task.size) :
    ∃ (result : Int) (s1 : ReceiptState),
      check_report_req_receipt P s =
          some (result, ((min s.channel.queue.chain.length c : Nat) : Int), s1) ∧
        s1.channel.waiting_resp_qinfo =
          chain_queue (s.channel.queue.chain.take (min s.channel.queue.chain.length c)) ∧
        s1.channel.queue =
          chain_queue (s.channel.queue.chain.drop (min s.channel.queue.chain.length c)) ∧
        s1.channel.waiting_resp_qinfo.chain ++ s1.channel.queue.chain = s.channel.queue.chain ∧
        s1.task.header.cmd = P.FS_SERVICE_PROTO_REPORT_REQ_RECEIPT_REQ ∧
        s1.task.header.body_len =
          int2buff ((P.receipt_header_size + 8 * min s.channel.queue.chain.length c : Nat) : Int) ∧
        s1.task.length =
          ((P.header_size + P.receipt_header_size +
            8 * min s.channel.queue.chain.length c : Nat) : Int) ∧
        s1.task.body =
          int2buff ((min s.channel.queue.chain.length c : Nat) : Int) ++
            (s.task.body.take P.receipt_header_size).drop 4 ++
            receipt_cells (s.channel.queue.chain.take (min s.channel.queue.chain.length c)) ++
            s.task.body.drop
              (P.receipt_header_size + 8 * min s.channel.queue.chain.length c) ∧
        s1.reported = s.reported ++
          [s.channel.queue.chain.take (min s.channel.queue.chain.length c)] :=
  check_report_req_receipt_frame P s c hlen hwait hq htail hc hroom hrs hbody

/-- C13 for the receipts 1, 2, 3 and a buffer with room for 7 cells: one
request with count 3 and the three cells, nothing left in the producer
queue. -/
theorem check_report_req_receipt_batch_witness :
    ∃ (result : Int) (s1 : ReceiptState),
      check_report_req_receipt proto_example (receipt_state 64 (receipts [1, 2, 3]) []) =
          some (result, 3, s1) ∧
        s1.channel.waiting_resp_qinfo = chain_queue (receipts [1, 2, 3]) ∧
        s1.channel.queue = chain_queue [] ∧
        s1.task.header.cmd = 55 ∧
        s1.task.header.body_len = [0, 0, 0, 32] ∧
        s1.task.body.take 32 =
          int2buff 3 ++ List.replicate 4 0 ++ long2buff 1 ++ long2buff 2 ++ long2buff 3 := by
  obtain ⟨result, s1, h1, h2, h3, -, h5, h6, -, h8, -⟩ :=
    check_report_req_receipt_batch proto_example (receipt_state 64 (receipts [1, 2, 3]) []) 7
      rfl rfl (by decide) rfl (by decide) ⟨by decide, by decide, by decide⟩ (by decide) rfl
  refine ⟨result, s1, h1, h2, h3, h5, h6, ?_⟩
  rw [h8]
  rfl
/-! ## Setup response and retransmission -/

theorem check_report_req_receipt_chains (P : ProtoConsts) (s : ReceiptState) (c : Nat)
    (hlen : ¬ s.task.length > 0) (hwait : s.channel.waiting_resp_qinfo.chain = [])
    (hq : s.channel.queue.chain ≠ []) (hc : 1 ≤ c) (hroom : room_for P s.task c) :
    ∃ (s1 : ReceiptState),
      check_report_req_receipt P s =
          some (s.nio_results.headD 0, ((min s.channel.queue.chain.length c : Nat) : Int), s1) ∧
        1 ≤ min s.channel.queue.chain.length c ∧
        s1.channel.waiting_resp_qinfo.chain =
          s.channel.queue.chain.take (min s.channel.queue.chain.length c) ∧
        s1.channel.queue.chain =
          s.channel.queue.chain.drop (min s.channel.queue.chain.length c) ∧
        s1.reported = s.reported ++
          [s.channel.queue.chain.take (min s.channel.queue.chain.length c)] ∧
        s1.channel.id = s.channel.id ∧ s1.channel.key = s.channel.key ∧
        s1.channel.established = s.channel.established ∧
        s1.channel.in_ioevent = s.channel.in_ioevent ∧
        s1.channel.last_pkg_time = s.channel.last_pkg_time ∧
        s1.channel.dlink = s.channel.dlink ∧
        s1.channel.receipt_allocator = s.channel.receipt_allocator ∧
        s1.nodes = s.nodes ∧ s1.g_current_time = s.g_current_time ∧
        s1.task.size = s.task.size ∧
        s1.task.header.cmd = P.FS_SERVICE_PROTO_REPORT_REQ_RECEIPT_REQ ∧
        (4 ≤ P.receipt_header_size →
          ((P.header_size + s.task.body.length : Nat) : Int) = s.task.size →
          s1.task.body =
            int2buff ((min s.channel.queue.chain.length c : Nat) : Int) ++
              (s.task.body.take P.receipt_header_size).drop 4 ++
              receipt_cells (s.channel.queue.chain.take (min s.channel.queue.chain.length c)) ++
              s.task.body.drop
                (P.receipt_header_size + 8 * min s.channel.queue.chain.length c)) := by
  have hb := check_report_req_receipt_build P s c hlen hwait hq hc hroom
  have hn : 0 < s.channel.queue.chain.length := List.length_pos.2 hq
  refine ⟨_, hb, by omega, ?_, ?_, rfl, rfl, rfl, rfl, rfl, rfl, rfl, rfl, rfl, rfl, rfl, rfl, ?_⟩
  · by_cases hsplit : c < s.channel.queue.chain.length
    · have hmin : min s.channel.queue.chain.length c = c := by omega
      simp only [hsplit, if_true, hmin]
    · have hmin : min s.channel.queue.chain.length c = s.channel.queue.chain.length := by omega
      simp only [hsplit, if_false, hmin, List.take_length]
  · by_cases hsplit : c < s.channel.queue.chain.length
    · have hmin : min s.channel.queue.chain.length c = c := by omega
      simp only [hsplit, if_true, hmin]
    · have hmin : min s.channel.queue.chain.length c = s.channel.queue.chain.length := by omega
      simp only [hsplit, if_false, hmin, List.drop_length]
  · intro hrs hbody
    have hk : P.receipt_header_size + 8 * min s.channel.queue.chain.length c ≤
        s.task.body.length := by
      obtain ⟨hlow, -, -⟩ := hroom
      push_cast at hlow hbody
      omega
    show buf_write _ 0 _ = _
    rw [report_loop_body P s.task c hroom s.channel.queue.chain s.task.body hk]
    unfold buf_write
    simp only [List.take_zero, List.nil_append, Nat.zero_add, int2buff_length,
      List.append_assoc]
    rw [List.drop_append_of_le_length (by rw [List.length_take]; omega)]

theorem report_req_receipt_request_of_count (P : ProtoConsts) (s s1 : ReceiptState)
    (result count : Int) (update_lru : Bool)
    (h : check_report_req_receipt P s = some (result, count, s1)) (hcount : count ≠ 0) :
    report_req_receipt_request P s update_lru =
      some (result, if result = 0 ∧ update_lru = true then update_lru_chain s1 else s1) := by
  unfold report_req_receipt_request
  rw [h]
  by_cases hr : result = 0
  · cases update_lru <;> simp [hr, hcount]
  · simp [hr]

theorem task_reset_facts (s : ReceiptState) :
    (task_reset s).task.length = 0 ∧ (task_reset s).task.size = s.task.size ∧
      (task_reset s).task.body = s.task.body ∧ (task_reset s).task.header = s.task.header ∧
      (task_reset s).channel = s.channel ∧ (task_reset s).nodes = s.nodes ∧
      (task_reset s).reported = s.reported ∧ (task_reset s).nio_results = s.nio_results ∧
      (task_reset s).g_current_time = s.g_current_time :=
  ⟨rfl, rfl, rfl, rfl, rfl, rfl, rfl, rfl, rfl⟩

theorem update_lru_chain_facts (s : ReceiptState) :
    (update_lru_chain s).task = s.task ∧
      (update_lru_chain s).channel.id = s.channel.id ∧
      (update_lru_chain s).channel.key = s.channel.key ∧
      (update_lru_chain s).channel.established = s.channel.established ∧
      (update_lru_chain s).channel.queue = s.channel.queue ∧
      (update_lru_chain s).channel.waiting_resp_qinfo = s.channel.waiting_resp_qinfo ∧
      (update_lru_chain s).channel.receipt_allocator = s.channel.receipt_allocator ∧
      (update_lru_chain s).reported = s.reported ∧
      (update_lru_chain s).nio_results = s.nio_results ∧
      (update_lru_chain s).g_current_time = s.g_current_time :=
  ⟨rfl, rfl, rfl, rfl, rfl, rfl, rfl, rfl, rfl, rfl⟩

theorem setup_channel_state (s : ReceiptState) (cid ckey : Int)
    (hest : s.channel.established = 0) (hW : s.channel.waiting_resp_qinfo.chain ≠ []) :
    repush_waiting_resp (channel_set_established
      { s with channel := idempotency_client_channel_set_id_key s.channel cid ckey }) =
    { s with
        channel := { s.channel with
          id := cid
          key := ckey
          established := 1
          queue := fc_queue_push_queue_to_head_ex s.channel.queue s.channel.waiting_resp_qinfo
          waiting_resp_qinfo := { chain := [], tail := none } }
        nodes := fc_list_add_tail s.nodes s.channel.dlink thread_ctx_head } := by
  unfold channel_set_established idempotency_client_channel_set_id_key
  dsimp only
  rw [if_pos hest]
  unfold repush_waiting_resp
  dsimp only
  rw [if_pos hW]

theorem setup_channel_state_facts (s : ReceiptState) (cid ckey : Int)
    (hest : s.channel.established = 0) (hW : s.channel.waiting_resp_qinfo.chain ≠ []) :
    (repush_waiting_resp (channel_set_established
        { s with channel := idempotency_client_channel_set_id_key s.channel cid ckey })).task
        = s.task ∧
      (repush_waiting_resp (channel_set_established
        { s with channel :=
          idempotency_client_channel_set_id_key s.channel cid ckey })).channel.id = cid ∧
      (repush_waiting_resp (channel_set_established
        { s with channel :=
          idempotency_client_channel_set_id_key s.channel cid ckey })).channel.key = ckey ∧
      (repush_waiting_resp (channel_set_established
        { s with channel :=
          idempotency_client_channel_set_id_key s.channel cid ckey })).channel.established
        = 1 ∧
      (repush_waiting_resp (channel_set_established
        { s with channel :=
          idempotency_client_channel_set_id_key s.channel cid ckey })).channel.queue.chain
        = s.channel.waiting_resp_qinfo.chain ++ s.channel.queue.chain ∧
      (repush_waiting_resp (channel_set_established
        { s with channel :=
          idempotency_client_channel_set_id_key s.channel cid ckey })).channel.waiting_resp_qinfo
        = { chain := [], tail := none } ∧
      (repush_waiting_resp (channel_set_established
        { s with channel :=
          idempotency_client_channel_set_id_key s.channel cid ckey })).channel.receipt_allocator
        = s.channel.receipt_allocator ∧
      (repush_waiting_resp (channel_set_established
        { s with channel :=
          idempotency_client_channel_set_id_key s.channel cid ckey })).reported = s.reported ∧
      (repush_waiting_resp (channel_set_established
        { s with channel :=
          idempotency_client_channel_set_id_key s.channel cid ckey })).nio_results
        = s.nio_results := by
  have hpush : (fc_queue_push_queue_to_head_ex s.channel.queue
      s.channel.waiting_resp_qinfo).chain =
      s.channel.waiting_resp_qinfo.chain ++ s.channel.queue.chain := by
    unfold fc_queue_push_queue_to_head_ex
    rw [if_neg hW]
  rw [setup_channel_state s cid ckey hest hW]
  exact ⟨rfl, rfl, rfl, rfl, hpush, rfl, rfl, rfl, rfl⟩

theorem deal_setup_channel_response_ok (P : ProtoConsts) (s : ReceiptState)
    (hlenb : response_body_length P s.task = SETUP_CHANNEL_BODY_SIZE)
    (hest : s.channel.established = 0)
    (hW : s.channel.waiting_resp_qinfo.chain ≠ []) :
    ∃ x : ReceiptState,
      deal_setup_channel_response P s = (0, x) ∧ x.task = s.task ∧
        x.channel.id = buff2int (buf_read s.task.body 0 4) ∧
        x.channel.key = buff2int (buf_read s.task.body 4 4) ∧
        x.channel.established = 1 ∧
        x.channel.queue.chain = s.channel.waiting_resp_qinfo.chain ++ s.channel.queue.chain ∧
        x.channel.waiting_resp_qinfo = { chain := [], tail := none } ∧
        x.channel.receipt_allocator = s.channel.receipt_allocator ∧
        x.reported = s.reported ∧ x.nio_results = s.nio_results := by
  have h1 : receipt_expect_body_length P s.task SETUP_CHANNEL_BODY_SIZE = 0 := by
    unfold receipt_expect_body_length
    rw [if_neg (not_not.2 hlenb)]
  refine ⟨repush_waiting_resp (channel_set_established
    { s with channel :=
      (idempotency_client_channel_set_id_key s.channel
        (buff2int (buf_read s.task.body 0 4)) (buff2int (buf_read s.task.body 4 4))) }), ?_,
    setup_channel_state_facts s (buff2int (buf_read s.task.body 0 4))
      (buff2int (buf_read s.task.body 4 4)) hest hW⟩
  unfold deal_setup_channel_response
  rw [h1, if_neg (fun h => h rfl), if_neg (not_not.2 hest)]

theorem deal_response_setup_channel (P : ProtoConsts) (s : ReceiptState) (c : Nat)
    (hstatus : buff2short s.task.header.status = 0)
    (hcmd : s.task.header.cmd = P.FS_SERVICE_PROTO_SETUP_CHANNEL_RESP)
    (hlenb : response_body_length P s.task = SETUP_CHANNEL_BODY_SIZE)
    (hest : s.channel.established = 0)
    (hW : s.channel.waiting_resp_qinfo.chain ≠ [])
    (hc : 1 ≤ c) (hroom : room_for P s.task c) :
    ∃ s2 : ReceiptState,
      deal_response P s = some (s.nio_results.headD 0, s2) ∧
        s2.channel.id = buff2int (buf_read s.task.body 0 4) ∧
        s2.channel.key = buff2int (buf_read s.task.body 4 4) ∧
        s2.channel.established = 1 ∧
        s2.reported = s.reported ++
          [(s.channel.waiting_resp_qinfo.chain ++ s.channel.queue.chain).take
            (min (s.channel.waiting_resp_qinfo.chain ++ s.channel.queue.chain).length c)] ∧
        s2.channel.waiting_resp_qinfo.chain =
          (s.channel.waiting_resp_qinfo.chain ++ s.channel.queue.chain).take
            (min (s.channel.waiting_resp_qinfo.chain ++ s.channel.queue.chain).length c) ∧
        s2.channel.queue.chain =
          (s.channel.waiting_resp_qinfo.chain ++ s.channel.queue.chain).drop
            (min (s.channel.waiting_resp_qinfo.chain ++ s.channel.queue.chain).length c) ∧
        s2.task.header.cmd = P.FS_SERVICE_PROTO_REPORT_REQ_RECEIPT_REQ ∧
        (4 ≤ P.receipt_header_size →
          ((P.header_size + s.task.body.length : Nat) : Int) = s.task.size →
          s2.task.body =
            int2buff ((min (s.channel.waiting_resp_qinfo.chain ++
                s.channel.queue.chain).length c : Nat) : Int) ++
              (s.task.body.take P.receipt_header_size).drop 4 ++
              receipt_cells ((s.channel.waiting_resp_qinfo.chain ++ s.channel.queue.chain).take
                (min (s.channel.waiting_resp_qinfo.chain ++ s.channel.queue.chain).length c)) ++
              s.task.body.drop (P.receipt_header_size +
                8 * min (s.channel.waiting_resp_qinfo.chain ++
                  s.channel.queue.chain).length c)) := by
  obtain ⟨x, hx, x1, x2, x3, x4, x5, x6, -, x8, x9⟩ :=
    deal_setup_channel_response_ok P s hlenb hest hW
  generalize buff2int (buf_read s.task.body 0 4) = cid at x2 ⊢
  generalize buff2int (buf_read s.task.body 4 4) = ckey at x3 ⊢
  have hdr : deal_response P s = report_req_receipt_request P
      (task_reset (update_lru_chain x)) false := by
    unfold deal_response deal_response_cmd
    rw [if_neg (not_not.2 hstatus), if_pos hcmd, hx, if_pos rfl]
  have tr := task_reset_facts (update_lru_chain x)
  have ul := update_lru_chain_facts x
  generalize ht : task_reset (update_lru_chain x) = t at hdr tr
  generalize hu : update_lru_chain x = u at tr ul
  obtain ⟨tr1, tr2, tr3, -, tr5, -, tr7, tr8, -⟩ := tr
  obtain ⟨ul1, ul2, ul3, ul4, ul5, ul6, -, ul8, ul9, -⟩ := ul
  have t2 : t.channel.waiting_resp_qinfo.chain = [] := by rw [tr5, ul6, x6]
  have t3 : t.channel.queue.chain =
      s.channel.waiting_resp_qinfo.chain ++ s.channel.queue.chain := by rw [tr5, ul5, x5]
  have t4 : t.task.size = s.task.size := by rw [tr2, ul1, x1]
  have t5 : t.task.body = s.task.body := by rw [tr3, ul1, x1]
  have t6 : t.reported = s.reported := by rw [tr7, ul8, x8]
  have t7 : t.nio_results = s.nio_results := by rw [tr8, ul9, x9]
  have t8 : t.channel.id = cid := by rw [tr5, ul2, x2]
  have t9 : t.channel.key = ckey := by rw [tr5, ul3, x3]
  have t10 : t.channel.established = 1 := by rw [tr5, ul4, x4]
  have hroom2 : room_for P t.task c := by
    unfold room_for at hroom ⊢
    rw [t4]
    exact hroom
  obtain ⟨s1, h1, hk, h2, h3, h4, h5, h6, h7, -, -, -, -, -, -, -, h8, h9⟩ :=
    check_report_req_receipt_chains P t c (by rw [tr1]; decide) t2
      (by rw [t3]; simp [hW]) hc hroom2
  rw [t3] at h1 hk h2 h3 h4 h9
  rw [t7] at h1
  refine ⟨s1, ?_, by rw [h5, t8], by rw [h6, t9], by rw [h7, t10], by rw [h4, t6], h2, h3, h8,
    ?_⟩
  · rw [hdr, report_req_receipt_request_of_count P t s1 _ _ false h1 (by omega)]
    simp
  · intro hrs hbody
    rw [t5, t4] at h9
    exact h9 hrs hbody

/-- C14: a `SETUP_CHANNEL_RESP` with status 0 and the expected body length on
a channel that is not established, with `waiting_resp_qinfo = W` (not empty)
and producer queue `Q`.  `deal_setup_channel_response` returns 0, sets
`(id, key)` to the two big-endian numbers of the body, sets `established`,
and leaves the producer queue `W ++ Q` and `waiting_resp_qinfo` empty.  When
the buffer has room for `c ≥ 1` cells, `receipt_deal_task` then builds the
next request from the first `min (|W| + |Q|) c` receipts of `W ++ Q`: the
receipts of `W` in their order, before any receipt of `Q`. -/
theorem setup_channel_response_retransmits (P : ProtoConsts) (s : ReceiptState) (c : Nat)
    (hstage : s.task.stage ≠ NioStage.HANDSHAKE ∧ s.task.stage ≠ NioStage.CONTINUE)
    (hstatus : buff2short s.task.header.status = 0)
    (hcmd : s.task.header.cmd = P.FS_SERVICE_PROTO_SETUP_CHANNEL_RESP)
    (hlenb : response_body_length P s.task = SETUP_CHANNEL_BODY_SIZE)
    (hest : s.channel.established = 0)
    (hW : s.channel.waiting_resp_qinfo.chain ≠ [])
    (hc : 1 ≤ c) (hroom : room_for P s.task c) :
    ((deal_setup_channel_response P s).1 = 0 ∧
        (deal_setup_channel_response P s).2.channel.id = buff2int (buf_read s.task.body 0 4) ∧
        (deal_setup_channel_response P s).2.channel.key = buff2int (buf_read s.task.body 4 4) ∧
        (deal_setup_channel_response P s).2.channel.established = 1 ∧
        (deal_setup_channel_response P s).2.channel.queue.chain =
          s.channel.waiting_resp_qinfo.chain ++ s.channel.queue.chain ∧
        (deal_setup_channel_response P s).2.channel.waiting_resp_qinfo =
          { chain := [], tail := none }) ∧
      ∃ (result : Int) (s2 : ReceiptState),
        receipt_deal_task P s = some (result, s2) ∧
          s2.channel.id = buff2int (buf_read s.task.body 0 4) ∧
          s2.channel.key = buff2int (buf_read s.task.body 4 4) ∧
          s2.channel.established = 1 ∧
          s2.reported = s.reported ++
            [(s.channel.waiting_resp_qinfo.chain ++ s.channel.queue.chain).take
              (min (s.channel.waiting_resp_qinfo.chain ++ s.channel.queue.chain).length c)] ∧
          s2.channel.waiting_resp_qinfo.chain =
            (s.channel.waiting_resp_qinfo.chain ++ s.channel.queue.chain).take
              (min (s.channel.waiting_resp_qinfo.chain ++ s.channel.queue.chain).length c) ∧
          s2.channel.queue.chain =
            (s.channel.waiting_resp_qinfo.chain ++ s.channel.queue.chain).drop
              (min (s.channel.waiting_resp_qinfo.chain ++ s.channel.queue.chain).length c) ∧
          s2.task.header.cmd = P.FS_SERVICE_PROTO_REPORT_REQ_RECEIPT_REQ ∧
          (4 ≤ P.receipt_header_size →
            ((P.header_size + s.task.body.length : Nat) : Int) = s.task.size →
            s2.task.body =
              int2buff ((min (s.channel.waiting_resp_qinfo.chain ++
                  s.channel.queue.chain).length c : Nat) : Int) ++
                (s.task.body.take P.receipt_header_size).drop 4 ++
                receipt_cells
                  ((s.channel.waiting_resp_qinfo.chain ++ s.channel.queue.chain).take
                    (min (s.channel.waiting_resp_qinfo.chain ++
                      s.channel.queue.chain).length c)) ++
                s.task.body.drop (P.receipt_header_size +
                  8 * min (s.channel.waiting_resp_qinfo.chain ++
                    s.channel.queue.chain).length c)) := by
  refine ⟨?_, ?_⟩
  · obtain ⟨x, hx, -, x2, x3, x4, x5, x6, -, -, -⟩ :=
      deal_setup_channel_response_ok P s hlenb hest hW
    rw [hx]
    exact ⟨rfl, x2, x3, x4, x5, x6⟩
  · obtain ⟨s2, h0, h⟩ := deal_response_setup_channel P s c hstatus hcmd hlenb hest hW hc hroom
    refine ⟨if s.nio_results.headD 0 > 0 then -1 * s.nio_results.headD 0
      else s.nio_results.headD 0, s2, ?_, h⟩
    unfold receipt_deal_task deal_task_stage
    rw [if_neg hstage.1, if_neg hstage.2, h0]
    rfl

/-- C14 for `W = [1, 2, 3]` and `Q = [4, 5]` with the response body
`(id, key) = (7, 9)`: the channel is established with id 7 and key 9, and
the request built next carries 1, 2, 3, 4, 5 in this order. -/
theorem setup_channel_response_retransmits_witness :
    ∃ (result : Int) (s2 : ReceiptState),
      receipt_deal_task proto_example
          (receive_response proto_example
            (receipt_state 64 (receipts [4, 5]) (receipts [1, 2, 3])) 20 52 [0, 0]
            [0, 0, 0, 7, 0, 0, 0, 9]) = some (result, s2) ∧
        s2.channel.id = 7 ∧ s2.channel.key = 9 ∧ s2.channel.established = 1 ∧
        s2.reported = [receipts [1, 2, 3, 4, 5]] ∧
        s2.channel.waiting_resp_qinfo.chain = receipts [1, 2, 3, 4, 5] ∧
        s2.channel.queue.chain = [] := by
  obtain ⟨-, result, s2, h1, h2, h3, h4, h5, h6, h7, -, -⟩ :=
    setup_channel_response_retransmits proto_example
      (receive_response proto_example
        (receipt_state 64 (receipts [4, 5]) (receipts [1, 2, 3])) 20 52 [0, 0]
        [0, 0, 0, 7, 0, 0, 0, 9]) 7
      (by decide) (by decide) (by decide) (by decide) (by decide) (by decide) (by decide)
      ⟨by decide, by decide, by decide⟩
  exact ⟨result, s2, h1, h2, h3, h4, h5, h6, h7⟩
/-! ## Receipts are neither lost nor sent again -/

end SF
